import Mathlib

/-!
Verification development for the aipstack embedded TCP/IP stack.

This file gives a shallow embedding, in Lean 4, of the parts of the
aipstack sources that the verified properties concern:

* the IPv4 reassembly engine (`src/aipstack/ip/IpReassembly.h`),
* the TCP output engine (`src/aipstack/tcp/IpTcpProto_output.h`),
* the TCP protocol constants (`src/aipstack/tcp/IpTcpProto_constants.h`),
* ephemeral port allocation (`src/aipstack/tcp/IpTcpProto.h`),
* the pre-accept listen queue (`src/aipstack/utils/TcpListenQueue.h`).

Machine integers are modelled as `Nat` with explicit reductions modulo
`2^32` (TCP sequence numbers) or explicit saturation where the source
saturates.  Byte buffers are modelled as functions `Nat → Nat` holding
byte values.  Fallible operations return explicit result types.

A few small helpers of the repository are not present under the provided
sources (notably `tcp/TcpUtils.h` and the platform facade); definitions
for those are modelled from the specification and are marked as such in
their doc comments.
-/

namespace AIpStack

/-! ## Sequence number arithmetic (tcp/TcpUtils.h)

The file `tcp/TcpUtils.h` is not among the provided sources; these
helpers are modelled from the specification ("sequence comparisons are
modulo 2^32 via signed-difference"). -/

/-- Modulus of 32-bit TCP sequence arithmetic. -/
def seqMod : Nat := 2 ^ 32

/-- Modelled from the spec: `TcpUtils::seq_add`, addition of sequence
numbers modulo `2^32` (`tcp/TcpUtils.h` is missing from the sources). -/
def seq_add (a b : Nat) : Nat := (a + b) % seqMod

/-- Modelled from the spec: `TcpUtils::seq_diff`, subtraction of sequence
numbers modulo `2^32` (`tcp/TcpUtils.h` is missing from the sources). -/
def seq_diff (a b : Nat) : Nat := (a + seqMod - b % seqMod) % seqMod

/-- Modelled from the spec: `TcpUtils::seq_lt2`, the signed-difference
comparison `a < b` of sequence numbers (`tcp/TcpUtils.h` is missing from
the sources; the spec states "sequence comparisons are modulo 2^32 via
signed-difference"). -/
def seq_lt2 (a b : Nat) : Bool := 2 ^ 31 ≤ seq_diff a b

/-- Modelled from the spec: `TcpUtils::seq_add_sat`, saturating addition
of 32-bit quantities (`tcp/TcpUtils.h` is missing from the sources). -/
def seq_add_sat (a b : Nat) : Nat := min (a + b) (seqMod - 1)

/-- The modulo-`2^32` "less than or equal" relation on sequence numbers:
`a ≤ b` when the signed difference `b - a` is non-negative. -/
def seqLe (a b : Nat) : Prop := seq_diff b a < 2 ^ 31

instance (a b : Nat) : Decidable (seqLe a b) := by
  unfold seqLe; infer_instance

/-! ## TCP states and state predicates -/

/-- The TCP state enumeration (`tcp/TcpUtils.h` / RFC 793). -/
inductive TcpStateM where
  | CLOSED | SYN_SENT | SYN_RCVD | ESTABLISHED | FIN_WAIT_1 | FIN_WAIT_2
  | CLOSE_WAIT | LAST_ACK | CLOSING | TIME_WAIT
  deriving DecidableEq, Repr

/-- Modelled from the spec: `TcpUtils::can_output_in_state` — states in
which data/FIN output is possible (`tcp/TcpUtils.h` is missing from the
sources; per spec §4.5/§4.6 these are the states with something left to
send: ESTABLISHED, FIN_WAIT_1, CLOSING, CLOSE_WAIT, LAST_ACK). -/
def can_output_in_state (s : TcpStateM) : Bool :=
  match s with
  | .ESTABLISHED | .FIN_WAIT_1 | .CLOSING | .CLOSE_WAIT | .LAST_ACK => true
  | _ => false

/-- Modelled from the spec: `TcpUtils::snd_open_in_state` — states in
which sending has not been shut down (`tcp/TcpUtils.h` is missing from
the sources; per spec §4.5, `shutdown_send` moves ESTABLISHED to
FIN_WAIT_1 and CLOSE_WAIT to LAST_ACK, so sending is open exactly in
ESTABLISHED and CLOSE_WAIT). -/
def snd_open_in_state (s : TcpStateM) : Bool :=
  match s with
  | .ESTABLISHED | .CLOSE_WAIT => true
  | _ => false

/-! ## TCP constants (tcp/IpTcpProto_constants.h) -/

/-- `RttType` is a 16-bit type (its definition lives in a part of
`IpTcpProto.h` not among the provided sources); `RttTypeMax` is its
maximum value. -/
def RttTypeMax : Nat := 2 ^ 16 - 1

/-- `Constants::MaxWindow = 0x3fffffff` (`IpTcpProto_constants.h`). -/
def MaxWindow : Nat := 0x3fffffff

/-- `Constants::MinRtxTime = 0.25 * RttTimeFreq`
(`IpTcpProto_constants.h`); `rttTimeFreq` is the number of RTT time
units per second provided by the platform. -/
def MinRtxTime (rttTimeFreq : Nat) : Nat := rttTimeFreq / 4

/-- `Constants::MaxRtxTime = MinValue(RttTypeMaxDbl, 60 * RttTimeFreq)`
(`IpTcpProto_constants.h`). -/
def MaxRtxTime (rttTimeFreq : Nat) : Nat := min RttTypeMax (60 * rttTimeFreq)

/-- `Constants::FastRtxDupAcks = 3` (`IpTcpProto_constants.h`). -/
def FastRtxDupAcks : Nat := 3

/-- `Constants::MaxAdditionaDupAcks = 32` (`IpTcpProto_constants.h`). -/
def MaxAdditionaDupAcks : Nat := 32

/-- `AbsoluteDiff` from `misc/MinMax.h` (file not among the provided
sources): the absolute difference of two unsigned values. -/
def AbsoluteDiff (a b : Nat) : Nat := max a b - min a b

/-! ## The PCB model

`TcpPcb` and the `Connection` variables `m_v` are modelled as records.
The 14 PCB flag bits are modelled as named booleans.  Timers are
modelled by whether they are set (their deadlines play no role in the
verified properties).  The send buffer and its unsent suffix are
modelled by their `tot_len` values, which is all the output engine
inspects. -/

/-- The PCB flag word (`IpTcpProto.h`, struct `PcbFlags`), one boolean
per flag bit. -/
structure PcbFlagsM where
  ack_pending : Bool := false
  out_pending : Bool := false
  fin_sent : Bool := false
  fin_pending : Bool := false
  rtt_pending : Bool := false
  rtt_valid : Bool := false
  cwnd_incrd : Bool := false
  rtx_active : Bool := false
  recover : Bool := false
  idle_timer : Bool := false
  wnd_scale : Bool := false
  cwnd_init : Bool := false
  out_retry : Bool := false
  rcv_wnd_upd : Bool := false
  deriving DecidableEq, Repr

/-- The `Connection` variables `m_v` used by the output engine
(`TcpConnection.h` / spec §3 "Connection Object"): buffer references are
modelled by their `tot_len` values. -/
structure ConnVars where
  snd_buf_len : Nat
  snd_buf_cur_len : Nat
  snd_psh_index : Nat
  snd_wnd : Nat
  cwnd : Nat
  ssthresh : Nat
  cwnd_acked : Nat
  recover : Nat
  rtt_test_seq : Nat
  srtt : Nat
  rttvar : Nat
  deriving DecidableEq, Repr

/-- The TCP protocol control block (`IpTcpProto.h`, struct `TcpPcb`),
restricted to the fields the output engine reads or writes. -/
structure PcbM where
  state : TcpStateM
  flags : PcbFlagsM
  snd_una : Nat
  snd_nxt : Nat
  rcv_nxt : Nat
  snd_mss : Nat
  num_dupack : Nat
  rto : Nat
  rtt_test_time : Nat
  con : Option ConnVars
  rtx_timer_set : Bool
  output_timer_set : Bool
  abrt_timer_set : Bool
  deriving DecidableEq, Repr

/-- IP layer send errors (`infra/Err.h` is not among the provided
sources; the enumeration is listed in spec §6). -/
inductive IpErrM where
  | SUCCESS | BUFFER_FULL | FRAG_NEEDED | NO_PORT_AVAIL | NO_PCB_AVAIL | NO_ROUTE
  deriving DecidableEq, Repr

/-! ## RTT measurement (IpTcpProto_output.h, pcb_end_rtt_measurement) -/

/-- `pcb_end_rtt_measurement` (`IpTcpProto_output.h` lines 805-839).
`rttTimeFreq` parametrises the platform RTT-unit frequency, `rttShift`
is `TcpProto::RttShift`, and `time_diff` is the platform time difference
`getTime() - rtt_test_time` (the platform facade is not among the
provided sources).  If the PCB has no connection the function is not
called (asserted); the model returns the PCB unchanged in that case. -/
def pcb_end_rtt_measurement (rttTimeFreq rttShift : Nat) (time_diff : Nat)
    (pcb : PcbM) : PcbM :=
  match pcb.con with
  | none => pcb
  | some con =>
    let flags1 := { pcb.flags with rtt_pending := false }
    let this_rtt := min RttTypeMax (time_diff >>> rttShift)
    let upd :=
      if !pcb.flags.rtt_valid then
        ({ flags1 with rtt_valid := true },
         { con with rttvar := this_rtt / 2, srtt := this_rtt })
      else
        let rtt_diff := AbsoluteDiff con.srtt this_rtt
        (flags1,
         { con with rttvar := (3 * con.rttvar + rtt_diff) / 4,
                    srtt := (7 * con.srtt + this_rtt) / 8 })
    let con' := upd.2
    let k_rttvar := if RttTypeMax / 4 < con'.rttvar then RttTypeMax else 4 * con'.rttvar
    let var_part := max 1 k_rttvar
    let base_rto := if RttTypeMax - con'.srtt < var_part then RttTypeMax
                    else con'.srtt + var_part
    let rto' := max (MinRtxTime rttTimeFreq) (min (MaxRtxTime rttTimeFreq) base_rto)
    { pcb with flags := upd.1, con := some con', rto := rto' }

/-! ## The output engine (IpTcpProto_output.h)

Outgoing segments are recorded as `SegMsg` values, one per call of
`PcbOutputHelper::sendSegment` / `send_tcp_nodata`; the IP layer's
result for the `k`-th send attempt of a call is supplied as a function
argument `errs k`. -/

/-- A TCP segment handed to the IP send path: its sequence number, its
data length and its FIN/PSH flags (the ACK flag is always set). -/
structure SegMsg where
  seq : Nat
  dataLen : Nat
  finFlag : Bool
  pshFlag : Bool
  deriving DecidableEq, Repr

/-- Modelled from the spec: `TcpUtils::InOpenClosedIntervalStartLen`
(`tcp/TcpUtils.h` is missing from the sources) — membership of `x` in
the open-closed interval `(start, start+len]`, used to set the PSH flag
when the segment spans `snd_psh_index`. -/
def InOpenClosedIntervalStartLen (start len x : Nat) : Bool :=
  decide (start < x) && decide (x ≤ start + len)

/-- `pcb_has_snd_outstanding` (`IpTcpProto_output.h` lines 204-220):
there is unacknowledged or unsent data or FIN. -/
def pcb_has_snd_outstanding (pcb : PcbM) : Bool :=
  if !snd_open_in_state pcb.state then true
  else match pcb.con with
       | none => false
       | some con => decide (0 < con.snd_buf_len)

/-- `pcb_has_snd_unacked` (`IpTcpProto_output.h` lines 225-234). -/
def pcb_has_snd_unacked (pcb : PcbM) : Bool :=
  (match pcb.con with
   | some con => decide (con.snd_buf_cur_len < con.snd_buf_len)
   | none => false) ||
  (!snd_open_in_state pcb.state && !pcb.flags.fin_pending)

/-- `pcb_start_rtt_measurement` (`IpTcpProto_output.h` lines 1179-1193);
`now` is the platform time. -/
def pcb_start_rtt_measurement (now : Nat) (syn : Bool) (pcb : PcbM) : PcbM :=
  let pcb1 := { pcb with flags := { pcb.flags with rtt_pending := true },
                         rtt_test_time := now }
  if syn then pcb1
  else match pcb1.con with
       | none => pcb1
       | some con => { pcb1 with con := some { con with rtt_test_seq := pcb1.snd_nxt } }

/-- `pcb_set_output_timer_for_retry` (`IpTcpProto_output.h` lines
1050-1059); only whether the OutputTimer is set is modelled. -/
def pcb_set_output_timer_for_retry (pcb : PcbM) : PcbM :=
  { pcb with output_timer_set := true,
             flags := { pcb.flags with out_retry := true } }

/-- Result of `pcb_output_segment`: the IP error, the updated PCB, the
segment handed to `sendSegment` and the output parameter
`out_seg_seqlen` (meaningful only on success, like the source's out
parameter). -/
structure SegOut where
  err : IpErrM
  pcb : PcbM
  attempt : SegMsg
  seqlen : Nat
  deriving DecidableEq, Repr

/-- The segment assembled by `pcb_output_segment` (`IpTcpProto_output.h`
lines 1075-1109) before it is handed to `sendSegment`: data length
`min(remaining data, remaining window, snd_mss)`, FIN when a FIN is
queued, no more data follows and the window allows it, PSH when the
segment spans `snd_psh_index` or carries the FIN, sequence number
`snd_una + offset` for `offset` the distance from the start of the send
buffer. -/
def segAttempt (pcb : PcbM) (con : ConnVars) (dataTotLen : Nat) (fin : Bool)
    (rem_wnd : Nat) : SegMsg :=
  let dataLen := min dataTotLen (min rem_wnd pcb.snd_mss)
  let finFlag := decide (dataTotLen < dataLen + (if fin then 1 else 0)) &&
                 decide (dataLen < rem_wnd)
  let offset := con.snd_buf_len - dataTotLen
  { seq := seq_add pcb.snd_una offset,
    dataLen := dataLen,
    finFlag := finFlag,
    pshFlag := InOpenClosedIntervalStartLen offset dataLen con.snd_psh_index || finFlag }

/-- Sub-step of `pcb_output_segment` (`IpTcpProto_output.h` lines
1117-1123): set the FIN_SENT flag when a FIN was sent. -/
def segMarkFinSent (finFlag : Bool) (pcb : PcbM) : PcbM :=
  if finFlag then { pcb with flags := { pcb.flags with fin_sent := true } } else pcb

/-- Sub-step of `pcb_output_segment` (`IpTcpProto_output.h` lines
1128-1135): stop the RTT measurement when the retransmitted segment
covers the test sequence number. -/
def segStopRtt (rttTestSeq seqNum segSeqlen : Nat) (pcb : PcbM) : PcbM :=
  if pcb.flags.rtt_pending && decide (seq_diff rttTestSeq seqNum < segSeqlen) then
    { pcb with flags := { pcb.flags with rtt_pending := false } }
  else pcb

/-- Sub-step of `pcb_output_segment` (`IpTcpProto_output.h` lines
1137-1150): when the segment ends past `snd_nxt`, possibly start an RTT
measurement and bump `snd_nxt` to the segment end. -/
def segAdvanceSndNxt (now segEndseq : Nat) (pcb : PcbM) : PcbM :=
  if seq_lt2 pcb.snd_nxt segEndseq then
    let pcb4 := if !pcb.flags.rtt_pending then pcb_start_rtt_measurement now false pcb
                else pcb
    { pcb4 with snd_nxt := segEndseq }
  else pcb

/-- `pcb_output_segment` (`IpTcpProto_output.h` lines 1064-1153).
`dataTotLen` is `data.tot_len` of the `IpBufRef` argument (the logic
inspects only the length), `sendErr` is the result of
`helper.sendSegment`, `now` is the platform time.  The source asserts
`pcb->con != nullptr`; for `con == none` the PCB is returned unchanged. -/
def pcb_output_segment (now : Nat) (sendErr : IpErrM) (pcb : PcbM)
    (dataTotLen : Nat) (fin : Bool) (rem_wnd : Nat) : SegOut :=
  match pcb.con with
  | none => ⟨sendErr, pcb, ⟨0, 0, false, false⟩, 0⟩
  | some con =>
    let attempt := segAttempt pcb con dataTotLen fin rem_wnd
    if sendErr ≠ IpErrM.SUCCESS then
      ⟨sendErr, pcb, attempt, 0⟩
    else
      let seg_seqlen := attempt.dataLen + (if attempt.finFlag then 1 else 0)
      let pcb3 := segAdvanceSndNxt now (seq_add attempt.seq seg_seqlen)
        (segStopRtt con.rtt_test_seq attempt.seq seg_seqlen
          (segMarkFinSent attempt.finFlag pcb))
      ⟨IpErrM.SUCCESS, pcb3, attempt, seg_seqlen⟩

/-- Result of `pcb_output_active`/`pcb_output_abandoned`: the updated
PCB and the send attempts made, in order. -/
structure OutRes where
  pcb : PcbM
  sent : List SegMsg
  deriving DecidableEq, Repr

/-- The effect of `snd_buf_cur->skipBytes(data_sent)` in the send loop
of `pcb_output_active`: advance the unsent suffix of the send buffer. -/
def conSkipCurBytes (pcb : PcbM) (n : Nat) : PcbM :=
  match pcb.con with
  | none => pcb
  | some con =>
    { pcb with con := some { con with snd_buf_cur_len := con.snd_buf_cur_len - n } }

/-- Result of the send loop of `pcb_output_active`: `early` records
whether the `rtx_or_window_probe` return path was taken (skipping the
timer logic after the loop). -/
structure LoopRes where
  pcb : PcbM
  sent : List SegMsg
  early : Bool
  deriving DecidableEq, Repr

/-- The send loop of `pcb_output_active` (`IpTcpProto_output.h` lines
316-377).  `k` counts the send attempts (indexing `errs`); the loop
terminates because `rem_wnd` strictly decreases on each continued
iteration (the fuel never runs out when started with `rem_wnd + 1`).
On `FRAG_NEEDED` the source additionally clamps the IP-layer PMTU
estimate (`handleLocalPacketTooBig`), which is state outside the PCB and
not modelled here. -/
def outActiveLoop (now : Nat) (errs : Nat → IpErrM) (rtx : Bool) (thresh : Nat) :
    Nat → Nat → PcbM → Bool → Nat → List SegMsg → LoopRes
  | 0, _, pcb, _, _, acc => ⟨pcb, acc.reverse, false⟩
  | fuel + 1, k, pcb, fin, rem_wnd, acc =>
    match pcb.con with
    | none => ⟨pcb, acc.reverse, false⟩
    | some con =>
      let curLen := if rtx then con.snd_buf_len else con.snd_buf_cur_len
      if (decide (thresh < curLen) || fin) && decide (0 < rem_wnd) then
        let r := pcb_output_segment now (errs k) pcb curLen fin rem_wnd
        if rtx then
          ⟨r.pcb, (r.attempt :: acc).reverse, true⟩
        else if r.err ≠ IpErrM.SUCCESS then
          ⟨pcb_set_output_timer_for_retry r.pcb, (r.attempt :: acc).reverse, false⟩
        else
          let seg_seqlen := r.seqlen
          let step :=
            if decide (curLen < seg_seqlen) then
              (curLen, { r.pcb with flags := { r.pcb.flags with fin_pending := false } },
               false)
            else (seg_seqlen, r.pcb, fin)
          let data_sent := step.1
          let pcbA := step.2.1
          let fin' := step.2.2
          let pcbB :=
            if decide (0 < data_sent) then conSkipCurBytes pcbA data_sent else pcbA
          let pcbC := { pcbB with flags := { pcbB.flags with ack_pending := false } }
          outActiveLoop now errs rtx thresh fuel (k + 1) pcbC fin' (rem_wnd - seg_seqlen)
            (r.attempt :: acc)
      else ⟨pcb, acc.reverse, false⟩

/-- `pcb_output_active` (`IpTcpProto_output.h` lines 248-398).  The
source asserts `pcb->con != nullptr`; for `con == none` the PCB is
returned unchanged with no send attempts. -/
def pcb_output_active (now : Nat) (errs : Nat → IpErrM) (fuel : Nat)
    (pcb : PcbM) (rtx_or_window_probe : Bool) : OutRes :=
  match pcb.con with
  | none => ⟨pcb, []⟩
  | some con =>
    let p : Nat × Nat × Bool :=
      if rtx_or_window_probe then
        (max 1 con.snd_wnd, 0, !snd_open_in_state pcb.state)
      else
        let full_wnd := min con.snd_wnd con.cwnd
        let snd_offset := con.snd_buf_len - con.snd_buf_cur_len
        let rem_wnd := if snd_offset ≤ full_wnd then full_wnd - snd_offset else 0
        let psh_to_end := con.snd_buf_len - con.snd_psh_index
        (rem_wnd, min psh_to_end (pcb.snd_mss - 1), pcb.flags.fin_pending)
    let lr := outActiveLoop now errs rtx_or_window_probe p.2.1 fuel 0 pcb p.2.2 p.1 []
    if lr.early then ⟨lr.pcb, lr.sent⟩
    else
      let pcb1 := if lr.pcb.flags.idle_timer then
                    { lr.pcb with flags := { lr.pcb.flags with idle_timer := false },
                                  rtx_timer_set := false }
                  else lr.pcb
      let pcb2 :=
        if !pcb1.rtx_timer_set then
          if pcb_has_snd_unacked pcb1 ||
             (match pcb1.con with | some c => decide (c.snd_wnd = 0) | none => false) then
            { pcb1 with rtx_timer_set := true }
          else pcb1
        else pcb1
      ⟨pcb2, lr.sent⟩

/-- `pcb_output_abandoned` (`IpTcpProto_output.h` lines 405-460); the
PCB has no connection (asserted).  `sendErr` is the result of
`send_tcp_nodata` for the FIN segment, when one is sent. -/
def pcb_output_abandoned (sendErr : IpErrM) (pcb : PcbM)
    (rtx_or_window_probe : Bool) : OutRes :=
  let fin := if rtx_or_window_probe then true else pcb.flags.fin_pending
  if fin then
    let attempt : SegMsg := ⟨pcb.snd_una, 0, true, true⟩
    let pcb1 :=
      if sendErr = IpErrM.SUCCESS then
        let pcbA := { pcb with flags := { pcb.flags with fin_sent := true } }
        if pcbA.snd_nxt = pcbA.snd_una then
          { pcbA with snd_nxt := (pcbA.snd_nxt + 1) % seqMod }
        else pcbA
      else pcb
    if rtx_or_window_probe then ⟨pcb1, [attempt]⟩
    else
      let pcb2 :=
        if sendErr ≠ IpErrM.SUCCESS then pcb_set_output_timer_for_retry pcb1
        else { pcb1 with flags :=
                 { pcb1.flags with fin_pending := false, ack_pending := false } }
      let pcb3 :=
        if !pcb2.rtx_timer_set then
          if !pcb2.flags.fin_pending then { pcb2 with rtx_timer_set := true } else pcb2
        else pcb2
      ⟨pcb3, [attempt]⟩
  else
    let pcb3 :=
      if !pcb.rtx_timer_set then
        if !pcb.flags.fin_pending then { pcb with rtx_timer_set := true } else pcb
      else pcb
    ⟨pcb3, []⟩

/-- `pcb_output` (`IpTcpProto_output.h` lines 466-476): dispatch to
`pcb_output_active` or `pcb_output_abandoned`. -/
def pcb_output (now : Nat) (errs : Nat → IpErrM) (fuel : Nat)
    (pcb : PcbM) (rtx_or_window_probe : Bool) : OutRes :=
  match pcb.con with
  | some _ => pcb_output_active now errs fuel pcb rtx_or_window_probe
  | none => pcb_output_abandoned (errs 0) pcb rtx_or_window_probe

/-- `pcb_send_syn` (`IpTcpProto_output.h` lines 70-113); `sendErr` is
the result of `send_tcp_nodata` for the SYN/SYN-ACK. -/
def pcb_send_syn (now : Nat) (sendErr : IpErrM) (pcb : PcbM) : PcbM :=
  if sendErr = IpErrM.SUCCESS then
    if pcb.snd_nxt = pcb.snd_una then
      let pcb1 := pcb_start_rtt_measurement now true pcb
      { pcb1 with snd_nxt := seq_add pcb1.snd_nxt 1 }
    else { pcb with flags := { pcb.flags with rtt_pending := false } }
  else pcb

/-- `pcb_requeue_everything` (`IpTcpProto_output.h` lines 622-636). -/
def pcb_requeue_everything (pcb : PcbM) : PcbM :=
  let pcb1 :=
    match pcb.con with
    | some con => { pcb with con := some { con with snd_buf_cur_len := con.snd_buf_len } }
    | none => pcb
  if !snd_open_in_state pcb1.state then
    { pcb1 with flags := { pcb1.flags with fin_pending := true } }
  else pcb1

/-- `pcb_go_to_time_wait` (`IpTcpProto.h` lines 494-526); the
disassociation of the Connection (`pcb_unlink_con`) and the index moves
are modelled by clearing `con` (index membership is pool-level state
outside the PCB record). -/
def pcb_go_to_time_wait (pcb : PcbM) : PcbM :=
  let pcb1 := { pcb with con := none }
  { pcb1 with snd_nxt := pcb1.snd_una,
              state := TcpStateM.TIME_WAIT,
              output_timer_set := false,
              rtx_timer_set := false,
              flags := { pcb1.flags with out_pending := false },
              abrt_timer_set := true }

/-- `pcb_update_ssthresh_for_rtx` (`IpTcpProto_output.h` lines
1169-1177): RFC 5681 equation (4). -/
def pcb_update_ssthresh_for_rtx (pcb : PcbM) : PcbM :=
  match pcb.con with
  | none => pcb
  | some con =>
    let half_flight_size := seq_diff pcb.snd_nxt pcb.snd_una / 2
    let two_smss := 2 * pcb.snd_mss
    { pcb with con := some { con with ssthresh := max half_flight_size two_smss } }

/-- `pcb_fast_rtx_dup_acks_received` (`IpTcpProto_output.h` lines
746-781). -/
def pcb_fast_rtx_dup_acks_received (now : Nat) (errs : Nat → IpErrM) (fuel : Nat)
    (pcb : PcbM) : OutRes :=
  if pcb.flags.recover then
    ⟨{ pcb with num_dupack := pcb.num_dupack - 1 }, []⟩
  else
    let r := pcb_output now errs fuel pcb true
    match r.pcb.con with
    | none => ⟨r.pcb, r.sent⟩
    | some con =>
      let pcb2 := { r.pcb with flags := { r.pcb.flags with recover := true },
                               con := some { con with recover := r.pcb.snd_nxt } }
      let pcb3 := pcb_update_ssthresh_for_rtx pcb2
      match pcb3.con with
      | none => ⟨pcb3, r.sent⟩
      | some con3 =>
        let three_mss := 3 * pcb3.snd_mss
        ⟨{ pcb3 with con := some { con3 with cwnd := seq_add_sat con3.ssthresh three_mss },
                     flags := { pcb3.flags with cwnd_init := false,
                                                out_pending := true } }, r.sent⟩

/-- `pcb_extra_dup_ack_received` (`IpTcpProto_output.h` lines 785-798). -/
def pcb_extra_dup_ack_received (pcb : PcbM) : PcbM :=
  match pcb.con with
  | none => pcb
  | some con =>
    { pcb with con := some { con with cwnd := seq_add_sat con.cwnd pcb.snd_mss },
               flags := { pcb.flags with out_pending := true } }

/-- Modelled from the spec: the duplicate-ACK counting of the input path
(`IpTcpProto_input.h` is not among the provided sources).  Per the spec,
duplicate ACKs are counted up to `FastRtxDupAcks + MaxAdditionaDupAcks`;
reaching `FastRtxDupAcks` triggers fast retransmit and each further
counted duplicate ACK invokes the extra-duplicate-ACK handler. -/
def pcb_dup_ack_received (now : Nat) (errs : Nat → IpErrM) (fuel : Nat)
    (pcb : PcbM) : OutRes :=
  if pcb.num_dupack < FastRtxDupAcks + MaxAdditionaDupAcks then
    let pcb1 := { pcb with num_dupack := pcb.num_dupack + 1 }
    if pcb1.num_dupack = FastRtxDupAcks then
      pcb_fast_rtx_dup_acks_received now errs fuel pcb1
    else if FastRtxDupAcks < pcb1.num_dupack then
      ⟨pcb_extra_dup_ack_received pcb1, []⟩
    else ⟨pcb1, []⟩
  else ⟨pcb, []⟩

/-! ## Theorems: RTT measurement (claim C5) -/

/-- The saturating RTO computation of `pcb_end_rtt_measurement`
collapses, under the final clamp, to the exact value
`clamp (srtt + max 1 (4 * rttvar))`: saturation only triggers at values
at least `RttTypeMax`, which the clamp maps to `MaxRtxTime` anyway. -/
theorem rto_saturation_collapse (f s v : Nat) (hs : s ≤ RttTypeMax) :
    max (MinRtxTime f) (min (MaxRtxTime f)
      (if RttTypeMax - s < max 1 (if RttTypeMax / 4 < v then RttTypeMax else 4 * v)
       then RttTypeMax
       else s + max 1 (if RttTypeMax / 4 < v then RttTypeMax else 4 * v))) =
    max (MinRtxTime f) (min (MaxRtxTime f) (s + max 1 (4 * v))) := by
  have hMx : MaxRtxTime f ≤ RttTypeMax := min_le_left _ _
  simp only [RttTypeMax] at *
  split_ifs with h1 h2 h3 <;> omega

/-- C5: when an RTT measurement completes with sample
`r = min RttTypeMax (time_diff >>> RttShift)`: if no previous valid
sample exists (`RTT_VALID` clear) then `srtt` is set to `r` and `rttvar`
to `r/2`; otherwise `rttvar` becomes `(3*rttvar + |srtt - r|)/4` and
`srtt` becomes `(7*srtt + r)/8`; and in both cases `rto` is set to
`srtt + max 1 (4*rttvar)` clamped to `[MinRtxTime, MaxRtxTime]`
(0.25 s and 60 s in RTT time units, by definition of those constants). -/
theorem rtt_measurement_update (rttTimeFreq rttShift time_diff : Nat)
    (pcb : PcbM) (con : ConnVars)
    (hcon : pcb.con = some con)
    (hsrtt : con.srtt ≤ RttTypeMax) (hvar : con.rttvar ≤ RttTypeMax) :
    ∃ con', (pcb_end_rtt_measurement rttTimeFreq rttShift time_diff pcb).con = some con' ∧
      ((pcb.flags.rtt_valid = false →
          con'.srtt = min RttTypeMax (time_diff >>> rttShift) ∧
          con'.rttvar = min RttTypeMax (time_diff >>> rttShift) / 2) ∧
       (pcb.flags.rtt_valid = true →
          con'.rttvar = (3 * con.rttvar +
            AbsoluteDiff con.srtt (min RttTypeMax (time_diff >>> rttShift))) / 4 ∧
          con'.srtt = (7 * con.srtt + min RttTypeMax (time_diff >>> rttShift)) / 8) ∧
       (pcb_end_rtt_measurement rttTimeFreq rttShift time_diff pcb).rto =
          max (MinRtxTime rttTimeFreq)
            (min (MaxRtxTime rttTimeFreq) (con'.srtt + max 1 (4 * con'.rttvar)))) := by
  set r := min RttTypeMax (time_diff >>> rttShift) with hr
  have hrle : r ≤ RttTypeMax := min_le_left _ _
  cases hv : pcb.flags.rtt_valid with
  | false =>
    refine ⟨{ con with rttvar := r / 2, srtt := r }, ?_, ?_, ?_, ?_⟩
    · simp [pcb_end_rtt_measurement, hcon, hv, hr]
    · intro _; exact ⟨rfl, rfl⟩
    · intro h; exact absurd h (by decide)
    · show (pcb_end_rtt_measurement rttTimeFreq rttShift time_diff pcb).rto = _
      simp only [pcb_end_rtt_measurement, hcon, hv, Bool.not_false, if_pos, ← hr]
      exact rto_saturation_collapse rttTimeFreq r (r / 2) hrle
  | true =>
    refine ⟨{ con with rttvar := (3 * con.rttvar + AbsoluteDiff con.srtt r) / 4,
                       srtt := (7 * con.srtt + r) / 8 }, ?_, ?_, ?_, ?_⟩
    · simp [pcb_end_rtt_measurement, hcon, hv, hr]
    · intro h; exact absurd h (by decide)
    · intro _; exact ⟨rfl, rfl⟩
    · show (pcb_end_rtt_measurement rttTimeFreq rttShift time_diff pcb).rto = _
      have hs8 : (7 * con.srtt + r) / 8 ≤ RttTypeMax := by
        simp only [RttTypeMax] at *; omega
      simp only [pcb_end_rtt_measurement, hcon, hv, Bool.not_true, ← hr]
      exact rto_saturation_collapse rttTimeFreq _ _ hs8

/-- A concrete connection-variable record for witnesses. -/
def rttConEx : ConnVars :=
  { snd_buf_len := 0, snd_buf_cur_len := 0, snd_psh_index := 0,
    snd_wnd := 0, cwnd := 1072, ssthresh := 1072, cwnd_acked := 0,
    recover := 0, rtt_test_seq := 0, srtt := 400, rttvar := 100 }

/-- A concrete PCB, mid-measurement with a valid previous sample, for
witnesses. -/
def rttPcbEx : PcbM :=
  { state := TcpStateM.ESTABLISHED,
    flags := { rtt_pending := true, rtt_valid := true },
    snd_una := 100, snd_nxt := 200, rcv_nxt := 0, snd_mss := 536,
    num_dupack := 0, rto := 250, rtt_test_time := 0,
    con := some rttConEx,
    rtx_timer_set := false, output_timer_set := false,
    abrt_timer_set := false }

/-- Witness for `rtt_measurement_update`: the theorem applied at the
concrete PCB `rttPcbEx` with time difference 6400 and `RttShift = 5`. -/
theorem rtt_measurement_update_witness :
    rttPcbEx.con = some rttConEx ∧ rttConEx.srtt ≤ RttTypeMax ∧
    rttConEx.rttvar ≤ RttTypeMax ∧
    (∃ con', (pcb_end_rtt_measurement 1000 5 6400 rttPcbEx).con = some con' ∧
      ((rttPcbEx.flags.rtt_valid = false →
          con'.srtt = min RttTypeMax (6400 >>> 5) ∧
          con'.rttvar = min RttTypeMax (6400 >>> 5) / 2) ∧
       (rttPcbEx.flags.rtt_valid = true →
          con'.rttvar = (3 * rttConEx.rttvar +
            AbsoluteDiff rttConEx.srtt (min RttTypeMax (6400 >>> 5))) / 4 ∧
          con'.srtt = (7 * rttConEx.srtt + min RttTypeMax (6400 >>> 5)) / 8) ∧
       (pcb_end_rtt_measurement 1000 5 6400 rttPcbEx).rto =
          max (MinRtxTime 1000)
            (min (MaxRtxTime 1000) (con'.srtt + max 1 (4 * con'.rttvar))))) :=
  ⟨rfl, by decide, by decide,
   rtt_measurement_update 1000 5 6400 rttPcbEx rttConEx rfl (by decide) (by decide)⟩

/-! ## Theorems: the rtx_or_window_probe output regime (claims C6, C10) -/

/-- Frame of `pcb_start_rtt_measurement` in the non-SYN case: only the
RTT bookkeeping changes. -/
theorem pcb_start_rtt_measurement_frame (now : Nat) (pcb : PcbM) (con : ConnVars)
    (hcon : pcb.con = some con) :
    pcb_start_rtt_measurement now false pcb =
      { pcb with flags := { pcb.flags with rtt_pending := true },
                 rtt_test_time := now,
                 con := some { con with rtt_test_seq := pcb.snd_nxt } } := by
  simp [pcb_start_rtt_measurement, hcon]

/-- Frame of the FIN_SENT and RTT-stop sub-steps of
`pcb_output_segment`: they touch only flag bits. -/
theorem segStopRtt_mark_frame (a b c : Nat) (ff : Bool) (pcb : PcbM) :
    (segStopRtt a b c (segMarkFinSent ff pcb)).con = pcb.con ∧
    (segStopRtt a b c (segMarkFinSent ff pcb)).flags.fin_pending =
      pcb.flags.fin_pending ∧
    (segStopRtt a b c (segMarkFinSent ff pcb)).snd_una = pcb.snd_una ∧
    (segStopRtt a b c (segMarkFinSent ff pcb)).state = pcb.state ∧
    (segStopRtt a b c (segMarkFinSent ff pcb)).num_dupack = pcb.num_dupack ∧
    (segStopRtt a b c (segMarkFinSent ff pcb)).snd_mss = pcb.snd_mss := by
  unfold segStopRtt segMarkFinSent
  split_ifs <;> simp

/-- Frame of `segAdvanceSndNxt`: only `snd_nxt`, the RTT bookkeeping and
`rtt_test_seq` change. -/
theorem segAdvanceSndNxt_frame (now segEndseq : Nat) (pcb : PcbM) (con : ConnVars)
    (hcon : pcb.con = some con) :
    ∃ con', (segAdvanceSndNxt now segEndseq pcb).con = some con' ∧
      con' = { con with rtt_test_seq := con'.rtt_test_seq } ∧
      (segAdvanceSndNxt now segEndseq pcb).flags.fin_pending = pcb.flags.fin_pending ∧
      (segAdvanceSndNxt now segEndseq pcb).snd_una = pcb.snd_una ∧
      (segAdvanceSndNxt now segEndseq pcb).state = pcb.state ∧
      (segAdvanceSndNxt now segEndseq pcb).num_dupack = pcb.num_dupack ∧
      (segAdvanceSndNxt now segEndseq pcb).snd_mss = pcb.snd_mss := by
  unfold segAdvanceSndNxt
  split_ifs with h1 h2
  · rw [pcb_start_rtt_measurement_frame now pcb con hcon]
    exact ⟨{ con with rtt_test_seq := pcb.snd_nxt }, rfl, rfl, rfl, rfl, rfl, rfl, rfl⟩
  · exact ⟨con, hcon, rfl, rfl, rfl, rfl, rfl, rfl⟩
  · exact ⟨con, hcon, rfl, rfl, rfl, rfl, rfl, rfl⟩

/-- All fields of the connection variables other than `rtt_test_seq`,
together with the `fin_pending` flag, `snd_una`, the state and
`num_dupack` of the PCB, are unchanged by `pcb_output_segment`. -/
theorem pcb_output_segment_frame (now : Nat) (sendErr : IpErrM) (pcb : PcbM)
    (dataTotLen : Nat) (fin : Bool) (rem_wnd : Nat) (con : ConnVars)
    (hcon : pcb.con = some con) :
    ∃ con', (pcb_output_segment now sendErr pcb dataTotLen fin rem_wnd).pcb.con =
        some con' ∧
      con' = { con with rtt_test_seq := con'.rtt_test_seq } ∧
      (pcb_output_segment now sendErr pcb dataTotLen fin rem_wnd).pcb.flags.fin_pending =
        pcb.flags.fin_pending ∧
      (pcb_output_segment now sendErr pcb dataTotLen fin rem_wnd).pcb.snd_una =
        pcb.snd_una ∧
      (pcb_output_segment now sendErr pcb dataTotLen fin rem_wnd).pcb.state =
        pcb.state ∧
      (pcb_output_segment now sendErr pcb dataTotLen fin rem_wnd).pcb.num_dupack =
        pcb.num_dupack ∧
      (pcb_output_segment now sendErr pcb dataTotLen fin rem_wnd).pcb.snd_mss =
        pcb.snd_mss := by
  by_cases he : sendErr = IpErrM.SUCCESS
  · have hres : (pcb_output_segment now sendErr pcb dataTotLen fin rem_wnd).pcb =
        segAdvanceSndNxt now
          (seq_add (segAttempt pcb con dataTotLen fin rem_wnd).seq
            ((segAttempt pcb con dataTotLen fin rem_wnd).dataLen +
             (if (segAttempt pcb con dataTotLen fin rem_wnd).finFlag then 1 else 0)))
          (segStopRtt con.rtt_test_seq (segAttempt pcb con dataTotLen fin rem_wnd).seq
            ((segAttempt pcb con dataTotLen fin rem_wnd).dataLen +
             (if (segAttempt pcb con dataTotLen fin rem_wnd).finFlag then 1 else 0))
            (segMarkFinSent (segAttempt pcb con dataTotLen fin rem_wnd).finFlag pcb)) := by
      simp [pcb_output_segment, hcon, he]
    obtain ⟨hc, hfp, hu, hst, hnd, hms⟩ := segStopRtt_mark_frame con.rtt_test_seq
      (segAttempt pcb con dataTotLen fin rem_wnd).seq
      ((segAttempt pcb con dataTotLen fin rem_wnd).dataLen +
       (if (segAttempt pcb con dataTotLen fin rem_wnd).finFlag then 1 else 0))
      (segAttempt pcb con dataTotLen fin rem_wnd).finFlag pcb
    obtain ⟨con', h1, h2, h3, h4, h5, h6, h7⟩ := segAdvanceSndNxt_frame now
      (seq_add (segAttempt pcb con dataTotLen fin rem_wnd).seq
        ((segAttempt pcb con dataTotLen fin rem_wnd).dataLen +
         (if (segAttempt pcb con dataTotLen fin rem_wnd).finFlag then 1 else 0)))
      (segStopRtt con.rtt_test_seq (segAttempt pcb con dataTotLen fin rem_wnd).seq
        ((segAttempt pcb con dataTotLen fin rem_wnd).dataLen +
         (if (segAttempt pcb con dataTotLen fin rem_wnd).finFlag then 1 else 0))
        (segMarkFinSent (segAttempt pcb con dataTotLen fin rem_wnd).finFlag pcb))
      con (hc.trans hcon)
    rw [hres]
    exact ⟨con', h1, h2, h3.trans hfp, h4.trans hu, h5.trans hst, h6.trans hnd,
      h7.trans hms⟩
  · have hres : (pcb_output_segment now sendErr pcb dataTotLen fin rem_wnd).pcb = pcb := by
      simp [pcb_output_segment, hcon, he]
    rw [hres]
    exact ⟨con, hcon, rfl, rfl, rfl, rfl, rfl, rfl⟩

/-- The segment attempt built by `pcb_output_segment` is `segAttempt`
(independent of the IP send outcome), whose sequence number is
`snd_una + (snd_buf_len - dataTotLen)` and whose data length is
`min dataTotLen (min rem_wnd snd_mss)`. -/
theorem pcb_output_segment_attempt_eq (now : Nat) (sendErr : IpErrM) (pcb : PcbM)
    (dataTotLen : Nat) (fin : Bool) (rem_wnd : Nat) (con : ConnVars)
    (hcon : pcb.con = some con) :
    (pcb_output_segment now sendErr pcb dataTotLen fin rem_wnd).attempt =
      segAttempt pcb con dataTotLen fin rem_wnd ∧
    (segAttempt pcb con dataTotLen fin rem_wnd).seq =
      seq_add pcb.snd_una (con.snd_buf_len - dataTotLen) ∧
    (segAttempt pcb con dataTotLen fin rem_wnd).dataLen =
      min dataTotLen (min rem_wnd pcb.snd_mss) := by
  refine ⟨?_, rfl, rfl⟩
  unfold pcb_output_segment
  rw [hcon]
  split_ifs <;> rfl

/-- Evaluation of `pcb_output_active` in the `rtx_or_window_probe`
regime: the send loop runs exactly once and returns through the early
path, producing the single segment attempt of `pcb_output_segment`
applied at the head of the send buffer with window `max 1 snd_wnd`. -/
theorem pcb_output_active_rtx_eval (now : Nat) (errs : Nat → IpErrM) (fuel : Nat)
    (pcb : PcbM) (con : ConnVars) (hcon : pcb.con = some con) (hfuel : 0 < fuel)
    (hcond : (decide (0 < con.snd_buf_len) || !snd_open_in_state pcb.state) = true) :
    pcb_output_active now errs fuel pcb true =
      ⟨(pcb_output_segment now (errs 0) pcb con.snd_buf_len
          (!snd_open_in_state pcb.state) (max 1 con.snd_wnd)).pcb,
       [(pcb_output_segment now (errs 0) pcb con.snd_buf_len
          (!snd_open_in_state pcb.state) (max 1 con.snd_wnd)).attempt]⟩ := by
  obtain ⟨f, rfl⟩ : ∃ f, fuel = f + 1 := ⟨fuel - 1, by omega⟩
  have hw : decide (0 < max 1 con.snd_wnd) = true := by
    simp [Nat.lt_of_lt_of_le Nat.zero_lt_one (le_max_left 1 con.snd_wnd)]
  simp only [pcb_output_active, hcon, outActiveLoop, hw, Bool.and_true, if_true,
    List.reverse_cons, List.reverse_nil, List.nil_append, hcond]

/-- Evaluation of `pcb_output_active` when the send loop does not run
(fuel exhausted or nothing to send): no segments are sent and only the
IDLE_TIMER flag and the retransmission timer can change. -/
theorem pcb_output_active_noearly (now : Nat) (errs : Nat → IpErrM) (fuel : Nat)
    (pcb : PcbM) (con : ConnVars) (hcon : pcb.con = some con)
    (hno : fuel = 0 ∨
      (decide (0 < con.snd_buf_len) || !snd_open_in_state pcb.state) = false) :
    ∃ p', pcb_output_active now errs fuel pcb true = ⟨p', []⟩ ∧
      p'.con = pcb.con ∧ p'.flags.fin_pending = pcb.flags.fin_pending := by
  have hloop : outActiveLoop now errs true 0 fuel 0 pcb
      (!snd_open_in_state pcb.state) (max 1 con.snd_wnd) [] = ⟨pcb, [], false⟩ := by
    rcases fuel with _ | f
    · rfl
    · rcases hno with h0 | hcf
      · exact absurd h0 (Nat.succ_ne_zero f)
      · simp [outActiveLoop, hcon, hcf]
  unfold pcb_output_active
  rw [hcon]
  simp only [↓reduceIte]
  rw [hloop]
  dsimp only
  split_ifs <;>
    first
    | exact (by assumption : False).elim
    | exact absurd (by assumption : false = true) (by decide)
    | (refine ⟨_, rfl, ?_, ?_⟩ <;> simp [hcon])

/-- C6: when `pcb_output` runs in the `rtx_or_window_probe` regime on a
PCB with a Connection, exactly one segment is transmitted; it is taken
from the head of the send buffer (sequence number `snd_una`), its size
is the minimum of the buffer length, the receiver window `snd_wnd`
forced to at least 1 sequence count, and `snd_mss`; and the congestion
window `cwnd` has no influence on what is sent. -/
theorem pcb_output_rtx_single_head_segment (now : Nat) (errs : Nat → IpErrM)
    (fuel : Nat) (pcb : PcbM) (con : ConnVars)
    (hcon : pcb.con = some con) (hfuel : 0 < fuel)
    (hout : pcb_has_snd_outstanding pcb = true) :
    (pcb_output now errs fuel pcb true).sent.length = 1 ∧
    (∀ seg ∈ (pcb_output now errs fuel pcb true).sent,
       seg.seq = pcb.snd_una % seqMod ∧
       seg.dataLen = min con.snd_buf_len (min (max 1 con.snd_wnd) pcb.snd_mss)) ∧
    (∀ c : Nat,
       (pcb_output now errs fuel
          { pcb with con := some { con with cwnd := c } } true).sent =
       (pcb_output now errs fuel pcb true).sent) := by
  have hcond : (decide (0 < con.snd_buf_len) || !snd_open_in_state pcb.state) = true := by
    unfold pcb_has_snd_outstanding at hout
    rw [hcon] at hout
    cases hso : snd_open_in_state pcb.state with
    | false => simp [hso]
    | true => simp [hso] at hout ⊢; exact hout
  have hdisp : pcb_output now errs fuel pcb true =
      pcb_output_active now errs fuel pcb true := by
    simp [pcb_output, hcon]
  have heval := pcb_output_active_rtx_eval now errs fuel pcb con hcon hfuel hcond
  have hatt := pcb_output_segment_attempt_eq now (errs 0) pcb con.snd_buf_len
    (!snd_open_in_state pcb.state) (max 1 con.snd_wnd) con hcon
  refine ⟨?_, ?_, ?_⟩
  · rw [hdisp, heval]
    rfl
  · intro seg hseg
    rw [hdisp, heval] at hseg
    simp only [List.mem_singleton] at hseg
    subst hseg
    rw [hatt.1]
    refine ⟨?_, hatt.2.2⟩
    rw [hatt.2.1]
    simp [seq_add]
  · intro c
    have hcon2 : (PcbM.con { pcb with con := some { con with cwnd := c } }) =
        some { con with cwnd := c } := rfl
    have hcond2 : (decide (0 < ConnVars.snd_buf_len { con with cwnd := c }) ||
        !snd_open_in_state (PcbM.state { pcb with con := some { con with cwnd := c } }))
        = true := hcond
    have heval2 := pcb_output_active_rtx_eval now errs fuel
      { pcb with con := some { con with cwnd := c } } { con with cwnd := c }
      hcon2 hfuel hcond2
    have hdisp2 : pcb_output now errs fuel
        { pcb with con := some { con with cwnd := c } } true =
        pcb_output_active now errs fuel
          { pcb with con := some { con with cwnd := c } } true := by
      simp [pcb_output]
    rw [hdisp, heval, hdisp2, heval2]
    have hatt2 := pcb_output_segment_attempt_eq now (errs 0)
      { pcb with con := some { con with cwnd := c } }
      (ConnVars.snd_buf_len { con with cwnd := c })
      (!snd_open_in_state (PcbM.state { pcb with con := some { con with cwnd := c } }))
      (max 1 (ConnVars.snd_wnd { con with cwnd := c })) { con with cwnd := c } hcon2
    show [SegOut.attempt _] = [SegOut.attempt _]
    rw [hatt.1, hatt2.1]
    rfl

/-- Witness inputs: a connection with queued data and a window. -/
def conEx : ConnVars :=
  { snd_buf_len := 1000, snd_buf_cur_len := 400, snd_psh_index := 0,
    snd_wnd := 500, cwnd := 536, ssthresh := 10000, cwnd_acked := 0,
    recover := 0, rtt_test_seq := 0, srtt := 0, rttvar := 0 }

/-- Witness inputs: an ESTABLISHED PCB owning `conEx`. -/
def outPcbEx : PcbM :=
  { state := TcpStateM.ESTABLISHED, flags := {},
    snd_una := 1000000, snd_nxt := 1000600, rcv_nxt := 0, snd_mss := 536,
    num_dupack := 0, rto := 4, rtt_test_time := 0, con := some conEx,
    rtx_timer_set := false, output_timer_set := false, abrt_timer_set := false }

/-- Witness inputs: every IP send in a batch succeeds. -/
def errsOk : Nat → IpErrM := fun _ => IpErrM.SUCCESS

/-- Witness for `pcb_output_rtx_single_head_segment`, applied at the
concrete PCB `outPcbEx`. -/
theorem pcb_output_rtx_single_head_segment_witness :
    outPcbEx.con = some conEx ∧ 0 < 1 ∧ pcb_has_snd_outstanding outPcbEx = true ∧
    ((pcb_output 0 errsOk 1 outPcbEx true).sent.length = 1 ∧
     (∀ seg ∈ (pcb_output 0 errsOk 1 outPcbEx true).sent,
        seg.seq = outPcbEx.snd_una % seqMod ∧
        seg.dataLen =
          min conEx.snd_buf_len (min (max 1 conEx.snd_wnd) outPcbEx.snd_mss)) ∧
     (∀ c : Nat,
        (pcb_output 0 errsOk 1
           { outPcbEx with con := some { conEx with cwnd := c } } true).sent =
        (pcb_output 0 errsOk 1 outPcbEx true).sent)) :=
  ⟨rfl, Nat.zero_lt_one, by decide,
   pcb_output_rtx_single_head_segment 0 errsOk 1 outPcbEx conEx rfl Nat.zero_lt_one
     (by decide)⟩

/-- C10: `pcb_output_active` and `pcb_output_abandoned` called with
`rtx_or_window_probe == true` leave the send-queue position unchanged:
the Connection's `snd_buf_cur` (when a Connection exists) and the
FIN_PENDING flag hold the same values after the call as before it. -/
theorem rtx_or_probe_preserves_queue_position (now : Nat) (errs : Nat → IpErrM)
    (fuel : Nat) (pcb : PcbM) :
    (∀ con, pcb.con = some con →
       ∃ con', (pcb_output_active now errs fuel pcb true).pcb.con = some con' ∧
         con'.snd_buf_cur_len = con.snd_buf_cur_len ∧
         (pcb_output_active now errs fuel pcb true).pcb.flags.fin_pending =
           pcb.flags.fin_pending) ∧
    (pcb.con = none →
       (pcb_output_abandoned (errs 0) pcb true).pcb.flags.fin_pending =
         pcb.flags.fin_pending) := by
  constructor
  · intro con hcon
    by_cases hf : 0 < fuel
    · by_cases hcond :
        (decide (0 < con.snd_buf_len) || !snd_open_in_state pcb.state) = true
      · rw [pcb_output_active_rtx_eval now errs fuel pcb con hcon hf hcond]
        obtain ⟨con', h1, h2, h3, -, -, -, -⟩ := pcb_output_segment_frame now (errs 0) pcb
          con.snd_buf_len (!snd_open_in_state pcb.state) (max 1 con.snd_wnd) con hcon
        exact ⟨con', h1, by rw [h2], h3⟩
      · obtain ⟨p', hp, hc, hfp⟩ := pcb_output_active_noearly now errs fuel pcb con hcon
          (Or.inr (by revert hcond; cases h :
            (decide (0 < con.snd_buf_len) || !snd_open_in_state pcb.state) <;> simp))
        rw [hp]
        exact ⟨con, hc.trans hcon, rfl, hfp⟩
    · obtain ⟨p', hp, hc, hfp⟩ := pcb_output_active_noearly now errs fuel pcb con hcon
        (Or.inl (by omega))
      rw [hp]
      exact ⟨con, hc.trans hcon, rfl, hfp⟩
  · intro hnone
    unfold pcb_output_abandoned
    simp only [↓reduceIte]
    split_ifs <;> simp

/-- Witness for `rtx_or_probe_preserves_queue_position`, extracting the
Connection branch at the concrete PCB `outPcbEx`. -/
theorem rtx_or_probe_preserves_queue_position_witness :
    outPcbEx.con = some conEx ∧
    (∃ con', (pcb_output_active 0 errsOk 1 outPcbEx true).pcb.con = some con' ∧
       con'.snd_buf_cur_len = conEx.snd_buf_cur_len ∧
       (pcb_output_active 0 errsOk 1 outPcbEx true).pcb.flags.fin_pending =
         outPcbEx.flags.fin_pending) :=
  ⟨rfl, (rtx_or_probe_preserves_queue_position 0 errsOk 1 outPcbEx).1 conEx rfl⟩

/-! ## Theorems: the snd_una before snd_nxt invariant (claim C7) -/

/-- The sequence-number order is reflexive. -/
theorem seqLe_refl (a : Nat) : seqLe a a := by
  simp only [seqLe, seq_diff, seqMod]
  omega

/-- Adding fewer than `2^31` sequence counts keeps the new value ahead
of the old one in modulo order. -/
theorem seqLe_add_small (a k : Nat) (ha : a < seqMod) (hk : k < 2 ^ 31) :
    seqLe a ((a + k) % seqMod) := by
  simp only [seqLe, seq_diff, seqMod] at *
  omega

/-- `seq_add` re-associates to a single reduction modulo `2^32`. -/
theorem seq_add_assoc (a b c : Nat) :
    seq_add (seq_add a b) c = (a + b + c) % seqMod := by
  simp only [seq_add, seqMod]
  omega

/-- The sequence length of a segment attempt never exceeds the
remaining window: the data is capped by the window and the FIN is
counted only when strictly within it. -/
theorem segAttempt_seqlen_le (pcb : PcbM) (con : ConnVars) (d : Nat) (f : Bool)
    (w : Nat) :
    (segAttempt pcb con d f w).dataLen +
      (if (segAttempt pcb con d f w).finFlag then 1 else 0) ≤ w := by
  unfold segAttempt
  dsimp only
  split_ifs <;> simp_all <;> omega

/-- `pcb_output_segment` either leaves `snd_nxt` unchanged or sets it
`offset + seqlen` counts past `snd_una`, with `seqlen` at most the
remaining window; `snd_una` is never changed. -/
theorem pcb_output_segment_sndnxt (now : Nat) (sendErr : IpErrM) (pcb : PcbM)
    (d : Nat) (f : Bool) (w : Nat) (con : ConnVars) (hcon : pcb.con = some con) :
    (pcb_output_segment now sendErr pcb d f w).pcb.snd_una = pcb.snd_una ∧
    ((pcb_output_segment now sendErr pcb d f w).pcb.snd_nxt = pcb.snd_nxt ∨
     ∃ L, L ≤ w ∧
       (pcb_output_segment now sendErr pcb d f w).pcb.snd_nxt =
         (pcb.snd_una + (con.snd_buf_len - d) + L) % seqMod) := by
  obtain ⟨-, -, -, -, huna, -, -, -⟩ := pcb_output_segment_frame now sendErr pcb d f w con hcon
  refine ⟨huna, ?_⟩
  by_cases he : sendErr = IpErrM.SUCCESS
  · have hres : (pcb_output_segment now sendErr pcb d f w).pcb =
        segAdvanceSndNxt now
          (seq_add (segAttempt pcb con d f w).seq
            ((segAttempt pcb con d f w).dataLen +
             (if (segAttempt pcb con d f w).finFlag then 1 else 0)))
          (segStopRtt con.rtt_test_seq (segAttempt pcb con d f w).seq
            ((segAttempt pcb con d f w).dataLen +
             (if (segAttempt pcb con d f w).finFlag then 1 else 0))
            (segMarkFinSent (segAttempt pcb con d f w).finFlag pcb)) := by
      simp [pcb_output_segment, hcon, he]
    have hpre : (segStopRtt con.rtt_test_seq (segAttempt pcb con d f w).seq
        ((segAttempt pcb con d f w).dataLen +
         (if (segAttempt pcb con d f w).finFlag then 1 else 0))
        (segMarkFinSent (segAttempt pcb con d f w).finFlag pcb)).snd_nxt =
          pcb.snd_nxt := by
      unfold segStopRtt segMarkFinSent
      split_ifs <;> simp
    have hL := segAttempt_seqlen_le pcb con d f w
    rw [hres]
    revert hpre
    generalize (segAttempt pcb con d f w).dataLen +
      (if (segAttempt pcb con d f w).finFlag = true then 1 else 0) = L at *
    intro hpre
    unfold segAdvanceSndNxt
    split_ifs with hA hB
    · exact Or.inr ⟨L, hL, seq_add_assoc pcb.snd_una (con.snd_buf_len - d) L⟩
    · exact Or.inr ⟨L, hL, seq_add_assoc pcb.snd_una (con.snd_buf_len - d) L⟩
    · exact Or.inl hpre
  · have hres : (pcb_output_segment now sendErr pcb d f w).pcb = pcb := by
      simp [pcb_output_segment, hcon, he]
    rw [hres]
    exact Or.inl rfl

/-- `pcb_output_abandoned` either leaves `snd_una`/`snd_nxt` unchanged
or, when `snd_nxt = snd_una`, bumps `snd_nxt` by one for the FIN. -/
theorem pcb_output_abandoned_sndnxt (sendErr : IpErrM) (pcb : PcbM) (rtx : Bool) :
    (pcb_output_abandoned sendErr pcb rtx).pcb.snd_una = pcb.snd_una ∧
    ((pcb_output_abandoned sendErr pcb rtx).pcb.snd_nxt = pcb.snd_nxt ∨
     (pcb.snd_nxt = pcb.snd_una ∧
      (pcb_output_abandoned sendErr pcb rtx).pcb.snd_nxt =
        (pcb.snd_nxt + 1) % seqMod)) := by
  simp only [pcb_output_abandoned, pcb_set_output_timer_for_retry]
  split_ifs <;>
    first
    | exact ⟨rfl, Or.inl rfl⟩
    | exact ⟨rfl, Or.inr ⟨by assumption, rfl⟩⟩

/-- C7: the invariant `snd_una ≤ snd_nxt` (modulo-`2^32` comparison) is
preserved by every operation that modifies either variable: SYN
transmission (`pcb_send_syn`), data/FIN segment output
(`pcb_output_segment`, under the standing bound that the send buffer
plus window span less than `2^31` sequence counts), FIN output on an
abandoned PCB (`pcb_output_abandoned`), retransmission requeuing
(`pcb_requeue_everything`), and entry into TIME_WAIT
(`pcb_go_to_time_wait`), which sets `snd_nxt` equal to `snd_una`. -/
theorem snd_una_le_snd_nxt_invariant :
    (∀ now e pcb, pcb.snd_una < seqMod → pcb.snd_nxt < seqMod →
       seqLe pcb.snd_una pcb.snd_nxt →
       seqLe (pcb_send_syn now e pcb).snd_una (pcb_send_syn now e pcb).snd_nxt) ∧
    (∀ now e pcb con d f w, pcb.con = some con →
       pcb.snd_una < seqMod → pcb.snd_nxt < seqMod →
       con.snd_buf_len + w < 2 ^ 31 →
       seqLe pcb.snd_una pcb.snd_nxt →
       seqLe (pcb_output_segment now e pcb d f w).pcb.snd_una
             (pcb_output_segment now e pcb d f w).pcb.snd_nxt) ∧
    (∀ e pcb rtx, pcb.snd_una < seqMod →
       seqLe pcb.snd_una pcb.snd_nxt →
       seqLe (pcb_output_abandoned e pcb rtx).pcb.snd_una
             (pcb_output_abandoned e pcb rtx).pcb.snd_nxt) ∧
    (∀ pcb, seqLe pcb.snd_una pcb.snd_nxt →
       seqLe (pcb_requeue_everything pcb).snd_una
             (pcb_requeue_everything pcb).snd_nxt) ∧
    (∀ pcb, seqLe (pcb_go_to_time_wait pcb).snd_una
             (pcb_go_to_time_wait pcb).snd_nxt) := by
  refine ⟨?_, ?_, ?_, ?_, ?_⟩
  · intro now e pcb huna hnxt hinv
    unfold pcb_send_syn
    split_ifs with h1 h2
    · have hfr : (pcb_start_rtt_measurement now true pcb).snd_nxt = pcb.snd_nxt ∧
          (pcb_start_rtt_measurement now true pcb).snd_una = pcb.snd_una := by
        unfold pcb_start_rtt_measurement
        exact ⟨rfl, rfl⟩
      show seqLe (pcb_start_rtt_measurement now true pcb).snd_una
        (seq_add (pcb_start_rtt_measurement now true pcb).snd_nxt 1)
      rw [hfr.1, hfr.2, h2]
      exact seqLe_add_small pcb.snd_una 1 huna (by norm_num)
    · exact hinv
    · exact hinv
  · intro now e pcb con d f w hcon huna hnxt hbw hinv
    obtain ⟨h1, h2 | ⟨L, hL, h3⟩⟩ := pcb_output_segment_sndnxt now e pcb d f w con hcon
    · rw [h1, h2]; exact hinv
    · rw [h1, h3]
      have : con.snd_buf_len - d + L < 2 ^ 31 := by omega
      have := seqLe_add_small pcb.snd_una (con.snd_buf_len - d + L) huna this
      simpa [Nat.add_assoc] using this
  · intro e pcb rtx huna hinv
    obtain ⟨h1, h2 | ⟨heq, h3⟩⟩ := pcb_output_abandoned_sndnxt e pcb rtx
    · rw [h1, h2]; exact hinv
    · rw [h1, h3, heq]
      exact seqLe_add_small pcb.snd_una 1 huna (by norm_num)
  · intro pcb hinv
    unfold pcb_requeue_everything
    rcases hc : pcb.con with - | c <;> simp only [hc] <;> split_ifs <;> exact hinv
  · intro pcb
    exact seqLe_refl pcb.snd_una

/-- Witness for `snd_una_le_snd_nxt_invariant`: the invariant holds at
`outPcbEx` and is preserved by a concrete segment output. -/
theorem snd_una_le_snd_nxt_invariant_witness :
    outPcbEx.con = some conEx ∧ outPcbEx.snd_una < seqMod ∧
    outPcbEx.snd_nxt < seqMod ∧ conEx.snd_buf_len + 500 < 2 ^ 31 ∧
    seqLe outPcbEx.snd_una outPcbEx.snd_nxt ∧
    seqLe (pcb_output_segment 0 IpErrM.SUCCESS outPcbEx 1000 false 500).pcb.snd_una
          (pcb_output_segment 0 IpErrM.SUCCESS outPcbEx 1000 false 500).pcb.snd_nxt :=
  ⟨rfl, by decide, by decide, by decide, by decide,
   snd_una_le_snd_nxt_invariant.2.1 0 IpErrM.SUCCESS outPcbEx conEx 1000 false 500
     rfl (by decide) (by decide) (by decide) (by decide)⟩

/-! ## Theorems: fast retransmit and duplicate ACKs (claim C4) -/

/-- When a segment's whole sequence span lies within the current flight
(`offset + seqlen` at most `snd_nxt - snd_una`), its end does not pass
`snd_nxt`. -/
theorem seq_lt2_within_flight (una nxt off L : Nat) (hu : una < seqMod)
    (hn : nxt < seqMod) (hL : off + L ≤ seq_diff nxt una)
    (hhi : seq_diff nxt una < 2 ^ 31) :
    seq_lt2 nxt (seq_add (seq_add una off) L) = false := by
  simp only [seq_lt2, seq_add, seq_diff, seqMod] at *
  simp only [decide_eq_false_iff_not, not_le]
  omega

/-- A retransmission from the head of the send buffer does not advance
`snd_nxt` when at least one full segment is in flight. -/
theorem pcb_output_segment_noadvance (now : Nat) (sendErr : IpErrM) (pcb : PcbM)
    (f : Bool) (w : Nat) (con : ConnVars) (hcon : pcb.con = some con)
    (hu : pcb.snd_una < seqMod) (hn : pcb.snd_nxt < seqMod)
    (hlo : pcb.snd_mss + 1 ≤ seq_diff pcb.snd_nxt pcb.snd_una)
    (hhi : seq_diff pcb.snd_nxt pcb.snd_una < 2 ^ 31) :
    (pcb_output_segment now sendErr pcb con.snd_buf_len f w).pcb.snd_nxt =
      pcb.snd_nxt := by
  by_cases he : sendErr = IpErrM.SUCCESS
  · have hres : (pcb_output_segment now sendErr pcb con.snd_buf_len f w).pcb =
        segAdvanceSndNxt now
          (seq_add (segAttempt pcb con con.snd_buf_len f w).seq
            ((segAttempt pcb con con.snd_buf_len f w).dataLen +
             (if (segAttempt pcb con con.snd_buf_len f w).finFlag then 1 else 0)))
          (segStopRtt con.rtt_test_seq (segAttempt pcb con con.snd_buf_len f w).seq
            ((segAttempt pcb con con.snd_buf_len f w).dataLen +
             (if (segAttempt pcb con con.snd_buf_len f w).finFlag then 1 else 0))
            (segMarkFinSent (segAttempt pcb con con.snd_buf_len f w).finFlag pcb)) := by
      simp [pcb_output_segment, hcon, he]
    have hpre : (segStopRtt con.rtt_test_seq (segAttempt pcb con con.snd_buf_len f w).seq
        ((segAttempt pcb con con.snd_buf_len f w).dataLen +
         (if (segAttempt pcb con con.snd_buf_len f w).finFlag then 1 else 0))
        (segMarkFinSent (segAttempt pcb con con.snd_buf_len f w).finFlag pcb)).snd_nxt =
          pcb.snd_nxt := by
      unfold segStopRtt segMarkFinSent
      split_ifs <;> simp
    have hLmss : (segAttempt pcb con con.snd_buf_len f w).dataLen +
        (if (segAttempt pcb con con.snd_buf_len f w).finFlag then 1 else 0) ≤
          pcb.snd_mss + 1 := by
      unfold segAttempt
      dsimp only
      split_ifs <;> omega
    have hcond : seq_lt2 pcb.snd_nxt
        (seq_add (seq_add pcb.snd_una (con.snd_buf_len - con.snd_buf_len))
          ((segAttempt pcb con con.snd_buf_len f w).dataLen +
           (if (segAttempt pcb con con.snd_buf_len f w).finFlag then 1 else 0))) =
        false := by
      refine seq_lt2_within_flight pcb.snd_una pcb.snd_nxt _ _ hu hn ?_ hhi
      rw [Nat.sub_self]
      omega
    rw [hres]
    unfold segAdvanceSndNxt
    rw [hpre,
      show (segAttempt pcb con con.snd_buf_len f w).seq =
        seq_add pcb.snd_una (con.snd_buf_len - con.snd_buf_len) from rfl,
      hcond]
    simp only [Bool.false_eq_true, if_false]
    unfold segStopRtt segMarkFinSent
    split_ifs <;> simp
  · have hres : (pcb_output_segment now sendErr pcb con.snd_buf_len f w).pcb = pcb := by
      simp [pcb_output_segment, hcon, he]
    rw [hres]

/-- C4: the constants are `FastRtxDupAcks = 3` and
`MaxAdditionaDupAcks = 32`; when the duplicate-ACK counter stands at
`FastRtxDupAcks` and the RECOVER flag is clear, the head segment (at
`snd_una`) is retransmitted once, RECOVER is set,
`recover = snd_nxt`, `ssthresh = max(flight/2, 2*snd_mss)` for
`flight = snd_nxt - snd_una`, and `cwnd = ssthresh + 3*snd_mss`; each
additional duplicate ACK in fast recovery adds `snd_mss` to `cwnd`; and
a duplicate ACK is not counted once the counter has reached
`FastRtxDupAcks + MaxAdditionaDupAcks`. -/
theorem fast_retransmit_dup_acks :
    (FastRtxDupAcks = 3 ∧ MaxAdditionaDupAcks = 32) ∧
    (∀ now errs fuel pcb con, pcb.con = some con → 0 < fuel →
       pcb.flags.recover = false →
       pcb_has_snd_outstanding pcb = true →
       pcb.snd_una < seqMod → pcb.snd_nxt < seqMod →
       pcb.snd_mss + 1 ≤ seq_diff pcb.snd_nxt pcb.snd_una →
       seq_diff pcb.snd_nxt pcb.snd_una < 2 ^ 31 →
       max (seq_diff pcb.snd_nxt pcb.snd_una / 2) (2 * pcb.snd_mss) +
         3 * pcb.snd_mss < seqMod →
       ((pcb_fast_rtx_dup_acks_received now errs fuel pcb).sent.length = 1 ∧
        (∀ seg ∈ (pcb_fast_rtx_dup_acks_received now errs fuel pcb).sent,
           seg.seq = pcb.snd_una % seqMod) ∧
        (pcb_fast_rtx_dup_acks_received now errs fuel pcb).pcb.flags.recover = true ∧
        (∃ con', (pcb_fast_rtx_dup_acks_received now errs fuel pcb).pcb.con =
             some con' ∧
           con'.recover = pcb.snd_nxt ∧
           con'.ssthresh =
             max (seq_diff pcb.snd_nxt pcb.snd_una / 2) (2 * pcb.snd_mss) ∧
           con'.cwnd = con'.ssthresh + 3 * pcb.snd_mss))) ∧
    (∀ pcb con, pcb.con = some con → con.cwnd + pcb.snd_mss < seqMod →
       ∃ con', (pcb_extra_dup_ack_received pcb).con = some con' ∧
         con'.cwnd = con.cwnd + pcb.snd_mss) ∧
    (∀ now errs fuel pcb,
       FastRtxDupAcks + MaxAdditionaDupAcks ≤ pcb.num_dupack →
       pcb_dup_ack_received now errs fuel pcb = ⟨pcb, []⟩) := by
  refine ⟨⟨rfl, rfl⟩, ?_, ?_, ?_⟩
  · intro now errs fuel pcb con hcon hfuel hrec hout hu hn hlo hhi hnosat
    have hcond : (decide (0 < con.snd_buf_len) ||
        !snd_open_in_state pcb.state) = true := by
      unfold pcb_has_snd_outstanding at hout
      rw [hcon] at hout
      cases hso : snd_open_in_state pcb.state with
      | false => simp [hso]
      | true => simp [hso] at hout ⊢; exact hout
    have hdisp : pcb_output now errs fuel pcb true =
        pcb_output_active now errs fuel pcb true := by
      simp [pcb_output, hcon]
    have heval := pcb_output_active_rtx_eval now errs fuel pcb con hcon hfuel hcond
    obtain ⟨c1, hc1, hc1eq, -, hc1una, -, -, hc1mss⟩ := pcb_output_segment_frame now
      (errs 0) pcb con.snd_buf_len (!snd_open_in_state pcb.state)
      (max 1 con.snd_wnd) con hcon
    have hc1nxt := pcb_output_segment_noadvance now (errs 0) pcb
      (!snd_open_in_state pcb.state) (max 1 con.snd_wnd) con hcon hu hn hlo hhi
    have hatt := pcb_output_segment_attempt_eq now (errs 0) pcb con.snd_buf_len
      (!snd_open_in_state pcb.state) (max 1 con.snd_wnd) con hcon
    have hfr2 : (pcb_fast_rtx_dup_acks_received now errs fuel pcb).pcb =
        { (pcb_output_segment now (errs 0) pcb con.snd_buf_len
             (!snd_open_in_state pcb.state) (max 1 con.snd_wnd)).pcb with
          flags :=
            { (pcb_output_segment now (errs 0) pcb con.snd_buf_len
                 (!snd_open_in_state pcb.state) (max 1 con.snd_wnd)).pcb.flags with
              recover := true, cwnd_init := false, out_pending := true },
          con := some
            { c1 with
              recover := pcb.snd_nxt,
              ssthresh := max (seq_diff pcb.snd_nxt pcb.snd_una / 2) (2 * pcb.snd_mss),
              cwnd := seq_add_sat
                (max (seq_diff pcb.snd_nxt pcb.snd_una / 2) (2 * pcb.snd_mss))
                (3 * pcb.snd_mss) } } := by
      unfold pcb_fast_rtx_dup_acks_received
      rw [hrec]
      simp only [Bool.false_eq_true, if_false, hdisp, heval]
      simp only [hc1, pcb_update_ssthresh_for_rtx]
      simp only [hc1nxt, hc1una, hc1mss]
    have hfr1 : (pcb_fast_rtx_dup_acks_received now errs fuel pcb).sent =
        [(pcb_output_segment now (errs 0) pcb con.snd_buf_len
            (!snd_open_in_state pcb.state) (max 1 con.snd_wnd)).attempt] := by
      unfold pcb_fast_rtx_dup_acks_received
      rw [hrec]
      simp only [Bool.false_eq_true, if_false, hdisp, heval]
      simp only [hc1, pcb_update_ssthresh_for_rtx]
    refine ⟨?_, ?_, ?_, ?_⟩
    · rw [hfr1]
      rfl
    · intro seg hseg
      rw [hfr1] at hseg
      simp only [List.mem_singleton] at hseg
      subst hseg
      rw [hatt.1, hatt.2.1, Nat.sub_self]
      simp [seq_add]
    · rw [hfr2]
    · refine ⟨_, by rw [hfr2], rfl, rfl, ?_⟩
      show min (max (seq_diff pcb.snd_nxt pcb.snd_una / 2) (2 * pcb.snd_mss) +
          3 * pcb.snd_mss) (seqMod - 1) =
        max (seq_diff pcb.snd_nxt pcb.snd_una / 2) (2 * pcb.snd_mss) + 3 * pcb.snd_mss
      simp only [seqMod] at hnosat ⊢
      omega
  · intro pcb con hcon hns
    unfold pcb_extra_dup_ack_received
    rw [hcon]
    refine ⟨_, rfl, ?_⟩
    show min (con.cwnd + pcb.snd_mss) (seqMod - 1) = con.cwnd + pcb.snd_mss
    simp only [seqMod] at hns ⊢
    omega
  · intro now errs fuel pcb hcap
    unfold pcb_dup_ack_received
    rw [if_neg (by omega)]

/-- Witness for `fast_retransmit_dup_acks`: the fast-retransmit branch
applied at the concrete PCB `outPcbEx` on the third duplicate ACK. -/
theorem fast_retransmit_dup_acks_witness :
    outPcbEx.con = some conEx ∧ 0 < 1 ∧ outPcbEx.flags.recover = false ∧
    pcb_has_snd_outstanding outPcbEx = true ∧
    outPcbEx.snd_una < seqMod ∧ outPcbEx.snd_nxt < seqMod ∧
    outPcbEx.snd_mss + 1 ≤ seq_diff outPcbEx.snd_nxt outPcbEx.snd_una ∧
    seq_diff outPcbEx.snd_nxt outPcbEx.snd_una < 2 ^ 31 ∧
    max (seq_diff outPcbEx.snd_nxt outPcbEx.snd_una / 2) (2 * outPcbEx.snd_mss) +
      3 * outPcbEx.snd_mss < seqMod ∧
    ((pcb_fast_rtx_dup_acks_received 0 errsOk 1 outPcbEx).sent.length = 1 ∧
     (∀ seg ∈ (pcb_fast_rtx_dup_acks_received 0 errsOk 1 outPcbEx).sent,
        seg.seq = outPcbEx.snd_una % seqMod) ∧
     (pcb_fast_rtx_dup_acks_received 0 errsOk 1 outPcbEx).pcb.flags.recover = true ∧
     (∃ con', (pcb_fast_rtx_dup_acks_received 0 errsOk 1 outPcbEx).pcb.con =
          some con' ∧
        con'.recover = outPcbEx.snd_nxt ∧
        con'.ssthresh = max (seq_diff outPcbEx.snd_nxt outPcbEx.snd_una / 2)
          (2 * outPcbEx.snd_mss) ∧
        con'.cwnd = con'.ssthresh + 3 * outPcbEx.snd_mss)) :=
  ⟨rfl, Nat.zero_lt_one, rfl, by decide, by decide, by decide, by decide, by decide,
   by decide,
   fast_retransmit_dup_acks.2.1 0 errsOk 1 outPcbEx conEx rfl Nat.zero_lt_one rfl
     (by decide) (by decide) (by decide) (by decide) (by decide) (by decide)⟩

/-! ## Ephemeral port allocation (IpTcpProto.h) and claim C8 -/

/-- The loop body of `get_ephemeral_port` (`IpTcpProto.h` lines
795-805): `used p` abstracts `find_pcb` on the 4-tuple completed with
candidate local port `p` (only the port varies within one call);
`cursor` is `m_next_ephemeral_port`.  Returns the allocated port (0 on
failure, as in the source) and the updated cursor. -/
def ephemeralScan (used : Nat → Bool) (first last : Nat) :
    Nat → Nat → Nat × Nat
  | 0, cursor => (0, cursor)
  | n + 1, cursor =>
    let port := cursor
    let cursor' := if port < last then port + 1 else first
    if !used port then (port, cursor')
    else ephemeralScan used first last n cursor'

/-- `NumEphemeralPorts = EphemeralPortLast - EphemeralPortFirst + 1`
(`IpTcpProto.h` line 145). -/
def NumEphemeralPorts (first last : Nat) : Nat := last - first + 1

/-- `get_ephemeral_port` (`IpTcpProto.h` lines 792-808): scan
`NumEphemeralPorts` candidates starting from the cursor. -/
def get_ephemeral_port (used : Nat → Bool) (first last cursor : Nat) : Nat × Nat :=
  ephemeralScan used first last (NumEphemeralPorts first last) cursor

/-- Result of the `create_connection` decision prefix: the returned
error, whether a PCB was taken from the pool, and the new port cursor. -/
structure CreateConnRes where
  err : IpErrM
  pcb_allocated : Bool
  next_port : Nat
  deriving DecidableEq, Repr

/-- The decision prefix of `create_connection` (`IpTcpProto.h` lines
705-745) up to and including PCB allocation: `selectErr` abstracts
`selectLocalIp4Address` and `pcbAvail` whether the unreferenced-PCB
list is nonempty (`allocate_pcb`).  The remaining body of
`create_connection` (PCB initialisation and SYN transmission) runs only
in the success case. -/
def create_connection (used : Nat → Bool) (first last cursor : Nat)
    (selectErr : IpErrM) (pcbAvail : Bool) : CreateConnRes :=
  if selectErr ≠ IpErrM.SUCCESS then ⟨selectErr, false, cursor⟩
  else
    let pr := get_ephemeral_port used first last cursor
    if pr.1 = 0 then ⟨IpErrM.NO_PORT_AVAIL, false, pr.2⟩
    else if !pcbAvail then ⟨IpErrM.NO_PCB_AVAIL, false, pr.2⟩
    else ⟨IpErrM.SUCCESS, true, pr.2⟩

/-- The round-robin candidate sequence: `n` ports starting at the
cursor, incrementing and wrapping from `last` to `first` exactly as the
cursor update of `get_ephemeral_port` does. -/
def rrSeq (first last : Nat) : Nat → Nat → List Nat
  | 0, _ => []
  | n + 1, cursor =>
    cursor :: rrSeq first last n (if cursor < last then cursor + 1 else first)

/-- The scan returns the first unused port of the round-robin candidate
sequence (0 when every candidate is used). -/
theorem ephemeralScan_eq_find (used : Nat → Bool) (first last : Nat) :
    ∀ n cursor,
      (ephemeralScan used first last n cursor).1 =
        ((rrSeq first last n cursor).find? (fun p => !used p)).getD 0
  | 0, cursor => rfl
  | n + 1, cursor => by
    unfold ephemeralScan rrSeq
    dsimp only
    rcases hu : used cursor with - | -
    · simp [List.find?, hu]
    · simp only [hu, Bool.not_true, Bool.false_eq_true, if_false, List.find?]
      exact ephemeralScan_eq_find used first last n _

/-- Every candidate of the round-robin sequence lies in the range
`[first, last]` when the cursor does. -/
theorem rrSeq_subset (first last : Nat) :
    ∀ n cursor, first ≤ cursor → cursor ≤ last →
      ∀ p ∈ rrSeq first last n cursor, first ≤ p ∧ p ≤ last
  | 0, cursor, _, _, p, hp => absurd hp (List.not_mem_nil p)
  | n + 1, cursor, h1, h2, p, hp => by
    unfold rrSeq at hp
    rcases List.mem_cons.mp hp with rfl | hp'
    · exact ⟨h1, h2⟩
    · by_cases hc : cursor < last
      · exact rrSeq_subset first last n (cursor + 1) (by omega) (by omega) p
          (by simpa [hc] using hp')
      · exact rrSeq_subset first last n first (le_refl first) (by omega) p
          (by simpa [hc] using hp')

/-- C8: ephemeral port allocation scans round-robin from the persistent
cursor, returning the first candidate port with no colliding PCB for
the 4-tuple; all `NumEphemeralPorts` candidates stay inside
`[EphemeralPortFirst, EphemeralPortLast]`; and when every port of the
range collides, `create_connection` returns `NO_PORT_AVAIL` without
allocating a PCB. -/
theorem ephemeral_port_round_robin :
    (∀ (used : Nat → Bool) first last cursor,
       (get_ephemeral_port used first last cursor).1 =
         ((rrSeq first last (NumEphemeralPorts first last) cursor).find?
            (fun p => !used p)).getD 0) ∧
    (∀ (used : Nat → Bool) first last cursor, first ≤ cursor → cursor ≤ last →
       ∀ p ∈ rrSeq first last (NumEphemeralPorts first last) cursor,
         first ≤ p ∧ p ≤ last) ∧
    (∀ (used : Nat → Bool) first last cursor pcbAvail,
       first ≤ cursor → cursor ≤ last →
       (∀ p, first ≤ p → p ≤ last → used p = true) →
       (create_connection used first last cursor IpErrM.SUCCESS pcbAvail).err =
         IpErrM.NO_PORT_AVAIL ∧
       (create_connection used first last cursor IpErrM.SUCCESS
          pcbAvail).pcb_allocated = false) := by
  refine ⟨?_, ?_, ?_⟩
  · intro used first last cursor
    exact ephemeralScan_eq_find used first last (NumEphemeralPorts first last) cursor
  · intro used first last cursor h1 h2
    exact rrSeq_subset first last (NumEphemeralPorts first last) cursor h1 h2
  · intro used first last cursor pcbAvail h1 h2 hall
    have hfind : (rrSeq first last (NumEphemeralPorts first last) cursor).find?
        (fun p => !used p) = none := by
      cases hf : (rrSeq first last (NumEphemeralPorts first last) cursor).find?
          (fun p => !used p) with
      | none => rfl
      | some q =>
        have hmem := List.mem_of_find?_eq_some hf
        have hpred := List.find?_some hf
        obtain ⟨ha, hb⟩ := rrSeq_subset first last (NumEphemeralPorts first last)
          cursor h1 h2 q hmem
        rw [hall q ha hb] at hpred
        simp at hpred
    have hport : (get_ephemeral_port used first last cursor).1 = 0 := by
      unfold get_ephemeral_port
      rw [ephemeralScan_eq_find used first last (NumEphemeralPorts first last) cursor,
        hfind]
      rfl
    unfold create_connection
    simp [hport]

/-- Witness for `ephemeral_port_round_robin`: every port of the range
`[49152, 49155]` collides, so active open fails with `NO_PORT_AVAIL`
and no PCB is allocated. -/
theorem ephemeral_port_round_robin_witness :
    49152 ≤ 49153 ∧ 49153 ≤ 49155 ∧
    (∀ p, 49152 ≤ p → p ≤ 49155 → (fun _ => true) p = true) ∧
    (create_connection (fun _ => true) 49152 49155 49153 IpErrM.SUCCESS true).err =
      IpErrM.NO_PORT_AVAIL ∧
    (create_connection (fun _ => true) 49152 49155 49153 IpErrM.SUCCESS
       true).pcb_allocated = false :=
  ⟨by omega, by omega, fun p _ _ => rfl,
   ephemeral_port_round_robin.2.2 (fun _ => true) 49152 49155 49153 true
     (by omega) (by omega) (fun p _ _ => rfl)⟩

/-! ## IPv4 reassembly (ip/IpReassembly.h)

The reassembly buffer `data` is modelled as a byte store `Nat → Nat`.
`HoleDescriptor` has two raw (host-order) 16-bit fields, `HoleSize` at
offset 0 and `NextHoleOffset` at offset 2 within the hole; the stored
base IPv4 header uses the big-endian field encoding of `Struct.h`.
Since the platform facade is not among the provided sources, platform
time is a `Nat` reduced modulo a parameter `timeMod`, with `timeFreq`
ticks per second. -/

/-- Static parameters of `IpReassembly` (template/option values), plus
the platform time parameters. -/
structure ReassParams where
  maxReassSize : Nat
  maxReassHoles : Nat
  maxReassTimeSeconds : Nat
  timeFreq : Nat
  timeMod : Nat
  deriving DecidableEq, Repr

/-- `HoleDescriptor::Size` (two 16-bit fields). -/
def HoleDescSize : Nat := 4

/-- `ReassNullLink = TypeMax<uint16>`. -/
def ReassNullLink : Nat := 65535

/-- `ReassBufferSize = MaxReassSize + HoleDescriptor::Size`. -/
def ReassBufferSize (P : ReassParams) : Nat := P.maxReassSize + HoleDescSize

/-- `ReassMaxExpirationTicks = MaxReassTimeSeconds * TimeFreq`. -/
def ReassMaxExpirationTicks (P : ReassParams) : Nat :=
  P.maxReassTimeSeconds * P.timeFreq

/-- Wrap-around subtraction of platform times (`TimeType(a - b)`). -/
def timeSub (P : ReassParams) (a b : Nat) : Nat :=
  (a + P.timeMod - b % P.timeMod) % P.timeMod

/-- A byte store. -/
def Store : Type := Nat → Nat

/-- Write one byte (stored reduced modulo 256, as a `char`). -/
def writeByte (s : Store) (o v : Nat) : Store :=
  fun i => if i = o then v % 256 else s i

/-- Write a raw 16-bit field (`StructRawField<uint16>`): two bytes, low
byte first (the encoding is host-internal and never leaves the host). -/
def write16 (s : Store) (o v : Nat) : Store :=
  writeByte (writeByte s o v) (o + 1) (v / 256)

/-- Read a raw 16-bit field. -/
def read16 (s : Store) (o : Nat) : Nat := s o % 256 + 256 * (s (o + 1) % 256)

/-- Read a big-endian 16-bit header field (`Struct.h` encoding). -/
def read16BE (h : Nat → Nat) (o : Nat) : Nat := (h o % 256) * 256 + h (o + 1) % 256

/-- Read a big-endian 32-bit header field. -/
def read32BE (h : Nat → Nat) (o : Nat) : Nat :=
  ((h o % 256) * 256 + h (o + 1) % 256) * 65536 +
    (h (o + 2) % 256) * 256 + h (o + 3) % 256

/-- The effect of `dgram_tmp.takeBytes(len, data + off)`: copy the
fragment payload into the buffer at the fragment offset. -/
def copyBytes (s : Store) (off : Nat) (src : Nat → Nat) (len : Nat) : Store :=
  fun i => if off ≤ i ∧ i < off + len then src (i - off) % 256 else s i

/-- `ReassEntry` (`IpReassembly.h` lines 111-124). -/
structure ReassEntry where
  first_hole_offset : Nat
  data_length : Nat
  expiration_time : Nat
  header : Nat → Nat
  data : Store

/-- A received fragment handed to `reassembleIp4`: the more-fragments
flag, the fragment offset, the payload length (`dgram.tot_len`) and the
payload bytes. -/
structure Fragment where
  more_fragments : Bool
  fragment_offset : Nat
  tot_len : Nat
  bytes : Nat → Nat

/-- Mark an entry free (`reass->first_hole_offset = ReassNullLink`). -/
def invalidateEntry (e : ReassEntry) : ReassEntry :=
  { e with first_hole_offset := ReassNullLink }

/-- The expiry test of `find_reass_entry` (`IpReassembly.h` line 398):
`TimeType(expiration_time - now) > ReassMaxExpirationTicks`. -/
def reassEntryExpired (P : ReassParams) (now : Nat) (e : ReassEntry) : Bool :=
  decide (ReassMaxExpirationTicks P < timeSub P e.expiration_time now)

/-- The header-match test of `find_reass_entry` (`IpReassembly.h` lines
406-409), written exactly as in the source: the last conjunct is
`std::uint8_t(reass_hdr.get(Ip4Header::TtlProto()) == proto)`, a
functional cast applied to the whole comparison, so the full 16-bit
TtlProto field (TTL in the high byte) is compared with the 8-bit
protocol argument. -/
def reassHeaderMatches (ident srcAddr dstAddr proto : Nat) (e : ReassEntry) : Bool :=
  decide (read16BE e.header 4 = ident) &&
  decide (read32BE e.header 12 = srcAddr) &&
  decide (read32BE e.header 16 = dstAddr) &&
  decide (read16BE e.header 8 = proto)

/-- `find_reass_entry` (`IpReassembly.h` lines 386-416): walk all
entries, freeing the expired ones, and return the index of the last
live, unexpired, matching entry (the source keeps overwriting
`found_entry`). -/
def find_reass_entry (P : ReassParams) (now ident srcAddr dstAddr proto : Nat) :
    List ReassEntry → List ReassEntry × Option Nat
  | [] => ([], none)
  | e :: rest =>
    let r := find_reass_entry P now ident srcAddr dstAddr proto rest
    if e.first_hole_offset = ReassNullLink then
      (e :: r.1, r.2.map (· + 1))
    else if reassEntryExpired P now e then
      (invalidateEntry e :: r.1, r.2.map (· + 1))
    else if reassHeaderMatches ident srcAddr dstAddr proto e then
      (e :: r.1, (r.2.map (· + 1)).orElse (fun _ => some 0))
    else
      (e :: r.1, r.2.map (· + 1))

/-- The entry-selection loop of `alloc_reass_entry` (`IpReassembly.h`
lines 424-438): prefer a free entry (break on the first), else the
entry with the greatest `TimeType(future - expiration_time)`, i.e. the
smallest remaining lifetime. -/
def alloc_scan (P : ReassParams) (future : Nat) :
    List ReassEntry → Nat → Option (Nat × Nat) → Nat
  | [], _, best => (best.map Prod.fst).getD 0
  | e :: rest, i, best =>
    if e.first_hole_offset = ReassNullLink then i
    else
      let best' :=
        match best with
        | none => some (i, e.expiration_time)
        | some b =>
          if timeSub P future b.2 < timeSub P future e.expiration_time then
            some (i, e.expiration_time)
          else some b
      alloc_scan P future rest (i + 1) best'

/-- `alloc_reass_entry` (`IpReassembly.h` lines 418-445): pick an entry
and set its expiration time from `min(ttl, MaxReassTimeSeconds)`
seconds. -/
def alloc_reass_entry (P : ReassParams) (now ttl : Nat)
    (entries : List ReassEntry) : Nat × Nat :=
  let future := (now + ReassMaxExpirationTicks P) % P.timeMod
  let idx := alloc_scan P future entries 0 none
  let seconds := min ttl P.maxReassTimeSeconds
  (idx, (now + seconds * P.timeFreq) % P.timeMod)

/-- Re-initialisation of a newly allocated entry (`IpReassembly.h`
lines 199-213): copy the base header, set first hole offset 0 and
unknown data length, and write one hole `(ReassBufferSize, NullLink)`
at offset 0. -/
def initReassEntry (P : ReassParams) (e : ReassEntry) (header : Nat → Nat)
    (expiration : Nat) : ReassEntry :=
  { first_hole_offset := 0, data_length := 0, expiration_time := expiration,
    header := header,
    data := write16 (write16 e.data 0 (ReassBufferSize P)) 2 ReassNullLink }

/-- `reass_link_prev` (`IpReassembly.h` lines 447-457) on the pair
(first_hole_offset, data). -/
def reass_link_prev (fh : Nat) (d : Store) (prev_hole_offset hole_offset : Nat) :
    Nat × Store :=
  if prev_hole_offset = ReassNullLink then (hole_offset, d)
  else (fh, write16 d (prev_hole_offset + 2) hole_offset)

/-- Result of the hole-update loop: invalidation, or the new
(first_hole_offset, data, num_holes); `stuck` is fuel exhaustion, which
cannot occur on a well-formed hole list given fuel at least the number
of holes. -/
inductive WalkRes where
  | invalid
  | ok (first_hole : Nat) (d : Store) (num_holes : Nat)
  | stuck

/-- The hole-update loop of `reassembleIp4` (`IpReassembly.h` lines
250-335): walk the hole list, skipping holes that do not overlap the
fragment and dismantling each overlapping hole into zero, one or two
replacement holes (invalidating when a replacement hole would be
smaller than a hole descriptor), maintaining the links through a
`prev_hole_offset` cursor. -/
def holeWalk (mf : Bool) (fragment_offset fragment_end : Nat) :
    Nat → Nat → Nat → Nat → Nat → Store → WalkRes
  | 0, _, _, _, _, _ => WalkRes.stuck
  | fuel + 1, prev_hole_offset, hole_offset, num_holes, first_hole, d =>
    let hole_size := read16 d hole_offset
    let next_hole_offset := read16 d (hole_offset + 2)
    let hole_end := hole_offset + hole_size
    if !mf && decide (fragment_end < hole_offset) then WalkRes.invalid
    else if decide (hole_end ≤ fragment_offset) || decide (fragment_end ≤ hole_offset)
    then
      (if next_hole_offset = ReassNullLink then
        WalkRes.ok first_hole d (num_holes + 1)
      else
        holeWalk mf fragment_offset fragment_end fuel hole_offset next_hole_offset
          (num_holes + 1) first_hole d)
    else
      let left : Option (Nat × Nat × Store) :=
        if decide (hole_offset < fragment_offset) then
          (if decide (fragment_offset - hole_offset < HoleDescSize) then none
           else some (hole_offset, num_holes + 1,
             write16 d hole_offset (fragment_offset - hole_offset)))
        else some (prev_hole_offset, num_holes, d)
      match left with
      | none => WalkRes.invalid
      | some (prev1, nh1, d1) =>
        let right : Option (Nat × Nat × Nat × Store) :=
          if decide (fragment_end < hole_end) then
            (if decide (hole_end - fragment_end < HoleDescSize) then none
             else
               let d2 := write16 d1 fragment_end (hole_end - fragment_end)
               let ld := reass_link_prev first_hole d2 prev1 fragment_end
               some (fragment_end, nh1 + 1, ld.1, ld.2))
          else some (prev1, nh1, first_hole, d1)
        match right with
        | none => WalkRes.invalid
        | some (prev2, nh2, fh2, d2) =>
          let ld := reass_link_prev fh2 d2 prev2 next_hole_offset
          if next_hole_offset = ReassNullLink then WalkRes.ok ld.1 ld.2 nh2
          else
            holeWalk mf fragment_offset fragment_end fuel prev2 next_hole_offset
              nh2 ld.1 ld.2

/-- The last-fragment coherence checks of `reassembleIp4`
(`IpReassembly.h` lines 234-248): `none` means invalidation, otherwise
the (possibly updated) `data_length`. -/
def reassDataLen (frag : Fragment) (e : ReassEntry) : Option Nat :=
  let fragment_end := frag.fragment_offset + frag.tot_len
  if !frag.more_fragments then
    (if e.data_length ≠ 0 ∧ fragment_end ≠ e.data_length then none
     else some fragment_end)
  else
    (if e.data_length ≠ 0 ∧ e.data_length < fragment_end then none
     else some e.data_length)

/-- Result of processing one fragment against one entry: the source's
`goto invalidate_reass` paths, the incomplete return, or completion
(the freed entry, whose `data` holds the reassembled payload on
`[0, len)`). -/
inductive ReassResult where
  | invalidated (e : ReassEntry)
  | incomplete (e : ReassEntry)
  | completed (e : ReassEntry) (len : Nat)
  | stuck

/-- The body of `reassembleIp4` after entry lookup/allocation
(`IpReassembly.h` lines 215-383): fragment validation, last-fragment
checks, the hole-update walk, the payload copy, and the completion
test. -/
def processFragment (P : ReassParams) (fuel : Nat) (frag : Fragment)
    (e : ReassEntry) : ReassResult :=
  if decide (P.maxReassSize < frag.fragment_offset) then
    ReassResult.invalidated (invalidateEntry e)
  else if decide (P.maxReassSize - frag.fragment_offset < frag.tot_len) then
    ReassResult.invalidated (invalidateEntry e)
  else
    match reassDataLen frag e with
    | none => ReassResult.invalidated (invalidateEntry e)
    | some dl =>
      let e1 : ReassEntry := { e with data_length := dl }
      match holeWalk frag.more_fragments frag.fragment_offset
          (frag.fragment_offset + frag.tot_len) fuel ReassNullLink
          e1.first_hole_offset 0 e1.first_hole_offset e1.data with
      | WalkRes.stuck => ReassResult.stuck
      | WalkRes.invalid => ReassResult.invalidated (invalidateEntry e1)
      | WalkRes.ok fh' d' nh =>
        let e2 : ReassEntry := { e1 with first_hole_offset := fh', data := copyBytes d' frag.fragment_offset frag.bytes frag.tot_len }
        if decide (e2.data_length = 0) ||
           decide (e2.first_hole_offset < e2.data_length) then
          (if decide (P.maxReassHoles < nh) then
            ReassResult.invalidated (invalidateEntry e2)
          else ReassResult.incomplete e2)
        else ReassResult.completed (invalidateEntry e2) e2.data_length

/-- `reassembleIp4` (`IpReassembly.h` lines 179-383) over a fixed array
of entries: the zero-length check, entry lookup with opportunistic
expiry, allocation and re-initialisation when nothing matches, then
fragment processing.  Returns the updated entries and the per-call
result (`none` for the zero-length early return). -/
def reassembleIp4 (P : ReassParams) (fuel now : Nat)
    (ident srcAddr dstAddr proto ttl : Nat) (header : Nat → Nat)
    (frag : Fragment) (entries : List ReassEntry) :
    List ReassEntry × Option ReassResult :=
  if frag.tot_len = 0 then (entries, none)
  else
    let fr := find_reass_entry P now ident srcAddr dstAddr proto entries
    match fr.2 with
    | some idx =>
      match fr.1.get? idx with
      | none => (fr.1, none)
      | some e =>
        let res := processFragment P fuel frag e
        let e' := match res with
          | ReassResult.invalidated x => x
          | ReassResult.incomplete x => x
          | ReassResult.completed x _ => x
          | ReassResult.stuck => e
        (fr.1.set idx e', some res)
    | none =>
      let al := alloc_reass_entry P now ttl fr.1
      match fr.1.get? al.1 with
      | none => (fr.1, none)
      | some e0 =>
        let e := initReassEntry P e0 header al.2
        let res := processFragment P fuel frag e
        let e' := match res with
          | ReassResult.invalidated x => x
          | ReassResult.incomplete x => x
          | ReassResult.completed x _ => x
          | ReassResult.stuck => e
        (fr.1.set al.1 e', some res)

/-! ### C1: the entry-match test of find_reass_entry -/

/-- A stored base IPv4 header: Ident 4660 (0x1234) at byte offset 4,
TTL 64 and protocol 6 in the TtlProto field at offset 8, source address
10.0.0.1 at offset 12, destination address 10.0.0.2 at offset 16
(big-endian field encoding of `Struct.h`). -/
def reassHdrEx : Nat → Nat := fun i =>
  if i = 4 then 18 else if i = 5 then 52
  else if i = 8 then 64 else if i = 9 then 6
  else if i = 12 then 10 else if i = 15 then 1
  else if i = 16 then 10 else if i = 19 then 2
  else 0

def reassParamsEx : ReassParams := ⟨576, 10, 60, 1, 2 ^ 32⟩

/-- A live reassembly entry (first hole at offset 0) storing
`reassHdrEx`, with expiration time 100. -/
def reassEntryEx : ReassEntry := ⟨0, 0, 100, reassHdrEx, fun _ => 0⟩

/-- C1: FALSIFIED.  The claim says an existing entry matches iff it is
live and unexpired with equal Ident, SrcAddr, DstAddr and equal 8-bit
protocol, the stored TTL byte playing no role.  In the source the last
conjunct of the match is `std::uint8_t(reass_hdr.get(Ip4Header::TtlProto()) == proto)`
(IpReassembly.h line 409): the functional cast applies to the whole
comparison, so the full 16-bit TtlProto field (TTL*256 + protocol) is
compared with the 8-bit protocol, and an entry can only match when its
stored TTL byte is zero.  Concretely: `reassEntryEx` is live and
unexpired at time 100, its stored Ident, SrcAddr, DstAddr and 8-bit
protocol all equal the lookup arguments (4660, 10.0.0.1, 10.0.0.2, 6),
yet `reassHeaderMatches` is false and `find_reass_entry` finds no
entry; zeroing the stored TTL byte makes the same lookup match. -/
theorem reass_match_requires_zero_ttl :
    reassEntryEx.first_hole_offset ≠ ReassNullLink ∧
    reassEntryExpired reassParamsEx 100 reassEntryEx = false ∧
    read16BE reassEntryEx.header 4 = 4660 ∧
    read32BE reassEntryEx.header 12 = 167772161 ∧
    read32BE reassEntryEx.header 16 = 167772162 ∧
    reassEntryEx.header 9 = 6 ∧
    reassHeaderMatches 4660 167772161 167772162 6 reassEntryEx = false ∧
    (find_reass_entry reassParamsEx 100 4660 167772161 167772162 6 [reassEntryEx]).2 = none ∧
    reassHeaderMatches 4660 167772161 167772162 6 ⟨0, 0, 100, fun i => if i = 8 then 0 else reassHdrEx i, fun _ => 0⟩ = true := by
  decide

/-! ### C2: the completion condition of reassembleIp4 -/

/-- C2: after a fragment passing the buffer-bound checks has been
processed into a live entry — the last-fragment checks yielding data
length `dl` and the hole-update walk returning new first hole `fh'`,
buffer `d'` and hole count `nh` — `reassembleIp4`s fragment processing
completes exactly when `dl ≠ 0` and `fh' ≥ dl`.  On completion the
entry is freed (`first_hole_offset := ReassNullLink`) and the returned
datagram is the buffer (fragment payload copied in) of length `dl`; on
non-completion the entry is invalidated precisely when `nh`
exceeds MaxReassHoles. -/
theorem reassemble_completion (P : ReassParams) (fuel : Nat) (frag : Fragment)
    (e : ReassEntry) (dl fh' : Nat) (d' : Store) (nh : Nat)
    (hv1 : ¬ P.maxReassSize < frag.fragment_offset)
    (hv2 : ¬ P.maxReassSize - frag.fragment_offset < frag.tot_len)
    (hdl : reassDataLen frag e = some dl)
    (hwalk : holeWalk frag.more_fragments frag.fragment_offset
        (frag.fragment_offset + frag.tot_len) fuel ReassNullLink
        e.first_hole_offset 0 e.first_hole_offset e.data = WalkRes.ok fh' d' nh) :
    ((dl ≠ 0 ∧ dl ≤ fh') →
       processFragment P fuel frag e = ReassResult.completed ⟨ReassNullLink, dl, e.expiration_time, e.header, copyBytes d' frag.fragment_offset frag.bytes frag.tot_len⟩ dl) ∧
    ((dl = 0 ∨ fh' < dl) → P.maxReassHoles < nh →
       processFragment P fuel frag e = ReassResult.invalidated ⟨ReassNullLink, dl, e.expiration_time, e.header, copyBytes d' frag.fragment_offset frag.bytes frag.tot_len⟩) ∧
    ((dl = 0 ∨ fh' < dl) → nh ≤ P.maxReassHoles →
       processFragment P fuel frag e = ReassResult.incomplete ⟨fh', dl, e.expiration_time, e.header, copyBytes d' frag.fragment_offset frag.bytes frag.tot_len⟩) ∧
    (∀ x len, processFragment P fuel frag e = ReassResult.completed x len →
       dl ≠ 0 ∧ dl ≤ fh') := by
  have hbody : processFragment P fuel frag e =
      (if decide (dl = 0) || decide (fh' < dl) then
        (if decide (P.maxReassHoles < nh) then
          ReassResult.invalidated ⟨ReassNullLink, dl, e.expiration_time, e.header, copyBytes d' frag.fragment_offset frag.bytes frag.tot_len⟩
        else ReassResult.incomplete ⟨fh', dl, e.expiration_time, e.header, copyBytes d' frag.fragment_offset frag.bytes frag.tot_len⟩)
       else ReassResult.completed ⟨ReassNullLink, dl, e.expiration_time, e.header, copyBytes d' frag.fragment_offset frag.bytes frag.tot_len⟩ dl) := by
    unfold processFragment
    rw [if_neg (by simpa using hv1), if_neg (by simpa using hv2), hdl]
    dsimp only
    rw [hwalk]
    rfl
  refine ⟨?_, ?_, ?_, ?_⟩
  · rintro ⟨h1, h2⟩
    rw [hbody, if_neg]
    simp [h1, Nat.not_lt.mpr h2]
  · intro hc hn
    rw [hbody, if_pos (by rcases hc with h | h <;> simp [h]), if_pos (by simpa using hn)]
  · intro hc hn
    rw [hbody, if_pos (by rcases hc with h | h <;> simp [h]), if_neg (by simpa using Nat.not_lt.mpr hn)]
  · intro x len h
    by_cases hd : dl = 0 ∨ fh' < dl
    · rw [hbody, if_pos (by rcases hd with h1 | h1 <;> simp [h1])] at h
      split at h <;> exact ReassResult.noConfusion h
    · push_neg at hd
      exact hd

/-- An arbitrary 576-byte fragment payload. -/
def reassBytesEx : Nat → Nat := fun i => (i * 7 + 3) % 256

/-- A single last fragment covering `[0, 576)`. -/
def reassFragEx : Fragment := ⟨false, 0, 576, reassBytesEx⟩

/-- The buffer of a freshly initialised entry: one hole at offset 0 of
size ReassBufferSize = 580 with a null next link. -/
def reassInitData : Store := write16 (write16 (fun _ => 0) 0 580) 2 65535

/-- A freshly initialised live entry (unknown data length). -/
def reassInitEx : ReassEntry := ⟨0, 0, 160, reassHdrEx, reassInitData⟩

/-- The buffer after the hole walk for `reassFragEx`: the initial hole
was dismantled into one hole `[576, 580)` which became the first. -/
def reassDEx : Store := write16 (write16 reassInitData 576 4) 578 65535

/-- The completed (freed) entry with the reassembled payload. -/
def reassDoneEx : ReassEntry := ⟨ReassNullLink, 576, 160, reassHdrEx, copyBytes reassDEx 0 reassBytesEx 576⟩

theorem reassemble_completion_witness :
    processFragment reassParamsEx 1 reassFragEx reassInitEx =
      ReassResult.completed reassDoneEx 576 := by
  have h := reassemble_completion reassParamsEx 1 reassFragEx reassInitEx 576 576
    reassDEx 1 (by decide) (by decide) (by decide) rfl
  exact h.1 ⟨by decide, by decide⟩

/-! ## TCP listen queue (utils/TcpListenQueue.h)

A queue slot (`ListenQueueEntry`) holding a pre-accept connection is
modelled by whether it holds a connection (`used`, the negation of
`TcpConnection::isInit()`), its `m_ready` flag, its arrival time
`m_time`, and the remaining length of its receive buffer
(`getRecvBuf().tot_len`).  Modelled from the spec: the platform facade
is not among the provided sources; `TimeType` is a 32-bit tick counter
and `timeGreaterOrEqual(a, b)` is the wrap-around comparison
`TimeType(a - b) < 2^31`. -/

structure LqSlot where
  used : Bool
  ready : Bool
  time : Nat
  recvBufLen : Nat
  deriving DecidableEq, Repr

def lqTimeMod : Nat := 2 ^ 32

def lqHalf : Nat := 2 ^ 31

/-- Modelled from the spec: `Platform::timeGreaterOrEqual`. -/
def timeGE (a b : Nat) : Bool := decide ((a + lqTimeMod - b % lqTimeMod) % lqTimeMod < lqHalf)

/-- Position of a time within a window starting at `base`. -/
def lqKey (base t : Nat) : Nat := (t + lqTimeMod - base % lqTimeMod) % lqTimeMod

/-- The slot filter of `find_oldest`:
`!entry.TcpConnection::isInit() && entry.m_ready == ready`. -/
def lqGood (rdy : Bool) (e : LqSlot) : Bool := e.used && (e.ready == rdy)

/-- The replace test of `find_oldest`
(`oldest_entry == nullptr || !timeGreaterOrEqual(entry.m_time, oldest_entry->m_time)`). -/
def lqTake (rdy : Bool) (e : LqSlot) (best : Option (Nat × LqSlot)) : Bool :=
  lqGood rdy e && (match best with | none => true | some b => ! timeGE e.time b.2.time)

/-- `find_oldest` (`TcpListenQueue.h` lines 364-379): scan the queue
keeping the entry that passes the filter and the replace test,
returning its index and value. -/
def lq_find_oldest (rdy : Bool) : List LqSlot → Nat → Option (Nat × LqSlot) → Option (Nat × LqSlot)
  | [], _, best => best
  | e :: rest, i, best =>
    lq_find_oldest rdy rest (i + 1) (if lqTake rdy e best then some (i, e) else best)

/-- `update_timeout` (`TcpListenQueue.h` lines 323-336): the state of
the `TimeoutTimer` after the update — `some` deadline
`oldest.m_time + m_queue_timeout` when a non-ready connection exists,
else `none` (unset). -/
def lq_update_timeout (queue_timeout : Nat) (slots : List LqSlot) : Option Nat :=
  match lq_find_oldest false slots 0 none with
  | some r => some ((r.2.time + queue_timeout) % lqTimeMod)
  | none => none

/-- `reset_connection`s effect on the slot itself: drop the held
connection. -/
def lqFree (e : LqSlot) : LqSlot := { e with used := false }

/-- `timerExpired(TimeoutTimer)` (`TcpListenQueue.h` lines 338-353):
reset the oldest non-ready connection. -/
def lq_timeout_expired (slots : List LqSlot) : List LqSlot :=
  match lq_find_oldest false slots 0 none with
  | none => slots
  | some r => slots.set r.1 (lqFree r.2)

inductive LqEvent where
  | wasReset
  | becameReady
  | noChange
  deriving DecidableEq, Repr

/-- `dataReceived` (`TcpListenQueue.h` lines 121-141): a FIN (`amount
== 0`) with a completely unused receive buffer resets the connection;
otherwise a not-yet-ready slot becomes ready (with timeout update and
dispatch); otherwise nothing changes. -/
def lq_dataReceived (rxBufferSize : Nat) (s : LqSlot) (amount : Nat) : LqSlot × LqEvent :=
  if amount = 0 ∧ s.recvBufLen = rxBufferSize then
    ({ s with used := false }, LqEvent.wasReset)
  else if !s.ready then
    ({ s with ready := true }, LqEvent.becameReady)
  else (s, LqEvent.noChange)

/-- Within a half-range window the wrap-around comparison agrees with
the order of window positions. -/
lemma timeGE_key (base a b : Nat) (ha : lqKey base a < lqHalf) (hb : lqKey base b < lqHalf) :
    timeGE a b = true ↔ lqKey base b ≤ lqKey base a := by
  simp only [timeGE, lqKey, lqTimeMod, lqHalf, decide_eq_true_eq] at *
  omega

/-- Characterisation of `lq_find_oldest`: assuming all candidate times
(and the accumulator) lie in a half-range window from `base`, the scan
returns `none` exactly when there is no candidate, and otherwise a
candidate whose window position is minimal. -/
lemma lq_find_oldest_spec (rdy : Bool) (base : Nat) (l : List LqSlot) :
    ∀ (i : Nat) (best : Option (Nat × LqSlot)),
      (∀ b, best = some b → lqGood rdy b.2 = true ∧ lqKey base b.2.time < lqHalf) →
      (∀ e ∈ l, lqGood rdy e = true → lqKey base e.time < lqHalf) →
      ((∀ r, lq_find_oldest rdy l i best = some r →
          (lqGood rdy r.2 = true ∧ lqKey base r.2.time < lqHalf) ∧
          (∀ b, best = some b → lqKey base r.2.time ≤ lqKey base b.2.time) ∧
          (∀ e ∈ l, lqGood rdy e = true → lqKey base r.2.time ≤ lqKey base e.time) ∧
          (best = some r ∨ r.2 ∈ l)) ∧
       (lq_find_oldest rdy l i best = none →
          best = none ∧ ∀ e ∈ l, lqGood rdy e = false)) := by
  induction l with
  | nil =>
    intro i best hbest hw
    refine ⟨?_, ?_⟩
    · intro r hr
      simp only [lq_find_oldest] at hr
      refine ⟨hbest r hr, ?_, ?_, Or.inl hr⟩
      · intro b hb
        rw [hb] at hr
        cases hr
        exact le_refl _
      · intro e he
        exact absurd he (List.not_mem_nil e)
    · intro hr
      simp only [lq_find_oldest] at hr
      exact ⟨hr, fun e he => absurd he (List.not_mem_nil e)⟩
  | cons e rest ih =>
    intro i best hbest hw
    have hwrest : ∀ x ∈ rest, lqGood rdy x = true → lqKey base x.time < lqHalf :=
      fun x hx => hw x (List.mem_cons_of_mem e hx)
    have hwe : lqGood rdy e = true → lqKey base e.time < lqHalf :=
      hw e (List.mem_cons_self e rest)
    cases htake : lqTake rdy e best with
    | true =>
      have htk := htake
      rw [lqTake.eq_def] at htk
      simp only [Bool.and_eq_true] at htk
      have hg : lqGood rdy e = true := htk.1
      have hkey_e : lqKey base e.time < lqHalf := hwe hg
      have hbest2 : ∀ b, (some (i, e) : Option (Nat × LqSlot)) = some b →
          lqGood rdy b.2 = true ∧ lqKey base b.2.time < lqHalf := by
        rintro b hb
        cases hb
        exact ⟨hg, hkey_e⟩
      have hrec := ih (i + 1) (some (i, e)) hbest2 hwrest
      have heq : lq_find_oldest rdy (e :: rest) i best =
          lq_find_oldest rdy rest (i + 1) (some (i, e)) := by
        simp only [lq_find_oldest, htake, ↓reduceIte]
      refine ⟨?_, ?_⟩
      · intro r hr
        rw [heq] at hr
        obtain ⟨hGr, hBr, hEr, hMr⟩ := hrec.1 r hr
        have hre : lqKey base r.2.time ≤ lqKey base e.time := hBr (i, e) rfl
        refine ⟨hGr, ?_, ?_, ?_⟩
        · intro b hb
          cases hb2 : best with
          | none => rw [hb2] at hb; cases hb
          | some b0 =>
            rw [hb2] at hb
            cases hb
            have hm : (! timeGE e.time b.2.time) = true := by
              have hm0 := htk.2
              rw [hb2] at hm0
              exact hm0
            have hkb : lqKey base b.2.time < lqHalf := (hbest b (by rw [hb2])).2
            have : ¬ (lqKey base b.2.time ≤ lqKey base e.time) := by
              intro hle
              rw [Bool.not_eq_true'] at hm
              rw [(timeGE_key base e.time b.2.time hkey_e hkb).mpr hle] at hm
              cases hm
            exact le_trans hre (Nat.le_of_lt (Nat.lt_of_not_le this))
        · intro x hx hgx
          rcases List.mem_cons.mp hx with hx1 | hx2
          · rw [hx1]
            exact hre
          · exact hEr x hx2 hgx
        · rcases hMr with h1 | h2
          · cases h1
            exact Or.inr (List.mem_cons_self e rest)
          · exact Or.inr (List.mem_cons_of_mem e h2)
      · intro hr
        rw [heq] at hr
        obtain ⟨habs, -⟩ := hrec.2 hr
        cases habs
    | false =>
      have hrec := ih (i + 1) best hbest hwrest
      have heq : lq_find_oldest rdy (e :: rest) i best =
          lq_find_oldest rdy rest (i + 1) best := by
        simp only [lq_find_oldest, htake, Bool.false_eq_true, if_false]
      have hnotgood_or : lqGood rdy e = false ∨
          (∃ b, best = some b ∧ timeGE e.time b.2.time = true) := by
        have htk := htake
        rw [lqTake.eq_def] at htk
        cases hg : lqGood rdy e with
        | false => exact Or.inl rfl
        | true =>
          cases hb2 : best with
          | none =>
            rw [hg, hb2] at htk
            simp at htk
          | some b0 =>
            rw [hg, hb2] at htk
            simp only [Bool.true_and] at htk
            exact Or.inr ⟨b0, rfl, by simpa using htk⟩
      refine ⟨?_, ?_⟩
      · intro r hr
        rw [heq] at hr
        obtain ⟨hGr, hBr, hEr, hMr⟩ := hrec.1 r hr
        refine ⟨hGr, hBr, ?_, ?_⟩
        · intro x hx hgx
          rcases List.mem_cons.mp hx with hx1 | hx2
          · rcases hnotgood_or with h1 | ⟨b, hb, hge⟩
            · rw [hx1] at hgx
              rw [hgx] at h1
              cases h1
            · have hkb : lqKey base b.2.time < lqHalf := (hbest b hb).2
              have hke : lqKey base e.time < lqHalf := by
                rw [hx1] at hgx
                exact hwe hgx
              have : lqKey base b.2.time ≤ lqKey base e.time :=
                (timeGE_key base e.time b.2.time hke hkb).mp hge
              rw [hx1]
              exact le_trans (hBr b hb) this
          · exact hEr x hx2 hgx
        · rcases hMr with h1 | h2
          · exact Or.inl h1
          · exact Or.inr (List.mem_cons_of_mem e h2)
      · intro hr
        rw [heq] at hr
        obtain ⟨hb0, hrest⟩ := hrec.2 hr
        refine ⟨hb0, ?_⟩
        intro x hx
        rcases List.mem_cons.mp hx with hx1 | hx2
        · rcases hnotgood_or with h1 | ⟨b, hb, -⟩
          · rw [hx1]; exact h1
          · rw [hb0] at hb
            cases hb
        · exact hrest x hx2

/-- C9: in a pre-accept listen-queue slot holding a connection, a
`dataReceived` callback makes the slot ready exactly when it was not
yet ready and either delivered at least one byte or was a FIN arriving
after some data; in particular (under the invariant that a not-ready
slot has a completely unused receive buffer and a ready slot does
not), the slot becomes ready exactly at the first callback delivering
at least one byte, and a FIN (`amount = 0`) on a completely unused
buffer resets (drops) the connection instead.  Moreover
`update_timeout` sets the `TimeoutTimer` to
`oldest.m_time + m_queue_timeout` for the oldest non-ready slot found
by `find_oldest` (minimal arrival time in the wrap-around order, under
the half-range window hypothesis), unsets it when no non-ready slot
exists, and `timerExpired(TimeoutTimer)` resets exactly that oldest
non-ready slot. -/
theorem listen_queue_ready_and_timeout (rx : Nat) (s : LqSlot) (amount : Nat)
    (queue_timeout base : Nat) (slots : List LqSlot)
    (hused : s.used = true)
    (hfresh : s.ready = false → s.recvBufLen = rx)
    (hdata : s.ready = true → s.recvBufLen ≠ rx)
    (hwnd : ∀ e ∈ slots, lqGood false e = true → lqKey base e.time < lqHalf) :
    (0 < amount → s.ready = false →
       lq_dataReceived rx s amount = ({ s with ready := true }, LqEvent.becameReady)) ∧
    (0 < amount → s.ready = true →
       lq_dataReceived rx s amount = (s, LqEvent.noChange)) ∧
    (amount = 0 → s.ready = false →
       lq_dataReceived rx s amount = ({ s with used := false }, LqEvent.wasReset)) ∧
    (amount = 0 → s.ready = true →
       lq_dataReceived rx s amount = (s, LqEvent.noChange)) ∧
    ((∀ e ∈ slots, lqGood false e = false) →
       lq_update_timeout queue_timeout slots = none ∧ lq_timeout_expired slots = slots) ∧
    (∀ r, lq_find_oldest false slots 0 none = some r →
       (r.2.used = true ∧ r.2.ready = false) ∧
       (∀ e ∈ slots, lqGood false e = true → lqKey base r.2.time ≤ lqKey base e.time) ∧
       lq_update_timeout queue_timeout slots = some ((r.2.time + queue_timeout) % lqTimeMod) ∧
       lq_timeout_expired slots = slots.set r.1 (lqFree r.2)) ∧
    ((∃ e ∈ slots, lqGood false e = true) →
       ∃ r, lq_find_oldest false slots 0 none = some r) := by
  have hspec := lq_find_oldest_spec false base slots 0 none (by rintro b hb; cases hb) hwnd
  refine ⟨?_, ?_, ?_, ?_, ?_, ?_, ?_⟩
  · intro ha hr
    have hne : amount ≠ 0 := Nat.pos_iff_ne_zero.mp ha
    simp [lq_dataReceived, hr, hne]
  · intro ha hr
    have hne : amount ≠ 0 := Nat.pos_iff_ne_zero.mp ha
    simp [lq_dataReceived, hr, hne]
  · intro ha hr
    simp [lq_dataReceived, ha, hfresh hr]
  · intro ha hr
    simp [lq_dataReceived, ha, hr, hdata hr]
  · intro hno
    cases hf : lq_find_oldest false slots 0 none with
    | none => simp [lq_update_timeout, lq_timeout_expired, hf]
    | some r =>
      obtain ⟨⟨hGr, -⟩, -, -, hmem⟩ := hspec.1 r hf
      rcases hmem with h1 | h2
      · cases h1
      · rw [hno r.2 h2] at hGr
        cases hGr
  · intro r hr
    obtain ⟨⟨hGr, -⟩, -, hmin, -⟩ := hspec.1 r hr
    have hG2 : r.2.used = true ∧ r.2.ready = false := by
      simpa [lqGood] using hGr
    exact ⟨hG2, hmin, by simp [lq_update_timeout, hr], by simp [lq_timeout_expired, hr]⟩
  · rintro ⟨e, he, hge⟩
    cases hf : lq_find_oldest false slots 0 none with
    | none =>
      obtain ⟨-, hall⟩ := hspec.2 hf
      rw [hall e he] at hge
      cases hge
    | some r => exact ⟨r, rfl⟩

/-- Four queue slots: two non-ready connections (arrival times 100 and
200), one ready connection, one free slot. -/
def lqSlotsEx : List LqSlot := [⟨true, false, 100, 64⟩, ⟨true, true, 50, 32⟩, ⟨false, false, 7, 64⟩, ⟨true, false, 200, 64⟩]

theorem listen_queue_ready_and_timeout_witness :
    lq_dataReceived 64 ⟨true, false, 100, 64⟩ 5 = (⟨true, true, 100, 64⟩, LqEvent.becameReady) ∧
    lq_dataReceived 64 ⟨true, false, 100, 64⟩ 0 = (⟨false, false, 100, 64⟩, LqEvent.wasReset) ∧
    lq_update_timeout 1000 lqSlotsEx = some 1100 ∧
    lq_timeout_expired lqSlotsEx = [⟨false, false, 100, 64⟩, ⟨true, true, 50, 32⟩, ⟨false, false, 7, 64⟩, ⟨true, false, 200, 64⟩] := by
  have h1 := listen_queue_ready_and_timeout 64 ⟨true, false, 100, 64⟩ 5 1000 0 lqSlotsEx
    rfl (by decide) (by decide) (by decide)
  have h2 := listen_queue_ready_and_timeout 64 ⟨true, false, 100, 64⟩ 0 1000 0 lqSlotsEx
    rfl (by decide) (by decide) (by decide)
  have hr := h1.2.2.2.2.2.1 (0, ⟨true, false, 100, 64⟩) (by decide)
  exact ⟨h1.1 (by decide) rfl, h2.2.2.1 rfl rfl, hr.2.2.1, hr.2.2.2⟩

/-! ## Reassembly hole-chain representation (towards permutation invariance)

The hole list of a reassembly entry is abstracted as a list of
(offset, size) pairs in chain order.  `chainAt` says the linked list
stored in the buffer spells out exactly that list; `holeListOk`
captures the geometric side conditions (sizes at least a descriptor,
inside the buffer, strictly separated so each hole is a maximal
uncovered interval). -/

lemma writeByte_at (s : Store) (o v : Nat) : writeByte s o v o = v % 256 := by
  simp [writeByte]

lemma writeByte_ne (s : Store) (o v i : Nat) (h : i ≠ o) : writeByte s o v i = s i := by
  simp [writeByte, h]

lemma write16_ne (s : Store) (o v i : Nat) (h1 : i ≠ o) (h2 : i ≠ o + 1) :
    write16 s o v i = s i := by
  simp [write16, writeByte, h1, h2]

lemma read16_lt (s : Store) (o : Nat) : read16 s o < 65536 := by
  have h1 : s o % 256 < 256 := Nat.mod_lt _ (by decide)
  have h2 : s (o + 1) % 256 < 256 := Nat.mod_lt _ (by decide)
  simp only [read16]
  omega

lemma read16_write16_same (s : Store) (o v : Nat) (hv : v < 65536) :
    read16 (write16 s o v) o = v := by
  have h1 : write16 s o v o = v % 256 := by
    simp [write16, writeByte]
  have h2 : write16 s o v (o + 1) = v / 256 % 256 := by
    simp [write16, writeByte]
  simp only [read16, h1, h2]
  omega

lemma read16_write16_ne (s : Store) (o v o2 : Nat) (h : o2 + 2 ≤ o ∨ o + 2 ≤ o2) :
    read16 (write16 s o v) o2 = read16 s o2 := by
  have h1 : write16 s o v o2 = s o2 := write16_ne s o v o2 (by omega) (by omega)
  have h2 : write16 s o v (o2 + 1) = s (o2 + 1) := write16_ne s o v (o2 + 1) (by omega) (by omega)
  simp only [read16, h1, h2]

lemma read16_congr (s t : Store) (o : Nat) (h0 : t o = s o) (h1 : t (o + 1) = s (o + 1)) :
    read16 t o = read16 s o := by
  simp only [read16, h0, h1]

def inHoles (i : Nat) (hs : List (Nat × Nat)) : Prop :=
  ∃ p ∈ hs, p.1 ≤ i ∧ i < p.1 + p.2

def holeListOk (B : Nat) : Nat → List (Nat × Nat) → Prop
  | _, [] => True
  | lo, p :: rest => lo ≤ p.1 ∧ HoleDescSize ≤ p.2 ∧ p.1 + p.2 ≤ B ∧ holeListOk B (p.1 + p.2 + 1) rest

def chainAt (d : Store) : Nat → List (Nat × Nat) → Prop
  | fh, [] => fh = ReassNullLink
  | fh, p :: rest => fh = p.1 ∧ read16 d p.1 = p.2 ∧ chainAt d (read16 d (p.1 + 2)) rest

lemma holeListOk_mono (B : Nat) (lo lo2 : Nat) (hs : List (Nat × Nat))
    (h : holeListOk B lo hs) (hle : lo2 ≤ lo) : holeListOk B lo2 hs := by
  cases hs with
  | nil => trivial
  | cons p rest =>
    obtain ⟨h1, h2, h3, h4⟩ := h
    exact ⟨le_trans hle h1, h2, h3, h4⟩

lemma holeListOk_lo_le (B lo : Nat) (hs : List (Nat × Nat)) (h : holeListOk B lo hs) :
    ∀ p ∈ hs, lo ≤ p.1 ∧ HoleDescSize ≤ p.2 ∧ p.1 + p.2 ≤ B := by
  induction hs generalizing lo with
  | nil => intro p hp; exact absurd hp (List.not_mem_nil p)
  | cons q rest ih =>
    obtain ⟨h1, h2, h3, h4⟩ := h
    intro p hp
    rcases List.mem_cons.mp hp with h5 | h5
    · rw [h5]; exact ⟨h1, h2, h3⟩
    · have := ih (q.1 + q.2 + 1) h4 p h5
      exact ⟨by omega, this.2.1, this.2.2⟩

lemma inHoles_bounds (B lo : Nat) (hs : List (Nat × Nat)) (h : holeListOk B lo hs)
    (i : Nat) (hi : inHoles i hs) : lo ≤ i ∧ i < B := by
  obtain ⟨p, hp, h1, h2⟩ := hi
  have := holeListOk_lo_le B lo hs h p hp
  exact ⟨by omega, by omega⟩

lemma chainAt_congr (d t : Store) (hs : List (Nat × Nat))
    (hagree : ∀ p ∈ hs, t p.1 = d p.1 ∧ t (p.1 + 1) = d (p.1 + 1) ∧
      t (p.1 + 2) = d (p.1 + 2) ∧ t (p.1 + 2 + 1) = d (p.1 + 2 + 1)) :
    ∀ fh, chainAt d fh hs → chainAt t fh hs := by
  induction hs with
  | nil => intro fh h; exact h
  | cons p rest ih =>
    intro fh h
    obtain ⟨h1, h2, h3⟩ := h
    have ha := hagree p (List.mem_cons_self p rest)
    have hsz : read16 t p.1 = read16 d p.1 := read16_congr d t p.1 ha.1 ha.2.1
    have hlk : read16 t (p.1 + 2) = read16 d (p.1 + 2) := read16_congr d t (p.1 + 2) ha.2.2.1 ha.2.2.2
    refine ⟨h1, by rw [hsz, h2], ?_⟩
    rw [hlk]
    exact ih (fun q hq => hagree q (List.mem_cons_of_mem p hq)) _ h3

lemma inHoles_append (i : Nat) (l1 l2 : List (Nat × Nat)) :
    inHoles i (l1 ++ l2) ↔ inHoles i l1 ∨ inHoles i l2 := by
  constructor
  · rintro ⟨p, hp, h1, h2⟩
    rcases List.mem_append.mp hp with h | h
    · exact Or.inl ⟨p, h, h1, h2⟩
    · exact Or.inr ⟨p, h, h1, h2⟩
  · rintro (⟨p, hp, h1, h2⟩ | ⟨p, hp, h1, h2⟩)
    · exact ⟨p, List.mem_append.mpr (Or.inl hp), h1, h2⟩
    · exact ⟨p, List.mem_append.mpr (Or.inr hp), h1, h2⟩

/-- The representation invariant tying a live entry to its abstract
hole list and its covered set `C`: the stored chain spells out `hs`,
the holes are well-formed maximal uncovered intervals, the covered
bytes hold the datagram content, and `data_length` is unknown or the
full length. -/
structure RepOk (P : ReassParams) (L : Nat) (content : Nat → Nat) (C : Nat → Prop)
    (e : ReassEntry) (hs : List (Nat × Nat)) : Prop where
  chain : chainAt e.data e.first_hole_offset hs
  geom : holeListOk (ReassBufferSize P) 0 hs
  nonempty : hs ≠ []
  cover : ∀ i, i < ReassBufferSize P → (inHoles i hs ↔ ¬ C i)
  covLt : ∀ i, C i → i < L
  covVal : ∀ i, C i → e.data i = content i
  dlen : e.data_length = 0 ∨ e.data_length = L

/-- Traversing holes that all lie at or beyond the fragment end only
skips: the walk leaves the store and first hole unchanged and succeeds
(or runs out of fuel). -/
lemma holeWalk_skip_all (a b B : Nat) (hB : B ≤ 65535) (post : List (Nat × Nat)) :
    ∀ (lo c prev num fh : Nat) (d : Store) (fuel : Nat),
      b ≤ lo →
      chainAt d c post →
      holeListOk B lo post →
      post ≠ [] →
      (holeWalk true a b fuel prev c num fh d = WalkRes.stuck ∨
       holeWalk true a b fuel prev c num fh d = WalkRes.ok fh d (num + post.length)) := by
  induction post with
  | nil => intro lo c prev num fh d fuel hblo hchain hok hne; exact absurd rfl hne
  | cons p rest ih =>
    intro lo c prev num fh d fuel hblo hchain hok hne
    obtain ⟨hc, hsz, hnext⟩ := hchain
    subst hc
    obtain ⟨hlo, hds, hpB, hrest⟩ := hok
    cases fuel with
    | zero => exact Or.inl rfl
    | succ n =>
      have hb_c : b ≤ p.1 := by omega
      have c2 : decide (b ≤ p.1) = true := decide_eq_true hb_c
      have hstep : holeWalk true a b (n + 1) prev p.1 num fh d =
          (if read16 d (p.1 + 2) = ReassNullLink then WalkRes.ok fh d (num + 1)
           else holeWalk true a b n p.1 (read16 d (p.1 + 2)) (num + 1) fh d) := by
        simp only [holeWalk, c2, Bool.or_true, Bool.not_true, Bool.false_and,
          Bool.false_eq_true, if_false, if_true]
      rw [hstep]
      cases rest with
      | nil =>
        have hnull : read16 d (p.1 + 2) = ReassNullLink := hnext
        rw [if_pos hnull]
        exact Or.inr (by simp)
      | cons q rest2 =>
        have hq : read16 d (p.1 + 2) = q.1 := hnext.1
        have hqB : q.1 + q.2 ≤ B := hrest.2.2.1
        have hq4 : HoleDescSize ≤ q.2 := hrest.2.1
        have hnnull : read16 d (p.1 + 2) ≠ ReassNullLink := by
          rw [hq, ReassNullLink]
          simp only [HoleDescSize] at hq4
          omega
        rw [if_neg hnnull, hq]
        have := ih (p.1 + p.2 + 1) q.1 p.1 (num + 1) fh d n (by omega) (hq ▸ hnext) hrest
          (by simp)
        rcases this with h1 | h1
        · exact Or.inl h1
        · right
          rw [h1]
          simp only [List.length_cons]
          congr 1
          omega

/-! ## Permutation invariance of reassembly (C3): hole-walk verification -/

def holeMid (a b h sz : Nat) : List (Nat × Nat) :=
  (if h < a then [(h, a - h)] else []) ++ (if b < h + sz then [(b, h + sz - b)] else [])

def holeCM (a b h sz nx : Nat) : Nat :=
  if h < a then h else if b < h + sz then b else nx

lemma holeWalk_after (a b B : Nat) (hB : B ≤ 65535) (mf : Bool)
    (post : List (Nat × Nat)) (lo2 nx prev2 num2 fh3 : Nat) (d3 : Store) (fuel : Nat)
    (hblo : b ≤ lo2)
    (hchain : chainAt d3 nx post)
    (hok : holeListOk B lo2 post)
    (hmf : mf = false → post = []) :
    (if nx = ReassNullLink then WalkRes.ok fh3 d3 num2
     else holeWalk mf a b fuel prev2 nx num2 fh3 d3) = WalkRes.stuck ∨
    ∃ nh, (if nx = ReassNullLink then WalkRes.ok fh3 d3 num2
     else holeWalk mf a b fuel prev2 nx num2 fh3 d3) = WalkRes.ok fh3 d3 nh := by
  cases post with
  | nil =>
    right
    have hnull : nx = ReassNullLink := hchain
    exact ⟨num2, by rw [if_pos hnull]⟩
  | cons q rest =>
    have hmt : mf = true := by
      cases mf
      · exact absurd (hmf rfl) (by simp)
      · rfl
    subst hmt
    have hq : nx = q.1 := hchain.1
    have h4 : HoleDescSize ≤ q.2 := hok.2.1
    have hqB : q.1 + q.2 ≤ B := hok.2.2.1
    have hnn : nx ≠ ReassNullLink := by
      rw [hq, ReassNullLink]
      simp only [HoleDescSize] at h4
      omega
    rw [if_neg hnn]
    rcases holeWalk_skip_all a b B hB (q :: rest) lo2 nx prev2 num2 fh3 d3 fuel hblo hchain hok
      (by simp) with h1 | h1
    · exact Or.inl h1
    · exact Or.inr ⟨_, h1⟩

lemma holeWalk_dismantle (mf : Bool) (a b B : Nat) (hB : B ≤ 65535)
    (h sz : Nat) (post : List (Nat × Nat)) (lo prev num fh : Nat) (d : Store) (fuel : Nat)
    (hab : a < b) (hha : h ≤ a) (hbe : b ≤ h + sz)
    (hlo : lo ≤ h) (hsz4 : HoleDescSize ≤ sz) (hhB : h + sz ≤ B)
    (hrs : read16 d h = sz)
    (hpost : chainAt d (read16 d (h + 2)) post)
    (hpok : holeListOk B (h + sz + 1) post)
    (hmf : mf = false → post = [])
    (hprev : prev = ReassNullLink ∨ prev + HoleDescSize ≤ h)
    (hfh : prev = ReassNullLink → fh = h) :
    holeWalk mf a b (fuel + 1) prev h num fh d = WalkRes.stuck ∨
    holeWalk mf a b (fuel + 1) prev h num fh d = WalkRes.invalid ∨
    ∃ d3 nh,
      holeWalk mf a b (fuel + 1) prev h num fh d =
        WalkRes.ok (if prev = ReassNullLink then holeCM a b h sz (read16 d (h + 2)) else fh) d3 nh ∧
      (∀ i, (i < h ∨ h + sz ≤ i) → i ≠ prev + 2 → i ≠ prev + 2 + 1 → d3 i = d i) ∧
      chainAt d3 (holeCM a b h sz (read16 d (h + 2))) (holeMid a b h sz ++ post) ∧
      (prev ≠ ReassNullLink → read16 d (prev + 2) = h → read16 d3 (prev + 2) = holeCM a b h sz (read16 d (h + 2))) ∧
      holeListOk B lo (holeMid a b h sz ++ post) := by
  have c1 : decide (b < h) = false := decide_eq_false (by omega)
  have c2 : decide (h + sz ≤ a) = false := decide_eq_false (by omega)
  have c3 : decide (b ≤ h) = false := decide_eq_false (by omega)
  have hnxlt : read16 d (h + 2) < 65536 := read16_lt d (h + 2)
  have hhn : ¬ (h = ReassNullLink) := by
    simp only [ReassNullLink, HoleDescSize] at *
    omega
  by_cases hl : h < a
  · -- a left hole is created
    by_cases hls : a - h < HoleDescSize
    · -- too small: invalidate
      right; left
      have cl : decide (h < a) = true := decide_eq_true hl
      have cls : decide (a - h < HoleDescSize) = true := decide_eq_true hls
      simp only [holeWalk, hrs, c1, c2, c3, cl, cls, Bool.and_false, Bool.or_self,
        Bool.false_eq_true, if_false, if_true]
    · -- left hole created; case on right hole
      have cl : decide (h < a) = true := decide_eq_true hl
      have cls : decide (a - h < HoleDescSize) = false := decide_eq_false hls
      by_cases hr : b < h + sz
      · by_cases hrs2 : h + sz - b < HoleDescSize
        · -- right split too small: invalidate
          right; left
          have cr : decide (b < h + sz) = true := decide_eq_true hr
          have crs : decide (h + sz - b < HoleDescSize) = true := decide_eq_true hrs2
          simp only [holeWalk, hrs, c1, c2, c3, cl, cls, cr, crs, Bool.and_false, Bool.or_self,
            Bool.false_eq_true, if_false, if_true]
        · -- case A: both left and right holes
          have cr : decide (b < h + sz) = true := decide_eq_true hr
          have crs : decide (h + sz - b < HoleDescSize) = false := decide_eq_false hrs2
          have hbn : ¬ (b = ReassNullLink) := by
            simp only [ReassNullLink, HoleDescSize] at *
            omega
          set d3 : Store := write16 (write16 (write16 (write16 d h (a - h)) b (h + sz - b)) (h + 2) b) (b + 2) (read16 d (h + 2)) with hd3
          have heval : holeWalk mf a b (fuel + 1) prev h num fh d =
              (if read16 d (h + 2) = ReassNullLink then WalkRes.ok fh d3 (num + 1 + 1)
               else holeWalk mf a b fuel b (read16 d (h + 2)) (num + 1 + 1) fh d3) := by
            simp only [holeWalk, hrs, c1, c2, c3, cl, cls, cr, crs, Bool.and_false, Bool.or_self,
              Bool.false_eq_true, if_false, if_true, reass_link_prev, if_neg hhn, if_neg hbn, hd3]
          simp only [HoleDescSize] at hls hrs2
          have hag : ∀ i, (i < h ∨ h + sz ≤ i) → d3 i = d i := by
            intro i hi
            rw [hd3, write16_ne _ _ _ _ (by omega) (by omega), write16_ne _ _ _ _ (by omega) (by omega),
              write16_ne _ _ _ _ (by omega) (by omega), write16_ne _ _ _ _ (by omega) (by omega)]
          have hpagree : ∀ p ∈ post, d3 p.1 = d p.1 ∧ d3 (p.1 + 1) = d (p.1 + 1) ∧
              d3 (p.1 + 2) = d (p.1 + 2) ∧ d3 (p.1 + 2 + 1) = d (p.1 + 2 + 1) := by
            intro p hp
            have hpb := holeListOk_lo_le B (h + sz + 1) post hpok p hp
            exact ⟨hag _ (by omega), hag _ (by omega), hag _ (by omega), hag _ (by omega)⟩
          have hchain3 : chainAt d3 (read16 d (h + 2)) post := chainAt_congr d d3 post hpagree _ hpost
          have hr1 : read16 d3 h = a - h := by
            rw [hd3, read16_write16_ne _ _ _ _ (by omega), read16_write16_ne _ _ _ _ (by omega),
              read16_write16_ne _ _ _ _ (by omega), read16_write16_same _ _ _ (by omega)]
          have hr2 : read16 d3 (h + 2) = b := by
            rw [hd3, read16_write16_ne _ _ _ _ (by omega), read16_write16_same _ _ _ (by omega)]
          have hr3 : read16 d3 b = h + sz - b := by
            rw [hd3, read16_write16_ne _ _ _ _ (by omega), read16_write16_ne _ _ _ _ (by omega),
              read16_write16_same _ _ _ (by omega)]
          have hr4 : read16 d3 (b + 2) = read16 d (h + 2) := by
            rw [hd3, read16_write16_same _ _ _ hnxlt]
          have hmid : chainAt d3 (holeCM a b h sz (read16 d (h + 2))) (holeMid a b h sz ++ post) := by
            simp only [holeMid, holeCM, if_pos hl, if_pos hr, List.cons_append, List.nil_append]
            exact ⟨rfl, hr1, by rw [hr2]; exact ⟨rfl, hr3, by rw [hr4]; exact hchain3⟩⟩
          have hlink : prev ≠ ReassNullLink → read16 d (prev + 2) = h →
              read16 d3 (prev + 2) = holeCM a b h sz (read16 d (h + 2)) := by
            intro hpn hold
            have hp4 : prev + HoleDescSize ≤ h := hprev.resolve_left hpn
            simp only [HoleDescSize] at hp4
            simp only [holeCM, if_pos hl]
            rw [hd3, read16_write16_ne _ _ _ _ (by omega), read16_write16_ne _ _ _ _ (by omega),
              read16_write16_ne _ _ _ _ (by omega), read16_write16_ne _ _ _ _ (by omega)]
            exact hold
          have hok2 : holeListOk B lo (holeMid a b h sz ++ post) := by
            simp only [holeMid, if_pos hl, if_pos hr, List.cons_append, List.nil_append]
            refine ⟨by omega, by simp only [HoleDescSize]; omega, by omega,
              by omega, by simp only [HoleDescSize]; omega, by omega, ?_⟩
            have heq2 : b + (h + sz - b) + 1 = h + sz + 1 := by omega
            rw [heq2]
            exact hpok
          have hfh3 : (if prev = ReassNullLink then holeCM a b h sz (read16 d (h + 2)) else fh) = fh := by
            by_cases hp : prev = ReassNullLink
            · simp only [if_pos hp, holeCM, if_pos hl]
              exact (hfh hp).symm
            · simp only [if_neg hp]
          rcases holeWalk_after a b B hB mf post (h + sz + 1) (read16 d (h + 2)) b (num + 1 + 1)
            fh d3 fuel (by omega) hchain3 hpok hmf with hA | ⟨nh, hA⟩
          · left
            rw [heval, hA]
          · right; right
            exact ⟨d3, nh, by rw [heval, hA, hfh3], fun i hi h2 h3 => hag i hi, hmid, hlink, hok2⟩
      · -- case B: only a left hole
        have hbeq : b = h + sz := by omega
        have cr : decide (b < h + sz) = false := decide_eq_false hr
        set d3 : Store := write16 (write16 d h (a - h)) (h + 2) (read16 d (h + 2)) with hd3
        have heval : holeWalk mf a b (fuel + 1) prev h num fh d =
            (if read16 d (h + 2) = ReassNullLink then WalkRes.ok fh d3 (num + 1)
             else holeWalk mf a b fuel h (read16 d (h + 2)) (num + 1) fh d3) := by
          simp only [holeWalk, hrs, c1, c2, c3, cl, cls, cr, Bool.and_false, Bool.or_self,
            Bool.false_eq_true, if_false, if_true, reass_link_prev, if_neg hhn, hd3]
        simp only [HoleDescSize] at hls
        have hag : ∀ i, (i < h ∨ h + sz ≤ i) → d3 i = d i := by
          intro i hi
          rw [hd3, write16_ne _ _ _ _ (by omega) (by omega), write16_ne _ _ _ _ (by omega) (by omega)]
        have hpagree : ∀ p ∈ post, d3 p.1 = d p.1 ∧ d3 (p.1 + 1) = d (p.1 + 1) ∧
            d3 (p.1 + 2) = d (p.1 + 2) ∧ d3 (p.1 + 2 + 1) = d (p.1 + 2 + 1) := by
          intro p hp
          have hpb := holeListOk_lo_le B (h + sz + 1) post hpok p hp
          exact ⟨hag _ (by omega), hag _ (by omega), hag _ (by omega), hag _ (by omega)⟩
        have hchain3 : chainAt d3 (read16 d (h + 2)) post := chainAt_congr d d3 post hpagree _ hpost
        have hr1 : read16 d3 h = a - h := by
          rw [hd3, read16_write16_ne _ _ _ _ (by omega), read16_write16_same _ _ _ (by omega)]
        have hr2 : read16 d3 (h + 2) = read16 d (h + 2) := by
          rw [hd3, read16_write16_same _ _ _ hnxlt]
        have hmid : chainAt d3 (holeCM a b h sz (read16 d (h + 2))) (holeMid a b h sz ++ post) := by
          simp only [holeMid, holeCM, if_pos hl, if_neg hr, List.cons_append, List.nil_append,
            List.append_nil]
          exact ⟨rfl, hr1, by rw [hr2]; exact hchain3⟩
        have hlink : prev ≠ ReassNullLink → read16 d (prev + 2) = h →
            read16 d3 (prev + 2) = holeCM a b h sz (read16 d (h + 2)) := by
          intro hpn hold
          have hp4 : prev + HoleDescSize ≤ h := hprev.resolve_left hpn
          simp only [HoleDescSize] at hp4
          simp only [holeCM, if_pos hl]
          rw [hd3, read16_write16_ne _ _ _ _ (by omega), read16_write16_ne _ _ _ _ (by omega)]
          exact hold
        have hok2 : holeListOk B lo (holeMid a b h sz ++ post) := by
          simp only [holeMid, if_pos hl, if_neg hr, List.cons_append, List.nil_append,
            List.append_nil]
          refine ⟨by omega, by simp only [HoleDescSize]; omega, by omega, ?_⟩
          exact holeListOk_mono B (h + sz + 1) (h + (a - h) + 1) post hpok (by omega)
        have hfh3 : (if prev = ReassNullLink then holeCM a b h sz (read16 d (h + 2)) else fh) = fh := by
          by_cases hp : prev = ReassNullLink
          · simp only [if_pos hp, holeCM, if_pos hl]
            exact (hfh hp).symm
          · simp only [if_neg hp]
        rcases holeWalk_after a b B hB mf post (h + sz + 1) (read16 d (h + 2)) h (num + 1)
          fh d3 fuel (by omega) hchain3 hpok hmf with hA | ⟨nh, hA⟩
        · left
          rw [heval, hA]
        · right; right
          exact ⟨d3, nh, by rw [heval, hA, hfh3], fun i hi h2 h3 => hag i hi, hmid, hlink, hok2⟩
  · -- no left hole: h = a
    have haeq : h = a := by omega
    have cl : decide (h < a) = false := decide_eq_false hl
    by_cases hr : b < h + sz
    · by_cases hrs2 : h + sz - b < HoleDescSize
      · -- right split too small: invalidate
        right; left
        have cr : decide (b < h + sz) = true := decide_eq_true hr
        have crs : decide (h + sz - b < HoleDescSize) = true := decide_eq_true hrs2
        simp only [holeWalk, hrs, c1, c2, c3, cl, cr, crs, Bool.and_false, Bool.or_self,
          Bool.false_eq_true, if_false, if_true]
      · -- case C: only a right hole
        have cr : decide (b < h + sz) = true := decide_eq_true hr
        have crs : decide (h + sz - b < HoleDescSize) = false := decide_eq_false hrs2
        have hbn : ¬ (b = ReassNullLink) := by
          simp only [ReassNullLink, HoleDescSize] at *
          omega
        by_cases hp : prev = ReassNullLink
        · -- C1: the dismantled hole was the first
          have hfhh : fh = h := hfh hp
          set d3 : Store := write16 (write16 d b (h + sz - b)) (b + 2) (read16 d (h + 2)) with hd3
          have heval : holeWalk mf a b (fuel + 1) prev h num fh d =
              (if read16 d (h + 2) = ReassNullLink then WalkRes.ok b d3 (num + 1)
               else holeWalk mf a b fuel b (read16 d (h + 2)) (num + 1) b d3) := by
            simp only [holeWalk, hrs, c1, c2, c3, cl, cr, crs, Bool.and_false, Bool.or_self,
              Bool.false_eq_true, if_false, if_true, reass_link_prev, if_pos hp, if_neg hbn, hd3]
          simp only [HoleDescSize] at hrs2
          have hag : ∀ i, (i < h ∨ h + sz ≤ i) → d3 i = d i := by
            intro i hi
            rw [hd3, write16_ne _ _ _ _ (by omega) (by omega), write16_ne _ _ _ _ (by omega) (by omega)]
          have hpagree : ∀ p ∈ post, d3 p.1 = d p.1 ∧ d3 (p.1 + 1) = d (p.1 + 1) ∧
              d3 (p.1 + 2) = d (p.1 + 2) ∧ d3 (p.1 + 2 + 1) = d (p.1 + 2 + 1) := by
            intro p hp2
            have hpb := holeListOk_lo_le B (h + sz + 1) post hpok p hp2
            exact ⟨hag _ (by omega), hag _ (by omega), hag _ (by omega), hag _ (by omega)⟩
          have hchain3 : chainAt d3 (read16 d (h + 2)) post := chainAt_congr d d3 post hpagree _ hpost
          have hr3 : read16 d3 b = h + sz - b := by
            rw [hd3, read16_write16_ne _ _ _ _ (by omega), read16_write16_same _ _ _ (by omega)]
          have hr4 : read16 d3 (b + 2) = read16 d (h + 2) := by
            rw [hd3, read16_write16_same _ _ _ hnxlt]
          have hmid : chainAt d3 (holeCM a b h sz (read16 d (h + 2))) (holeMid a b h sz ++ post) := by
            simp only [holeMid, holeCM, if_neg hl, if_pos hr, List.cons_append, List.nil_append]
            exact ⟨rfl, hr3, by rw [hr4]; exact hchain3⟩
          have hok2 : holeListOk B lo (holeMid a b h sz ++ post) := by
            simp only [holeMid, if_neg hl, if_pos hr, List.cons_append, List.nil_append]
            refine ⟨by omega, by simp only [HoleDescSize]; omega, by omega, ?_⟩
            have heq2 : b + (h + sz - b) + 1 = h + sz + 1 := by omega
            rw [heq2]
            exact hpok
          have hfh3 : (if prev = ReassNullLink then holeCM a b h sz (read16 d (h + 2)) else fh) = b := by
            simp only [if_pos hp, holeCM, if_neg hl, if_pos hr]
          rcases holeWalk_after a b B hB mf post (h + sz + 1) (read16 d (h + 2)) b (num + 1)
            b d3 fuel (by omega) hchain3 hpok hmf with hA | ⟨nh, hA⟩
          · left
            rw [heval, hA]
          · right; right
            refine ⟨d3, nh, by rw [heval, hA, hfh3], fun i hi h2 h3 => hag i hi, hmid, ?_, hok2⟩
            intro hpn
            exact absurd hp hpn
        · -- C2: relink the previous hole to the right hole
          have hp4 : prev + HoleDescSize ≤ h := hprev.resolve_left hp
          simp only [HoleDescSize] at hp4
          set d3 : Store := write16 (write16 (write16 d b (h + sz - b)) (prev + 2) b) (b + 2) (read16 d (h + 2)) with hd3
          have heval : holeWalk mf a b (fuel + 1) prev h num fh d =
              (if read16 d (h + 2) = ReassNullLink then WalkRes.ok fh d3 (num + 1)
               else holeWalk mf a b fuel b (read16 d (h + 2)) (num + 1) fh d3) := by
            simp only [holeWalk, hrs, c1, c2, c3, cl, cr, crs, Bool.and_false, Bool.or_self,
              Bool.false_eq_true, if_false, if_true, reass_link_prev, if_neg hp, if_neg hbn, hd3]
          simp only [HoleDescSize] at hrs2
          have hag : ∀ i, (i < h ∨ h + sz ≤ i) → i ≠ prev + 2 → i ≠ prev + 2 + 1 → d3 i = d i := by
            intro i hi h2 h3
            rw [hd3, write16_ne _ _ _ _ (by omega) (by omega), write16_ne _ _ _ _ (by omega) (by omega),
              write16_ne _ _ _ _ (by omega) (by omega)]
          have hpagree : ∀ p ∈ post, d3 p.1 = d p.1 ∧ d3 (p.1 + 1) = d (p.1 + 1) ∧
              d3 (p.1 + 2) = d (p.1 + 2) ∧ d3 (p.1 + 2 + 1) = d (p.1 + 2 + 1) := by
            intro p hp2
            have hpb := holeListOk_lo_le B (h + sz + 1) post hpok p hp2
            exact ⟨hag _ (by omega) (by omega) (by omega), hag _ (by omega) (by omega) (by omega),
              hag _ (by omega) (by omega) (by omega), hag _ (by omega) (by omega) (by omega)⟩
          have hchain3 : chainAt d3 (read16 d (h + 2)) post := chainAt_congr d d3 post hpagree _ hpost
          have hr3 : read16 d3 b = h + sz - b := by
            rw [hd3, read16_write16_ne _ _ _ _ (by omega), read16_write16_ne _ _ _ _ (by omega),
              read16_write16_same _ _ _ (by omega)]
          have hr4 : read16 d3 (b + 2) = read16 d (h + 2) := by
            rw [hd3, read16_write16_same _ _ _ hnxlt]
          have hmid : chainAt d3 (holeCM a b h sz (read16 d (h + 2))) (holeMid a b h sz ++ post) := by
            simp only [holeMid, holeCM, if_neg hl, if_pos hr, List.cons_append, List.nil_append]
            exact ⟨rfl, hr3, by rw [hr4]; exact hchain3⟩
          have hok2 : holeListOk B lo (holeMid a b h sz ++ post) := by
            simp only [holeMid, if_neg hl, if_pos hr, List.cons_append, List.nil_append]
            refine ⟨by omega, by simp only [HoleDescSize]; omega, by omega, ?_⟩
            have heq2 : b + (h + sz - b) + 1 = h + sz + 1 := by omega
            rw [heq2]
            exact hpok
          have hlink : prev ≠ ReassNullLink → read16 d (prev + 2) = h →
              read16 d3 (prev + 2) = holeCM a b h sz (read16 d (h + 2)) := by
            intro hpn hold
            simp only [holeCM, if_neg hl, if_pos hr]
            rw [hd3, read16_write16_ne _ _ _ _ (by omega), read16_write16_same _ _ _ (by omega)]
          have hfh3 : (if prev = ReassNullLink then holeCM a b h sz (read16 d (h + 2)) else fh) = fh := by
            simp only [if_neg hp]
          rcases holeWalk_after a b B hB mf post (h + sz + 1) (read16 d (h + 2)) b (num + 1)
            fh d3 fuel (by omega) hchain3 hpok hmf with hA | ⟨nh, hA⟩
          · left
            rw [heval, hA]
          · right; right
            exact ⟨d3, nh, by rw [heval, hA, hfh3], hag, hmid, hlink, hok2⟩
    · -- case D: the fragment consumes the hole exactly
      have hbeq : b = h + sz := by omega
      have cr : decide (b < h + sz) = false := decide_eq_false hr
      by_cases hp : prev = ReassNullLink
      · -- D1: the consumed hole was the first
        have heval : holeWalk mf a b (fuel + 1) prev h num fh d =
            (if read16 d (h + 2) = ReassNullLink then WalkRes.ok (read16 d (h + 2)) d num
             else holeWalk mf a b fuel prev (read16 d (h + 2)) num (read16 d (h + 2)) d) := by
          simp only [holeWalk, hrs, c1, c2, c3, cl, cr, Bool.and_false, Bool.or_self,
            Bool.false_eq_true, if_false, if_true, reass_link_prev, if_pos hp]
        have hmid : chainAt d (holeCM a b h sz (read16 d (h + 2))) (holeMid a b h sz ++ post) := by
          simp only [holeMid, holeCM, if_neg hl, if_neg hr, List.nil_append]
          exact hpost
        have hok2 : holeListOk B lo (holeMid a b h sz ++ post) := by
          simp only [holeMid, if_neg hl, if_neg hr, List.nil_append]
          exact holeListOk_mono B (h + sz + 1) lo post hpok (by omega)
        have hfh3 : (if prev = ReassNullLink then holeCM a b h sz (read16 d (h + 2)) else fh) =
            read16 d (h + 2) := by
          simp only [if_pos hp, holeCM, if_neg hl, if_neg hr]
        rcases holeWalk_after a b B hB mf post (h + sz + 1) (read16 d (h + 2)) prev num
          (read16 d (h + 2)) d fuel (by omega) hpost hpok hmf with hA | ⟨nh, hA⟩
        · left
          rw [heval, hA]
        · right; right
          refine ⟨d, nh, by rw [heval, hA, hfh3], fun i hi h2 h3 => rfl, hmid, ?_, hok2⟩
          intro hpn
          exact absurd hp hpn
      · -- D2: relink the previous hole to the next
        have hp4 : prev + HoleDescSize ≤ h := hprev.resolve_left hp
        simp only [HoleDescSize] at hp4
        set d3 : Store := write16 d (prev + 2) (read16 d (h + 2)) with hd3
        have heval : holeWalk mf a b (fuel + 1) prev h num fh d =
            (if read16 d (h + 2) = ReassNullLink then WalkRes.ok fh d3 num
             else holeWalk mf a b fuel prev (read16 d (h + 2)) num fh d3) := by
          simp only [holeWalk, hrs, c1, c2, c3, cl, cr, Bool.and_false, Bool.or_self,
            Bool.false_eq_true, if_false, if_true, reass_link_prev, if_neg hp, hd3]
        have hag : ∀ i, (i < h ∨ h + sz ≤ i) → i ≠ prev + 2 → i ≠ prev + 2 + 1 → d3 i = d i := by
          intro i hi h2 h3
          rw [hd3, write16_ne _ _ _ _ (by omega) (by omega)]
        have hpagree : ∀ p ∈ post, d3 p.1 = d p.1 ∧ d3 (p.1 + 1) = d (p.1 + 1) ∧
            d3 (p.1 + 2) = d (p.1 + 2) ∧ d3 (p.1 + 2 + 1) = d (p.1 + 2 + 1) := by
          intro p hp2
          have hpb := holeListOk_lo_le B (h + sz + 1) post hpok p hp2
          exact ⟨hag _ (by omega) (by omega) (by omega), hag _ (by omega) (by omega) (by omega),
            hag _ (by omega) (by omega) (by omega), hag _ (by omega) (by omega) (by omega)⟩
        have hchain3 : chainAt d3 (read16 d (h + 2)) post := chainAt_congr d d3 post hpagree _ hpost
        have hmid : chainAt d3 (holeCM a b h sz (read16 d (h + 2))) (holeMid a b h sz ++ post) := by
          simp only [holeMid, holeCM, if_neg hl, if_neg hr, List.nil_append]
          exact hchain3
        have hok2 : holeListOk B lo (holeMid a b h sz ++ post) := by
          simp only [holeMid, if_neg hl, if_neg hr, List.nil_append]
          exact holeListOk_mono B (h + sz + 1) lo post hpok (by omega)
        have hlink : prev ≠ ReassNullLink → read16 d (prev + 2) = h →
            read16 d3 (prev + 2) = holeCM a b h sz (read16 d (h + 2)) := by
          intro hpn hold
          simp only [holeCM, if_neg hl, if_neg hr]
          rw [hd3, read16_write16_same _ _ _ hnxlt]
        have hfh3 : (if prev = ReassNullLink then holeCM a b h sz (read16 d (h + 2)) else fh) = fh := by
          simp only [if_neg hp]
        rcases holeWalk_after a b B hB mf post (h + sz + 1) (read16 d (h + 2)) prev num
          fh d3 fuel (by omega) hchain3 hpok hmf with hA | ⟨nh, hA⟩
        · left
          rw [heval, hA]
        · right; right
          exact ⟨d3, nh, by rw [heval, hA, hfh3], hag, hmid, hlink, hok2⟩

/-- The complete hole-update walk from the chain head: skips the holes
before the one containing the fragment, dismantles that one, and skips
the rest; unless it invalidates or runs out of fuel it produces a
store and first-hole representing the chain with the fragment interval
carved out. -/
lemma holeWalk_run (mf : Bool) (a b B : Nat) (hB : B ≤ 65535)
    (h sz : Nat) (post : List (Nat × Nat)) :
    ∀ (pre : List (Nat × Nat)) (lo c prev num fh : Nat) (d : Store) (fuel : Nat),
      a < b → h ≤ a → b ≤ h + sz →
      chainAt d c (pre ++ (h, sz) :: post) →
      holeListOk B lo (pre ++ (h, sz) :: post) →
      (mf = false → post = []) →
      (prev = ReassNullLink ∨ (prev + HoleDescSize ≤ c ∧ read16 d (prev + 2) = c)) →
      (prev = ReassNullLink → fh = c) →
      (holeWalk mf a b fuel prev c num fh d = WalkRes.stuck ∨
       holeWalk mf a b fuel prev c num fh d = WalkRes.invalid ∨
       ∃ d3 nh c2,
         holeWalk mf a b fuel prev c num fh d =
           WalkRes.ok (if prev = ReassNullLink then c2 else fh) d3 nh ∧
         (∀ i, ¬ inHoles i (pre ++ (h, sz) :: post) → i ≠ prev + 2 → i ≠ prev + 2 + 1 → d3 i = d i) ∧
         chainAt d3 c2 (pre ++ holeMid a b h sz ++ post) ∧
         (prev ≠ ReassNullLink → read16 d3 (prev + 2) = c2) ∧
         holeListOk B lo (pre ++ holeMid a b h sz ++ post)) := by
  intro pre
  induction pre with
  | nil =>
    intro lo c prev num fh d fuel hab hha hbe hchain hok hmf hprev hfh
    cases fuel with
    | zero => exact Or.inl rfl
    | succ n =>
      simp only [List.nil_append] at hchain hok
      have hc : c = h := hchain.1
      rw [hc] at hprev hfh ⊢
      obtain ⟨-, hszr, hpostc⟩ := hchain
      obtain ⟨hlo, hsz4, hhB, hpok⟩ := hok
      rcases holeWalk_dismantle mf a b B hB h sz post lo prev num fh d n hab hha hbe hlo hsz4 hhB
        hszr hpostc hpok hmf (hprev.imp id And.left) hfh with h1 | h1 | ⟨d3, nh, hokk, hagd, hmidd, hlinkd, hokd⟩
      · exact Or.inl h1
      · exact Or.inr (Or.inl h1)
      · right; right
        refine ⟨d3, nh, holeCM a b h sz (read16 d (h + 2)), hokk, ?_, ?_, ?_, ?_⟩
        · intro i hi h2 h3
          refine hagd i ?_ h2 h3
          by_contra hcon
          push_neg at hcon
          exact hi ⟨(h, sz), List.mem_cons_self _ _, by omega⟩
        · simp only [List.nil_append]
          exact hmidd
        · intro hpn
          have hpl := hprev.resolve_left hpn
          exact hlinkd hpn hpl.2
        · simp only [List.nil_append]
          exact hokd
  | cons p pre2 ih =>
    intro lo c prev num fh d fuel hab hha hbe hchain hok hmf hprev hfh
    cases fuel with
    | zero => exact Or.inl rfl
    | succ n =>
      simp only [List.cons_append] at hchain hok
      have hc : c = p.1 := hchain.1
      subst hc
      obtain ⟨-, hszp, hrestc⟩ := hchain
      obtain ⟨hlo, hp4, hpB, hokrest⟩ := hok
      have hple : p.1 + p.2 < h := by
        have hx := holeListOk_lo_le B (p.1 + p.2 + 1) _ hokrest (h, sz)
          (List.mem_append.mpr (Or.inr (List.mem_cons_self _ _)))
        simpa using hx.1
      cases hE : pre2 ++ (h, sz) :: post with
      | nil => simp at hE
      | cons y l2 =>
        rw [hE] at hrestc hokrest
        have hnxt : read16 d (p.1 + 2) = y.1 := hrestc.1
        have hy4 : HoleDescSize ≤ y.2 := hokrest.2.1
        have hyB : y.1 + y.2 ≤ B := hokrest.2.2.1
        have hylo : p.1 + p.2 + 1 ≤ y.1 := hokrest.1
        have hynn : ¬ (y.1 = ReassNullLink) := by
          simp only [ReassNullLink, HoleDescSize] at *
          omega
        have hskipstep : holeWalk mf a b (n + 1) prev p.1 num fh d =
            holeWalk mf a b n p.1 y.1 (num + 1) fh d := by
          have cS : decide (p.1 + read16 d p.1 ≤ a) = true := by
            rw [hszp]
            exact decide_eq_true (by omega)
          have cI : decide (b < p.1) = false := decide_eq_false (by omega)
          simp only [holeWalk, cS, cI, Bool.and_false, Bool.true_or, Bool.false_eq_true,
            if_false, if_true, hnxt, if_neg hynn]
        have hpnn : ¬ (p.1 = ReassNullLink) := by
          simp only [ReassNullLink, HoleDescSize] at *
          omega
        have hrec := ih (p.1 + p.2 + 1) y.1 p.1 (num + 1) fh d n hab hha hbe
          (by rw [hE]; exact hnxt ▸ hrestc) (by rw [hE]; exact hokrest)
          hmf (Or.inr ⟨by simp only [HoleDescSize] at *; omega, hnxt⟩)
          (fun hc => absurd hc hpnn)
        rw [hskipstep]
        rcases hrec with h1 | h1 | ⟨d3, nh, c2, hokk, hagS, hchainS, hlinkS, hokS⟩
        · exact Or.inl h1
        · exact Or.inr (Or.inl h1)
        · right; right
          have hp42 : 4 ≤ p.2 := hp4
          have hnotin : ∀ j, j < p.1 + p.2 + 1 → ¬ inHoles j (pre2 ++ (h, sz) :: post) := by
            intro j hj hcon
            rw [hE] at hcon
            have := inHoles_bounds B (p.1 + p.2 + 1) _ hokrest j hcon
            omega
          refine ⟨d3, nh, p.1, ?_, ?_, ?_, ?_, ?_⟩
          · rw [hokk, if_neg hpnn]
            by_cases hpv : prev = ReassNullLink
            · rw [if_pos hpv, hfh hpv]
            · rw [if_neg hpv]
          · intro i hi h2 h3
            have hir : ¬ inHoles i (pre2 ++ (h, sz) :: post) := by
              intro hcon
              obtain ⟨q, hq, hqi⟩ := hcon
              exact hi ⟨q, List.mem_cons_of_mem p hq, hqi⟩
            have hpi : ¬ (p.1 ≤ i ∧ i < p.1 + p.2) :=
              fun hcon => hi ⟨p, List.mem_cons_self p _, hcon⟩
            exact hagS i hir (by omega) (by omega)
          · have hd3p1 : d3 p.1 = d p.1 := hagS p.1 (hnotin p.1 (by omega)) (by omega) (by omega)
            have hd3p2 : d3 (p.1 + 1) = d (p.1 + 1) :=
              hagS _ (hnotin _ (by omega)) (by omega) (by omega)
            have hsz3 : read16 d3 p.1 = p.2 := by
              rw [read16_congr d d3 p.1 hd3p1 hd3p2, hszp]
            have hlk3 : read16 d3 (p.1 + 2) = c2 := hlinkS hpnn
            exact ⟨rfl, hsz3, by rw [hlk3]; exact hchainS⟩
          · intro hpn
            obtain ⟨hpd, hpl⟩ := hprev.resolve_left hpn
            have hpd2 : prev + 4 ≤ p.1 := hpd
            have e1 : d3 (prev + 2) = d (prev + 2) :=
              hagS _ (hnotin _ (by omega)) (by omega) (by omega)
            have e2 : d3 (prev + 2 + 1) = d (prev + 2 + 1) :=
              hagS _ (hnotin _ (by omega)) (by omega) (by omega)
            rw [read16_congr d d3 (prev + 2) e1 e2]
            exact hpl
          · exact ⟨hlo, hp4, hpB, hokS⟩

lemma copyBytes_in (s : Store) (off : Nat) (src : Nat → Nat) (len i : Nat)
    (h1 : off ≤ i) (h2 : i < off + len) : copyBytes s off src len i = src (i - off) % 256 := by
  simp only [copyBytes, if_pos (And.intro h1 h2)]

lemma copyBytes_ne (s : Store) (off : Nat) (src : Nat → Nat) (len i : Nat)
    (h : ¬ (off ≤ i ∧ i < off + len)) : copyBytes s off src len i = s i := by
  simp only [copyBytes, if_neg h]

lemma holeListOk_decomp (B : Nat) (pre : List (Nat × Nat)) (x : Nat × Nat) :
    ∀ (lo : Nat) (post : List (Nat × Nat)), holeListOk B lo (pre ++ x :: post) →
    (∀ q ∈ pre, q.1 + q.2 < x.1) ∧ HoleDescSize ≤ x.2 ∧ x.1 + x.2 ≤ B ∧
      holeListOk B (x.1 + x.2 + 1) post := by
  induction pre with
  | nil =>
    intro lo post hok
    obtain ⟨h1, h2, h3, h4⟩ := hok
    exact ⟨fun q hq => absurd hq (List.not_mem_nil q), h2, h3, h4⟩
  | cons q pre2 ih =>
    intro lo post hok
    obtain ⟨h1, h2, h3, h4⟩ := hok
    obtain ⟨ha, hb, hc, hd⟩ := ih (q.1 + q.2 + 1) post h4
    refine ⟨?_, hb, hc, hd⟩
    intro r hr
    rcases List.mem_cons.mp hr with h5 | h5
    · have hx := holeListOk_lo_le B (q.1 + q.2 + 1) _ h4 x
        (List.mem_append.mpr (Or.inr (List.mem_cons_self _ _)))
      rw [h5]
      have := hx.1
      omega
    · exact ha r h5

lemma inHoles_mid (a b h sz : Nat) (pre post : List (Nat × Nat)) (j : Nat)
    (hha : h ≤ a) (hab : a < b) (hbe : b ≤ h + sz)
    (hpre : ∀ q ∈ pre, q.1 + q.2 < h) (hpost : ∀ q ∈ post, h + sz < q.1) :
    inHoles j (pre ++ holeMid a b h sz ++ post) ↔
      (inHoles j (pre ++ (h, sz) :: post) ∧ ¬ (a ≤ j ∧ j < b)) := by
  rw [List.append_assoc]
  have hmidmem : ∀ q, q ∈ holeMid a b h sz →
      (h < a ∧ q = (h, a - h)) ∨ (b < h + sz ∧ q = (b, h + sz - b)) := by
    intro q hq
    simp only [holeMid, List.mem_append] at hq
    rcases hq with hq | hq
    · by_cases hl : h < a
      · rw [if_pos hl] at hq
        simp only [List.mem_singleton] at hq
        exact Or.inl ⟨hl, hq⟩
      · rw [if_neg hl] at hq
        exact absurd hq (List.not_mem_nil q)
    · by_cases hr : b < h + sz
      · rw [if_pos hr] at hq
        simp only [List.mem_singleton] at hq
        exact Or.inr ⟨hr, hq⟩
      · rw [if_neg hr] at hq
        exact absurd hq (List.not_mem_nil q)
  constructor
  · intro hj
    rcases (inHoles_append j pre (holeMid a b h sz ++ post)).mp hj with hj | hj
    · obtain ⟨q, hq, hqi⟩ := hj
      have := hpre q hq
      exact ⟨⟨q, List.mem_append.mpr (Or.inl hq), hqi⟩, by omega⟩
    · rcases (inHoles_append j (holeMid a b h sz) post).mp hj with hj | hj
      · obtain ⟨q, hq, hqi⟩ := hj
        rcases hmidmem q hq with ⟨hl, hqe⟩ | ⟨hr, hqe⟩
        · rw [hqe] at hqi
          simp only at hqi
          exact ⟨⟨(h, sz), List.mem_append.mpr (Or.inr (List.mem_cons_self _ _)), by simp; omega⟩,
            by omega⟩
        · rw [hqe] at hqi
          simp only at hqi
          exact ⟨⟨(h, sz), List.mem_append.mpr (Or.inr (List.mem_cons_self _ _)), by simp; omega⟩,
            by omega⟩
      · obtain ⟨q, hq, hqi⟩ := hj
        have := hpost q hq
        exact ⟨⟨q, List.mem_append.mpr (Or.inr (List.mem_cons_of_mem _ hq)), hqi⟩, by omega⟩
  · rintro ⟨⟨q, hq, hqi⟩, hnab⟩
    rcases List.mem_append.mp hq with hq | hq
    · exact (inHoles_append j pre _).mpr (Or.inl ⟨q, hq, hqi⟩)
    · rcases List.mem_cons.mp hq with hq | hq
      · rw [hq] at hqi
        simp only at hqi
        refine (inHoles_append j pre _).mpr (Or.inr ((inHoles_append j (holeMid a b h sz) post).mpr
          (Or.inl ?_)))
        by_cases hjb : j < a
        · have hl : h < a := by omega
          refine ⟨(h, a - h), ?_, by simp; omega⟩
          simp [holeMid, if_pos hl]
        · have hjb2 : b ≤ j := by omega
          have hr : b < h + sz := by omega
          refine ⟨(b, h + sz - b), ?_, by simp; omega⟩
          simp only [holeMid, List.mem_append, if_pos hr, List.mem_singleton]
          by_cases hl : h < a
          · rw [if_pos hl]
            simp
          · rw [if_neg hl]
            simp
      · exact (inHoles_append j pre _).mpr (Or.inr ((inHoles_append j (holeMid a b h sz) post).mpr
          (Or.inr ⟨q, hq, hqi⟩)))

/-- The invariant-preservation step for `processFragment`: processing a
fragment of uncovered bytes of the single datagram into an entry
satisfying the representation invariant either gets stuck (fuel),
invalidates the entry, produces an entry satisfying the invariant with
the fragment absorbed into the covered set, or completes with the full
datagram content as payload. -/
lemma processFragment_step (P : ReassParams) (L : Nat) (content : Nat → Nat) (C : Nat → Prop)
    (e : ReassEntry) (hs : List (Nat × Nat)) (f : Fragment) (fuel : Nat)
    (hrep : RepOk P L content C e hs)
    (hB : ReassBufferSize P ≤ 65535)
    (hLB : L + HoleDescSize ≤ ReassBufferSize P)
    (hL0 : 0 < L)
    (hf1 : 0 < f.tot_len)
    (hfend : f.fragment_offset + f.tot_len ≤ L)
    (hflast : f.more_fragments = false → f.fragment_offset + f.tot_len = L)
    (hunc : ∀ i, f.fragment_offset ≤ i → i < f.fragment_offset + f.tot_len → ¬ C i)
    (hcont : ∀ k, k < f.tot_len → f.bytes k % 256 = content (f.fragment_offset + k)) :
    processFragment P fuel f e = ReassResult.stuck ∨
    (∃ einv, processFragment P fuel f e = ReassResult.invalidated einv ∧
       einv.first_hole_offset = ReassNullLink) ∨
    (∃ e2 hs2, processFragment P fuel f e = ReassResult.incomplete e2 ∧
       RepOk P L content
         (fun i => C i ∨ (f.fragment_offset ≤ i ∧ i < f.fragment_offset + f.tot_len)) e2 hs2 ∧
       e2.header = e.header ∧ e2.expiration_time = e.expiration_time) ∨
    (∃ e2, processFragment P fuel f e = ReassResult.completed e2 L ∧
       e2.first_hole_offset = ReassNullLink ∧ e2.header = e.header ∧
       (∀ i, i < L → e2.data i = content i)) := by
  obtain ⟨hchain, hgeom, hne, hcover, hcovLt, hcovVal, hdlen⟩ := hrep
  have hhd4 : HoleDescSize = 4 := rfl
  have hLm : L ≤ P.maxReassSize := by
    simp only [ReassBufferSize, HoleDescSize] at hLB
    omega
  have hB4 : 4 ≤ ReassBufferSize P := by
    simp only [ReassBufferSize, HoleDescSize]
    omega
  have hv1 : ¬ (P.maxReassSize < f.fragment_offset) := by omega
  have hv2 : ¬ (P.maxReassSize - f.fragment_offset < f.tot_len) := by omega
  have cv1 : decide (P.maxReassSize < f.fragment_offset) = false := decide_eq_false hv1
  have cv2 : decide (P.maxReassSize - f.fragment_offset < f.tot_len) = false := decide_eq_false hv2
  -- the data length after the last-fragment checks
  have hdl : reassDataLen f e = some (if f.more_fragments then e.data_length else L) := by
    cases hmfv : f.more_fragments
    · have hbL : f.fragment_offset + f.tot_len = L := hflast hmfv
      have hnc : ¬ (e.data_length ≠ 0 ∧ f.fragment_offset + f.tot_len ≠ e.data_length) := by
        rcases hdlen with h0 | h0 <;> rw [h0]
        · simp
        · rintro ⟨h1, h2⟩
          exact h2 hbL
      simp only [reassDataLen, hmfv, Bool.not_false, if_neg hnc, Bool.false_eq_true,
        if_false, ↓reduceIte]
      rw [hbL]
    · have hnc : ¬ (e.data_length ≠ 0 ∧ e.data_length < f.fragment_offset + f.tot_len) := by
        rcases hdlen with h0 | h0 <;> rw [h0]
        · simp
        · rintro ⟨h1, h2⟩
          omega
      simp only [reassDataLen, hmfv, Bool.not_true, Bool.false_eq_true, if_false, if_neg hnc,
        ↓reduceIte]
  have hdl0L : (if f.more_fragments then e.data_length else L) = 0 ∨
      (if f.more_fragments then e.data_length else L) = L := by
    cases f.more_fragments
    · simp
    · simpa using hdlen
  -- locate the hole containing the fragment
  have haL : f.fragment_offset < L := by omega
  have haB : f.fragment_offset < ReassBufferSize P := by omega
  have hain : inHoles f.fragment_offset hs :=
    (hcover _ haB).mpr (hunc _ (le_refl _) (by omega))
  obtain ⟨x, hxmem, hxa1, hxa2⟩ := hain
  obtain ⟨pre, post, hdecomp⟩ := List.append_of_mem hxmem
  obtain ⟨xh, xs⟩ := x
  simp only at hxa1 hxa2
  rw [hdecomp] at hchain hgeom hcover
  obtain ⟨hpre_lt, hx4, hxB, hpostok⟩ := holeListOk_decomp (ReassBufferSize P) pre (xh, xs) 0 post hgeom
  simp only at hpre_lt hx4 hxB hpostok
  have hx42 : 4 ≤ xs := hx4
  have hpost_lt : ∀ q ∈ post, xh + xs < q.1 := by
    intro q hq
    have := holeListOk_lo_le (ReassBufferSize P) (xh + xs + 1) post hpostok q hq
    omega
  have hnotmidhole : ∀ j, xh + xs ≤ j → ¬ inHoles j (pre ++ (xh, xs) :: post) → False → True := by
    intro _ _ _ h
    exact h.elim
  -- the fragment interval lies inside this hole
  have hbe : f.fragment_offset + f.tot_len ≤ xh + xs := by
    by_contra hcon
    push_neg at hcon
    have hjunc : ¬ C (xh + xs) := hunc _ (by omega) (by omega)
    have hjB : xh + xs < ReassBufferSize P := by omega
    have hjin : inHoles (xh + xs) (pre ++ (xh, xs) :: post) := (hcover _ hjB).mpr hjunc
    obtain ⟨q, hq, hq1, hq2⟩ := hjin
    rcases List.mem_append.mp hq with hq | hq
    · have := hpre_lt q hq
      omega
    · rcases List.mem_cons.mp hq with hq | hq
      · rw [hq] at hq1 hq2
        simp only at hq1 hq2
        omega
      · have := hpost_lt q hq
        omega
  -- a last fragment can only land in the final hole
  have hmfpost : f.more_fragments = false → post = [] := by
    intro hmfv
    have hbL : f.fragment_offset + f.tot_len = L := hflast hmfv
    cases hpe : post with
    | nil => rfl
    | cons q rest =>
      exfalso
      have hpostok2 := hpostok
      rw [hpe] at hpostok2
      have hq1 : xh + xs + 1 ≤ q.1 := hpostok2.1
      have hq4 : HoleDescSize ≤ q.2 := hpostok2.2.1
      have hq42 : 4 ≤ q.2 := hq4
      have hqB : q.1 + q.2 ≤ ReassBufferSize P := hpostok2.2.2.1
      have hnin : ¬ inHoles (xh + xs) (pre ++ (xh, xs) :: post) := by
        intro hjin
        obtain ⟨r, hr, hr1, hr2⟩ := hjin
        rcases List.mem_append.mp hr with hr | hr
        · have := hpre_lt r hr
          omega
        · rcases List.mem_cons.mp hr with hr | hr
          · rw [hr] at hr1 hr2
            simp only at hr1 hr2
            omega
          · have := hpost_lt r hr
            omega
      have hCx : C (xh + xs) := by
        by_contra hcx
        exact hnin ((hcover _ (by omega)).mpr hcx)
      have := hcovLt _ hCx
      omega
  -- run the hole-update walk
  rcases holeWalk_run f.more_fragments f.fragment_offset (f.fragment_offset + f.tot_len)
      (ReassBufferSize P) hB xh xs post pre 0 e.first_hole_offset ReassNullLink 0
      e.first_hole_offset e.data fuel (by omega) (by omega) hbe hchain hgeom hmfpost
      (Or.inl rfl) (fun _ => rfl) with hw | hw | ⟨d3, nh, c2, hwok, hag, hchain3, hlink3, hok3⟩
  · -- fuel ran out
    left
    simp only [processFragment, cv1, cv2, Bool.false_eq_true, if_false, hdl, hw]
  · -- the walk invalidated
    right; left
    exact ⟨invalidateEntry { e with data_length := if f.more_fragments then e.data_length else L },
      by simp only [processFragment, cv1, cv2, Bool.false_eq_true, if_false, hdl, hw], rfl⟩
  · -- the walk succeeded
    rw [if_pos rfl] at hwok
    set dl := if f.more_fragments then e.data_length else L with hdldef
    have hpf : processFragment P fuel f e =
        (if decide (dl = 0) || decide (c2 < dl) then
          (if decide (P.maxReassHoles < nh) then
            ReassResult.invalidated (invalidateEntry ⟨c2, dl, e.expiration_time, e.header,
              copyBytes d3 f.fragment_offset f.bytes f.tot_len⟩)
          else ReassResult.incomplete ⟨c2, dl, e.expiration_time, e.header,
            copyBytes d3 f.fragment_offset f.bytes f.tot_len⟩)
        else ReassResult.completed (invalidateEntry ⟨c2, dl, e.expiration_time, e.header,
          copyBytes d3 f.fragment_offset f.bytes f.tot_len⟩) dl) := by
      simp only [processFragment, cv1, cv2, Bool.false_eq_true, if_false, hdl, hwok]
    have hagnew : ∀ i, i < 65537 → ¬ inHoles i (pre ++ (xh, xs) :: post) → d3 i = e.data i := by
      intro i hi hno
      exact hag i hno (by simp only [ReassNullLink]; omega) (by simp only [ReassNullLink]; omega)
    have hmid_iff : ∀ j, inHoles j (pre ++ holeMid f.fragment_offset
        (f.fragment_offset + f.tot_len) xh xs ++ post) ↔
        (inHoles j (pre ++ (xh, xs) :: post) ∧
          ¬ (f.fragment_offset ≤ j ∧ j < f.fragment_offset + f.tot_len)) := by
      intro j
      exact inHoles_mid _ _ xh xs pre post j (by omega) (by omega) hbe hpre_lt hpost_lt
    have hcov2 : ∀ i, i < ReassBufferSize P →
        (inHoles i (pre ++ holeMid f.fragment_offset (f.fragment_offset + f.tot_len) xh xs ++ post) ↔
          ¬ (C i ∨ (f.fragment_offset ≤ i ∧ i < f.fragment_offset + f.tot_len))) := by
      intro i hi
      rw [hmid_iff i]
      constructor
      · rintro ⟨hin, hnab⟩ (hc | hab2)
        · exact ((hcover i hi).mp hin) hc
        · exact hnab hab2
      · intro hnc
        exact ⟨(hcover i hi).mpr (fun hc => hnc (Or.inl hc)), fun hab2 => hnc (Or.inr hab2)⟩
    have hvals : ∀ i, (C i ∨ (f.fragment_offset ≤ i ∧ i < f.fragment_offset + f.tot_len)) →
        copyBytes d3 f.fragment_offset f.bytes f.tot_len i = content i := by
      intro i hci
      rcases hci with hc | hab2
      · have hiL : i < L := hcovLt i hc
        have hnab : ¬ (f.fragment_offset ≤ i ∧ i < f.fragment_offset + f.tot_len) :=
          fun hcon => hunc i hcon.1 hcon.2 hc
        rw [copyBytes_ne _ _ _ _ _ hnab]
        rw [hagnew i (by omega) (fun hin => (hcover i (by omega)).mp hin hc)]
        exact hcovVal i hc
      · rw [copyBytes_in _ _ _ _ _ hab2.1 hab2.2, hcont (i - f.fragment_offset) (by omega)]
        have heqi : f.fragment_offset + (i - f.fragment_offset) = i := by omega
        rw [heqi]
    have hchain4 : chainAt (copyBytes d3 f.fragment_offset f.bytes f.tot_len) c2
        (pre ++ holeMid f.fragment_offset (f.fragment_offset + f.tot_len) xh xs ++ post) := by
      refine chainAt_congr d3 _ _ ?_ c2 hchain3
      intro q hq
      have hq4 : 4 ≤ q.2 := (holeListOk_lo_le _ 0 _ hok3 q hq).2.1
      have hdisj : ∀ j, q.1 ≤ j → j < q.1 + q.2 →
          ¬ (f.fragment_offset ≤ j ∧ j < f.fragment_offset + f.tot_len) := by
        intro j h1 h2 hab2
        exact ((hmid_iff j).mp ⟨q, hq, h1, h2⟩).2 hab2
      exact ⟨copyBytes_ne _ _ _ _ _ (hdisj q.1 (le_refl _) (by omega)),
        copyBytes_ne _ _ _ _ _ (hdisj (q.1 + 1) (by omega) (by omega)),
        copyBytes_ne _ _ _ _ _ (hdisj (q.1 + 2) (by omega) (by omega)),
        copyBytes_ne _ _ _ _ _ (hdisj (q.1 + 2 + 1) (by omega) (by omega))⟩
    have hne2 : (pre ++ holeMid f.fragment_offset (f.fragment_offset + f.tot_len) xh xs ++ post) ≠ [] := by
      intro hnil
      rw [List.append_assoc, List.append_eq_nil] at hnil
      obtain ⟨hprenil, hnil2⟩ := hnil
      rw [List.append_eq_nil] at hnil2
      obtain ⟨hmidnil, hpostnil⟩ := hnil2
      have hxa : ¬ xh < f.fragment_offset := by
        intro hlt
        simp [holeMid, if_pos hlt] at hmidnil
      have hbx : ¬ f.fragment_offset + f.tot_len < xh + xs := by
        intro hlt
        simp [holeMid, if_pos hlt] at hmidnil
      have hCB : ¬ C (ReassBufferSize P - 1) := by
        intro hc
        have := hcovLt _ hc
        simp only [ReassBufferSize, HoleDescSize] at *
        omega
      have hin : inHoles (ReassBufferSize P - 1) (pre ++ (xh, xs) :: post) :=
        (hcover _ (by omega)).mpr hCB
      obtain ⟨q, hq, h1, h2⟩ := hin
      rw [hprenil, hpostnil] at hq
      simp only [List.nil_append, List.mem_singleton] at hq
      rw [hq] at h1 h2
      have hxx1 : xh ≤ ReassBufferSize P - 1 := h1
      have hxx2 : ReassBufferSize P - 1 < xh + xs := h2
      have hbeq : f.fragment_offset + f.tot_len = xh + xs :=
        le_antisymm hbe (Nat.le_of_not_lt hbx)
      omega
    -- decide whether reassembly is complete
    by_cases hcomp : dl = 0 ∨ c2 < dl
    · have hcval : (decide (dl = 0) || decide (c2 < dl)) = true := by
        rcases hcomp with hcv | hcv <;> simp [hcv]
      by_cases hnh : P.maxReassHoles < nh
      · right; left
        exact ⟨invalidateEntry ⟨c2, dl, e.expiration_time, e.header,
            copyBytes d3 f.fragment_offset f.bytes f.tot_len⟩,
          by rw [hpf, if_pos (by simp [hcval]), if_pos (by simp [hnh])], rfl⟩
      · right; right; left
        refine ⟨⟨c2, dl, e.expiration_time, e.header,
            copyBytes d3 f.fragment_offset f.bytes f.tot_len⟩,
          pre ++ holeMid f.fragment_offset (f.fragment_offset + f.tot_len) xh xs ++ post,
          by rw [hpf, if_pos (by simp [hcval]), if_neg (by simp [hnh])], ?_, rfl, rfl⟩
        have hcovLt2 : ∀ i, (C i ∨ (f.fragment_offset ≤ i ∧ i < f.fragment_offset + f.tot_len)) →
            i < L := by
          intro i hci
          rcases hci with hc | hab2
          · exact hcovLt i hc
          · omega
        exact ⟨hchain4, hok3, hne2, hcov2, hcovLt2, hvals, by simpa using hdl0L⟩
    · push_neg at hcomp
      obtain ⟨hdlnz, hdlle⟩ := hcomp
      have hdlL : dl = L := by
        rcases hdl0L with h0 | h0
        · exact absurd (by simpa using h0) hdlnz
        · simpa using h0
      have hcneg : (decide (dl = 0) || decide (c2 < dl)) = false := by
        simp [hdlnz, Nat.not_lt.mpr hdlle]
      right; right; right
      refine ⟨invalidateEntry ⟨c2, dl, e.expiration_time, e.header,
          copyBytes d3 f.fragment_offset f.bytes f.tot_len⟩,
        by rw [hpf, if_neg (by simp [hcneg]), hdlL], rfl, rfl, ?_⟩
      intro i hiL
      show copyBytes d3 f.fragment_offset f.bytes f.tot_len i = content i
      by_cases hc : C i
      · exact hvals i (Or.inl hc)
      · by_cases hab2 : f.fragment_offset ≤ i ∧ i < f.fragment_offset + f.tot_len
        · exact hvals i (Or.inr hab2)
        · exfalso
          have hin2 : inHoles i (pre ++ holeMid f.fragment_offset
              (f.fragment_offset + f.tot_len) xh xs ++ post) := by
            refine (hcov2 i (by omega)).mpr ?_
            rintro (h0 | h0)
            · exact hc h0
            · exact hab2 h0
          cases hE2 : (pre ++ holeMid f.fragment_offset
              (f.fragment_offset + f.tot_len) xh xs ++ post) with
          | nil => exact hne2 hE2
          | cons y l2 =>
            rw [hE2] at hin2 hchain4 hok3
            have hc2y : c2 = y.1 := hchain4.1
            obtain ⟨q, hq, h1, h2⟩ := hin2
            have hqy : y.1 ≤ q.1 := by
              rcases List.mem_cons.mp hq with hq | hq
              · rw [hq]
              · have := holeListOk_lo_le _ (y.1 + y.2 + 1) l2 hok3.2.2.2 q hq
                omega
            have hdlc : dl ≤ c2 := hdlle
            rw [hdlL] at hdlc
            omega

/-- Runs of `reassembleIp4` over a fixed entry array, taking the first
completed datagram. -/
def reassRun (P : ReassParams) (fuel now ident srcAddr dstAddr proto ttl : Nat)
    (header : Nat → Nat) : List Fragment → List ReassEntry → Option (ReassEntry × Nat)
  | [], _ => none
  | f :: rest, entries =>
    match reassembleIp4 P fuel now ident srcAddr dstAddr proto ttl header f entries with
    | (_, some (ReassResult.completed e2 len)) => some (e2, len)
    | (ents, _) => reassRun P fuel now ident srcAddr dstAddr proto ttl header rest ents

/-- The entry stored back by `reassembleIp4` after processing. -/
def reassPost (res : ReassResult) (e : ReassEntry) : ReassEntry :=
  match res with
  | ReassResult.invalidated x => x
  | ReassResult.incomplete x => x
  | ReassResult.completed x _ => x
  | ReassResult.stuck => e

lemma timeSub_fresh (P : ReassParams) (now s : Nat) (hM : 0 < P.timeMod) (hs : s < P.timeMod) :
    timeSub P ((now + s) % P.timeMod) now = s := by
  simp only [timeSub]
  have h1 : (now + s) % P.timeMod = (now % P.timeMod + s) % P.timeMod := by
    conv_lhs => rw [Nat.add_mod, Nat.mod_eq_of_lt hs]
  rw [h1]
  have hn : now % P.timeMod < P.timeMod := Nat.mod_lt _ hM
  by_cases hc : now % P.timeMod + s < P.timeMod
  · rw [Nat.mod_eq_of_lt hc]
    have h2 : now % P.timeMod + s + P.timeMod - now % P.timeMod = s + P.timeMod := by omega
    rw [h2, Nat.add_mod_right, Nat.mod_eq_of_lt hs]
  · push_neg at hc
    have h2 : (now % P.timeMod + s) % P.timeMod = now % P.timeMod + s - P.timeMod := by
      have h3 : now % P.timeMod + s - P.timeMod < P.timeMod := by omega
      rw [Nat.mod_eq_sub_mod hc, Nat.mod_eq_of_lt h3]
    rw [h2]
    have h3 : now % P.timeMod + s - P.timeMod + P.timeMod - now % P.timeMod = s := by omega
    rw [h3, Nat.mod_eq_of_lt hs]

lemma fresh_not_expired (P : ReassParams) (now ttl : Nat) (e : ReassEntry)
    (hM : ReassMaxExpirationTicks P < P.timeMod)
    (hexp : e.expiration_time = (now + min ttl P.maxReassTimeSeconds * P.timeFreq) % P.timeMod) :
    reassEntryExpired P now e = false := by
  have hM0 : 0 < P.timeMod := by omega
  have hsle : min ttl P.maxReassTimeSeconds * P.timeFreq ≤ ReassMaxExpirationTicks P := by
    simp only [ReassMaxExpirationTicks]
    exact Nat.mul_le_mul_right _ (min_le_right _ _)
  simp only [reassEntryExpired, hexp, decide_eq_false_iff_not, not_lt]
  rw [timeSub_fresh P now _ hM0 (by omega)]
  exact hsle

lemma find_single_live (P : ReassParams) (now ident srcAddr dstAddr proto : Nat) (e : ReassEntry)
    (hlive : e.first_hole_offset ≠ ReassNullLink)
    (hnexp : reassEntryExpired P now e = false)
    (hm : reassHeaderMatches ident srcAddr dstAddr proto e = true) :
    find_reass_entry P now ident srcAddr dstAddr proto [e] = ([e], some 0) := by
  simp [find_reass_entry, hlive, hnexp, hm]

lemma find_single_free (P : ReassParams) (now ident srcAddr dstAddr proto : Nat) (e : ReassEntry)
    (hfree : e.first_hole_offset = ReassNullLink) :
    find_reass_entry P now ident srcAddr dstAddr proto [e] = ([e], none) := by
  simp [find_reass_entry, hfree]

lemma RepOk_live (P : ReassParams) (L : Nat) (content : Nat → Nat) (C : Nat → Prop)
    (e : ReassEntry) (hs : List (Nat × Nat)) (hrep : RepOk P L content C e hs)
    (hB : ReassBufferSize P ≤ 65535) : e.first_hole_offset ≠ ReassNullLink := by
  obtain ⟨hchain, hgeom, hne, -, -, -, -⟩ := hrep
  cases hs with
  | nil => exact absurd rfl hne
  | cons y l =>
    have h1 : e.first_hole_offset = y.1 := hchain.1
    have h2 := hgeom.1
    have h3 : HoleDescSize ≤ y.2 := hgeom.2.1
    have h32 : 4 ≤ y.2 := h3
    have h4 : y.1 + y.2 ≤ ReassBufferSize P := hgeom.2.2.1
    rw [h1]
    simp only [ReassNullLink]
    omega

lemma initReassEntry_rep (P : ReassParams) (L : Nat) (content : Nat → Nat)
    (e0 : ReassEntry) (hdr : Nat → Nat) (expv : Nat)
    (hB : ReassBufferSize P ≤ 65535) (hB4 : 4 ≤ ReassBufferSize P) :
    RepOk P L content (fun _ => False) (initReassEntry P e0 hdr expv)
      [(0, ReassBufferSize P)] := by
  have hr1 : read16 (write16 (write16 e0.data 0 (ReassBufferSize P)) 2 ReassNullLink) 0 =
      ReassBufferSize P := by
    rw [read16_write16_ne _ _ _ _ (by omega), read16_write16_same _ _ _ (by omega)]
  have hr2 : read16 (write16 (write16 e0.data 0 (ReassBufferSize P)) 2 ReassNullLink) 2 =
      ReassNullLink := by
    rw [read16_write16_same]
    simp only [ReassNullLink]
    omega
  refine ⟨⟨rfl, hr1, ?_⟩, ⟨by omega, by simp only [HoleDescSize]; omega, by omega, trivial⟩,
    by simp, ?_, fun i hc => hc.elim, fun i hc => hc.elim, Or.inl rfl⟩
  · show chainAt _ (read16 _ (0 + 2)) []
    show read16 _ (0 + 2) = ReassNullLink
    exact hr2
  · intro i hi
    simp only [not_false_iff, iff_true]
    exact ⟨(0, ReassBufferSize P), List.mem_singleton.mpr rfl, by omega, by omega⟩

lemma alloc_single_free (P : ReassParams) (now ttl : Nat) (e : ReassEntry)
    (hfree : e.first_hole_offset = ReassNullLink) :
    alloc_reass_entry P now ttl [e] =
      (0, (now + min ttl P.maxReassTimeSeconds * P.timeFreq) % P.timeMod) := by
  simp [alloc_reass_entry, alloc_scan, hfree]

lemma reassembleIp4_single_live (P : ReassParams) (fuel now ident srcAddr dstAddr proto ttl : Nat)
    (header : Nat → Nat) (f : Fragment) (e : ReassEntry)
    (ht : f.tot_len ≠ 0)
    (hlive : e.first_hole_offset ≠ ReassNullLink)
    (hnexp : reassEntryExpired P now e = false)
    (hm : reassHeaderMatches ident srcAddr dstAddr proto e = true) :
    reassembleIp4 P fuel now ident srcAddr dstAddr proto ttl header f [e] =
      ([reassPost (processFragment P fuel f e) e], some (processFragment P fuel f e)) := by
  have hfind := find_single_live P now ident srcAddr dstAddr proto e hlive hnexp hm
  cases hres : processFragment P fuel f e with
  | invalidated x => simp [reassembleIp4, if_neg ht, hfind, hres, reassPost]
  | incomplete x => simp [reassembleIp4, if_neg ht, hfind, hres, reassPost]
  | completed x len => simp [reassembleIp4, if_neg ht, hfind, hres, reassPost]
  | stuck => simp [reassembleIp4, if_neg ht, hfind, hres, reassPost]

lemma reassembleIp4_single_free (P : ReassParams) (fuel now ident srcAddr dstAddr proto ttl : Nat)
    (header : Nat → Nat) (f : Fragment) (e : ReassEntry)
    (ht : f.tot_len ≠ 0)
    (hfree : e.first_hole_offset = ReassNullLink) :
    reassembleIp4 P fuel now ident srcAddr dstAddr proto ttl header f [e] =
      ([reassPost (processFragment P fuel f (initReassEntry P e header
          ((now + min ttl P.maxReassTimeSeconds * P.timeFreq) % P.timeMod)))
        (initReassEntry P e header
          ((now + min ttl P.maxReassTimeSeconds * P.timeFreq) % P.timeMod))],
       some (processFragment P fuel f (initReassEntry P e header
          ((now + min ttl P.maxReassTimeSeconds * P.timeFreq) % P.timeMod)))) := by
  have hfind := find_single_free P now ident srcAddr dstAddr proto e hfree
  have halloc := alloc_single_free P now ttl e hfree
  cases hres : processFragment P fuel f (initReassEntry P e header
      ((now + min ttl P.maxReassTimeSeconds * P.timeFreq) % P.timeMod)) with
  | invalidated x => simp [reassembleIp4, if_neg ht, hfind, halloc, hres, reassPost]
  | incomplete x => simp [reassembleIp4, if_neg ht, hfind, halloc, hres, reassPost]
  | completed x len => simp [reassembleIp4, if_neg ht, hfind, halloc, hres, reassPost]
  | stuck => simp [reassembleIp4, if_neg ht, hfind, halloc, hres, reassPost]

lemma reassRun_sound (P : ReassParams) (L : Nat) (content : Nat → Nat)
    (now ident srcAddr dstAddr proto ttl fuel : Nat) (header : Nat → Nat)
    (hB : ReassBufferSize P ≤ 65535)
    (hLB : L + HoleDescSize ≤ ReassBufferSize P)
    (hL0 : 0 < L)
    (hM : ReassMaxExpirationTicks P < P.timeMod)
    (hmatch : read16BE header 4 = ident ∧ read32BE header 12 = srcAddr ∧
      read32BE header 16 = dstAddr ∧ read16BE header 8 = proto) :
    ∀ (todo : List Fragment) (e : ReassEntry),
      (∀ g ∈ todo, 0 < g.tot_len ∧ g.fragment_offset + g.tot_len ≤ L ∧
        (g.more_fragments = false → g.fragment_offset + g.tot_len = L) ∧
        (∀ k, k < g.tot_len → g.bytes k % 256 = content (g.fragment_offset + k))) →
      todo.Pairwise (fun g1 g2 => g1.fragment_offset + g1.tot_len ≤ g2.fragment_offset ∨
        g2.fragment_offset + g2.tot_len ≤ g1.fragment_offset) →
      (e.first_hole_offset = ReassNullLink ∨
        (∃ C hs, RepOk P L content C e hs ∧ e.header = header ∧
          e.expiration_time = (now + min ttl P.maxReassTimeSeconds * P.timeFreq) % P.timeMod ∧
          (∀ g ∈ todo, ∀ i, g.fragment_offset ≤ i → i < g.fragment_offset + g.tot_len → ¬ C i))) →
      ∀ e2 len,
        reassRun P fuel now ident srcAddr dstAddr proto ttl header todo [e] = some (e2, len) →
        len = L ∧ e2.first_hole_offset = ReassNullLink ∧ (∀ i, i < L → e2.data i = content i) := by
  have hB4 : 4 ≤ ReassBufferSize P := by
    simp only [HoleDescSize] at hLB
    omega
  intro todo
  induction todo with
  | nil =>
    intro e hfr hdisj hinv e2 len hrun
    simp [reassRun] at hrun
  | cons f rest ih =>
    intro e hfr hdisj hinv e2 len hrun
    obtain ⟨hf1, hfend, hflast, hcont⟩ := hfr f (List.mem_cons_self f rest)
    have hfr2 : ∀ g ∈ rest, 0 < g.tot_len ∧ g.fragment_offset + g.tot_len ≤ L ∧
        (g.more_fragments = false → g.fragment_offset + g.tot_len = L) ∧
        (∀ k, k < g.tot_len → g.bytes k % 256 = content (g.fragment_offset + k)) :=
      fun g hg => hfr g (List.mem_cons_of_mem f hg)
    have hdhead := (List.pairwise_cons.mp hdisj).1
    have hdisj2 := (List.pairwise_cons.mp hdisj).2
    simp only [reassRun] at hrun
    rcases hinv with hfree | ⟨C, hs, hrep, hh, hexp, hCd⟩
    · -- allocate and initialise a fresh entry
      rw [reassembleIp4_single_free P fuel now ident srcAddr dstAddr proto ttl header f e
        (by omega) hfree] at hrun
      have hrepi := initReassEntry_rep P L content e header
        ((now + min ttl P.maxReassTimeSeconds * P.timeFreq) % P.timeMod) hB hB4
      rcases processFragment_step P L content (fun _ => False)
          (initReassEntry P e header
            ((now + min ttl P.maxReassTimeSeconds * P.timeFreq) % P.timeMod))
          [(0, ReassBufferSize P)] f fuel hrepi hB hLB hL0 hf1 hfend hflast
          (fun _ _ _ hc => hc) hcont with
        hres | ⟨einv, hres, hinvfh⟩ | ⟨e2x, hs2, hres, hrep2, hh2, hexp2⟩ | ⟨e2x, hres, hfh2, hh2, hpay⟩
      · rw [hres] at hrun
        simp only [reassPost] at hrun
        exact ih _ hfr2 hdisj2 (Or.inr ⟨_, _, hrepi, rfl, rfl, fun g hg i h1 h2 hc => hc⟩)
          e2 len hrun
      · rw [hres] at hrun
        simp only [reassPost] at hrun
        exact ih _ hfr2 hdisj2 (Or.inl hinvfh) e2 len hrun
      · rw [hres] at hrun
        simp only [reassPost] at hrun
        refine ih _ hfr2 hdisj2 (Or.inr ⟨_, _, hrep2, hh2, by rw [hexp2]; rfl, ?_⟩) e2 len hrun
        intro g hg i h1 h2 hc
        rcases hc with hc | hc
        · exact hc
        · rcases hdhead g hg with hd | hd <;> omega
      · rw [hres] at hrun
        simp only at hrun
        obtain ⟨he2, hlen⟩ := Prod.mk.injEq .. ▸ (Option.some.injEq .. ▸ hrun)
        exact ⟨hlen.symm, he2 ▸ hfh2, he2 ▸ hpay⟩
    · -- live entry satisfying the invariant
      have hmB : reassHeaderMatches ident srcAddr dstAddr proto e = true := by
        simp [reassHeaderMatches, hh, hmatch.1, hmatch.2.1, hmatch.2.2.1, hmatch.2.2.2]
      have hlive := RepOk_live P L content C e hs hrep hB
      have hnexp := fresh_not_expired P now ttl e hM hexp
      rw [reassembleIp4_single_live P fuel now ident srcAddr dstAddr proto ttl header f e
        (by omega) hlive hnexp hmB] at hrun
      rcases processFragment_step P L content C e hs f fuel hrep hB hLB hL0 hf1 hfend hflast
          (hCd f (List.mem_cons_self f rest)) hcont with
        hres | ⟨einv, hres, hinvfh⟩ | ⟨e2x, hs2, hres, hrep2, hh2, hexp2⟩ | ⟨e2x, hres, hfh2, hh2, hpay⟩
      · rw [hres] at hrun
        simp only [reassPost] at hrun
        exact ih _ hfr2 hdisj2 (Or.inr ⟨C, hs, hrep, hh, hexp,
          fun g hg i h1 h2 => hCd g (List.mem_cons_of_mem f hg) i h1 h2⟩) e2 len hrun
      · rw [hres] at hrun
        simp only [reassPost] at hrun
        exact ih _ hfr2 hdisj2 (Or.inl hinvfh) e2 len hrun
      · rw [hres] at hrun
        simp only [reassPost] at hrun
        refine ih _ hfr2 hdisj2 (Or.inr ⟨_, _, hrep2, by rw [hh2, hh], by rw [hexp2, hexp], ?_⟩)
          e2 len hrun
        intro g hg i h1 h2 hc
        rcases hc with hc | hc
        · exact hCd g (List.mem_cons_of_mem f hg) i h1 h2 hc
        · rcases hdhead g hg with hd | hd <;> omega
      · rw [hres] at hrun
        simp only at hrun
        obtain ⟨he2, hlen⟩ := Prod.mk.injEq .. ▸ (Option.some.injEq .. ▸ hrun)
        exact ⟨hlen.symm, he2 ▸ hfh2, he2 ▸ hpay⟩

/-- C3: reorder invariance of reassembly.  For a fixed set of fragments
that exactly tile one datagram of length `L` (pairwise disjoint, each
within `[0, L)`, the more-fragments flag cleared exactly on a fragment
ending at `L`, payload bytes given by `content`), feeding any two
permutations of the fragments through `reassembleIp4` on a single-entry
reassembly array either completes with identical payload bytes
`[0, L)` (equal to `content`) or does not complete at all: whenever two
permutation runs both complete, the lengths are both `L` and the
payloads agree byte for byte. -/
theorem reassembly_reorder_invariant
    (P : ReassParams) (L : Nat) (content : Nat → Nat)
    (now ident srcAddr dstAddr proto ttl fuel : Nat) (header : Nat → Nat)
    (frags perm1 perm2 : List Fragment) (e0 : ReassEntry)
    (e2 e3 : ReassEntry) (len2 len3 : Nat)
    (hB : ReassBufferSize P ≤ 65535)
    (hLB : L + HoleDescSize ≤ ReassBufferSize P)
    (hL0 : 0 < L)
    (hM : ReassMaxExpirationTicks P < P.timeMod)
    (hmatch : read16BE header 4 = ident ∧ read32BE header 12 = srcAddr ∧
      read32BE header 16 = dstAddr ∧ read16BE header 8 = proto)
    (hfree : e0.first_hole_offset = ReassNullLink)
    (hfr : ∀ g ∈ frags, 0 < g.tot_len ∧ g.fragment_offset + g.tot_len ≤ L ∧
      (g.more_fragments = false → g.fragment_offset + g.tot_len = L) ∧
      (∀ k, k < g.tot_len → g.bytes k % 256 = content (g.fragment_offset + k)))
    (hdisj : frags.Pairwise (fun g1 g2 =>
      g1.fragment_offset + g1.tot_len ≤ g2.fragment_offset ∨
      g2.fragment_offset + g2.tot_len ≤ g1.fragment_offset))
    (hp1 : perm1.Perm frags) (hp2 : perm2.Perm frags)
    (hr1 : reassRun P fuel now ident srcAddr dstAddr proto ttl header perm1 [e0] =
      some (e2, len2))
    (hr2 : reassRun P fuel now ident srcAddr dstAddr proto ttl header perm2 [e0] =
      some (e3, len3)) :
    len2 = L ∧ len3 = L ∧ (∀ i, i < L → e2.data i = content i) ∧
      (∀ i, i < L → e2.data i = e3.data i) := by
  have hs1 := reassRun_sound P L content now ident srcAddr dstAddr proto ttl fuel header
    hB hLB hL0 hM hmatch perm1 e0 (fun g hg => hfr g (hp1.subset hg))
    ((hp1.pairwise_iff (fun h => Or.symm h)).mpr hdisj) (Or.inl hfree) e2 len2 hr1
  have hs2 := reassRun_sound P L content now ident srcAddr dstAddr proto ttl fuel header
    hB hLB hL0 hM hmatch perm2 e0 (fun g hg => hfr g (hp2.subset hg))
    ((hp2.pairwise_iff (fun h => Or.symm h)).mpr hdisj) (Or.inl hfree) e3 len3 hr2
  refine ⟨hs1.1, hs2.1, hs1.2.2, ?_⟩
  intro i hi
  rw [hs1.2.2 i hi, hs2.2.2 i hi]

def reassFreeEx : ReassEntry := ⟨ReassNullLink, 0, 0, fun _ => 0, fun _ => 0⟩

def reassParamsC3 : ReassParams := ⟨8, 4, 60, 1, 2 ^ 32⟩

def reassHdrC3 : Nat → Nat :=
  fun i => if i = 5 then 1 else if i = 9 then 6 else if i = 15 then 2 else if i = 19 then 3 else 0

def reassFragsC3 : List Fragment := [⟨true, 0, 4, fun k => k⟩, ⟨false, 4, 4, fun k => 4 + k⟩]

def reassPermC3 : List Fragment := [⟨false, 4, 4, fun k => 4 + k⟩, ⟨true, 0, 4, fun k => k⟩]

def contentC3 : Nat → Nat := fun i => i % 256

theorem reassembly_reorder_invariant_witness :
    ((reassRun reassParamsC3 4 0 1 2 3 6 30 reassHdrC3 reassFragsC3 [reassFreeEx]).map
        (fun r => (r.2, r.1.data 0, r.1.data 5, r.1.data 7)) = some (8, 0, 5, 7)) ∧
    ((reassRun reassParamsC3 4 0 1 2 3 6 30 reassHdrC3 reassPermC3 [reassFreeEx]).map
        (fun r => (r.2, r.1.data 5)) = some (8, 5)) := by
  have hsome1 : (reassRun reassParamsC3 4 0 1 2 3 6 30 reassHdrC3 reassFragsC3
      [reassFreeEx]).isSome = true := rfl
  have hsome2 : (reassRun reassParamsC3 4 0 1 2 3 6 30 reassHdrC3 reassPermC3
      [reassFreeEx]).isSome = true := rfl
  obtain ⟨r1, h1⟩ := Option.isSome_iff_exists.mp hsome1
  obtain ⟨r2, h2⟩ := Option.isSome_iff_exists.mp hsome2
  have hmain := reassembly_reorder_invariant reassParamsC3 8 contentC3 0 1 2 3 6 30 4
    reassHdrC3 reassFragsC3 reassFragsC3 reassPermC3 reassFreeEx r1.1 r2.1 r1.2 r2.2
    (by decide) (by decide) (by decide) (by decide) (by decide) rfl
    (by decide) (by decide) (List.Perm.refl _)
    (by exact List.Perm.swap _ _ _) h1 h2
  refine ⟨?_, ?_⟩
  · rw [h1]
    have h8 : r1.2 = 8 := hmain.1
    have hv0 : r1.1.data 0 = 0 := hmain.2.2.1 0 (by decide)
    have hv5 : r1.1.data 5 = 5 := hmain.2.2.1 5 (by decide)
    have hv7 : r1.1.data 7 = 7 := hmain.2.2.1 7 (by decide)
    simp [h8, hv0, hv5, hv7]
  · rw [h2]
    have h8 : r2.2 = 8 := hmain.2.1
    have hv5 : r2.1.data 5 = 5 := by
      rw [← hmain.2.2.2 5 (by decide)]
      exact hmain.2.2.1 5 (by decide)
    simp [h8, hv5]

end AIpStack